import Mathlib

/-!
# Seven Wonders Duel: rules engine

A shallow embedding of the rules engine of the repository (`RulesEngine.cpp`,
`Board.h`, `Card.h`, `Player.h`, `GameController.h`, `Global.h`) together with the
properties established about it.

Conventions of the embedding:

* a `std::map<K, V>` over an enumeration `K` is a function `K → Option V`
  (at most one entry per key); iteration visits the present keys in ascending
  enumeration order, which is the order `std::map` guarantees; the production
  maps of a player, which are only ever looked up, are total functions (an
  absent key reads as 0);
* a `std::set<K>` is a list used only through membership;
* a `std::vector<T>` is a `List T`;
* C++ `int` values that the code compares or negates are `Int`; quantities that
  are counts of units (resources, coins) are `Nat`.
-/

namespace SevenWondersDuel

/-! ## Global.h -/

/-- The enumeration `ResourceType`. -/
inductive ResourceType where
  | WOOD | STONE | CLAY | PAPER | GLASS
  deriving DecidableEq, Repr, Fintype

/-- The enumeration `CardType`. -/
inductive CardType where
  | RAW_MATERIAL | MANUFACTURED | CIVILIAN | SCIENTIFIC | COMMERCIAL | MILITARY | GUILD | WONDER
  deriving DecidableEq, Repr, Fintype

/-- The enumeration `ScienceSymbol`; `NONE` is the null symbol. -/
inductive ScienceSymbol where
  | NONE | GLOBE | TABLET | MORTAR | COMPASS | WHEEL | QUILL | LAW
  deriving DecidableEq, Repr, Fintype

/-- The enumeration `GameState`. -/
inductive GameState where
  | WONDER_DRAFT_PHASE_1
  | WONDER_DRAFT_PHASE_2
  | AGE_PLAY_PHASE
  | WAITING_FOR_TOKEN_SELECTION_PAIR
  | WAITING_FOR_TOKEN_SELECTION_LIB
  | WAITING_FOR_DESTRUCTION
  | WAITING_FOR_DISCARD_BUILD
  | WAITING_FOR_START_PLAYER_SELECTION
  | GAME_OVER
  deriving DecidableEq, Repr, Fintype

/-- The enumeration `ActionType`. Its last value, `INVALID`, is not an enumerator of the
source: it stands for `static_cast<ActionType>(-1)`, the out-of-range value with which the
agents initialise the action they return when they find nothing to do. -/
inductive ActionType where
  | DRAFT_WONDER
  | BUILD_CARD
  | DISCARD_FOR_COINS
  | BUILD_WONDER
  | SELECT_PROGRESS_TOKEN
  | SELECT_DESTRUCTION
  | SELECT_FROM_DISCARD
  | CHOOSE_STARTING_PLAYER
  | INVALID
  deriving DecidableEq, Repr, Fintype

/-- The enumeration `ProgressToken`. -/
inductive ProgressToken where
  | NONE | AGRICULTURE | URBANISM | STRATEGY | THEOLOGY | ECONOMY
  | MASONRY | ARCHITECTURE | LAW | MATHEMATICS | PHILOSOPHY
  deriving DecidableEq, Repr, Fintype

/-- The enumeration `VictoryType`. -/
inductive VictoryType where
  | NONE | MILITARY | SCIENCE | CIVILIAN
  deriving DecidableEq, Repr, Fintype

/-- The struct `Action`. -/
structure Action where
  type : ActionType
  targetCardId : String := ""
  targetWonderId : String := ""
  selectedToken : ProgressToken := ProgressToken.NONE
  chosenResource : ResourceType := ResourceType.WOOD
  deriving DecidableEq, Repr

/-- The struct `ActionResult`. -/
structure ActionResult where
  isValid : Bool
  cost : Int := 0
  message : String := ""
  deriving DecidableEq, Repr

namespace Config

def MASONRY_DISCOUNT : Nat := 2
def ARCHITECTURE_DISCOUNT : Nat := 2
def MILITARY_THRESHOLD_LOOT_1 : Int := 3
def MILITARY_THRESHOLD_LOOT_2 : Int := 6
def MILITARY_THRESHOLD_WIN : Int := 9
def MILITARY_LOOT_VALUE_1 : Int := 2
def MILITARY_LOOT_VALUE_2 : Int := 5
def SCIENCE_WIN_THRESHOLD : Int := 6
def SCIENCE_PAIR_COUNT : Int := 2
def TRADING_BASE_COST : Nat := 2

end Config

/-- The keys of a `std::map<ScienceSymbol, _>` in iteration (ascending enum) order. -/
def ScienceSymbol.all : List ScienceSymbol :=
  [.NONE, .GLOBE, .TABLET, .MORTAR, .COMPASS, .WHEEL, .QUILL, .LAW]

/-- The keys of a `std::map<ResourceType, _>` in iteration (ascending enum) order. -/
def ResourceType.all : List ResourceType :=
  [.WOOD, .STONE, .CLAY, .PAPER, .GLASS]

/-- The `(key, value)` pairs of a `std::map<ScienceSymbol, int>` as a range-for visits them. -/
def scienceEntries (m : ScienceSymbol → Option Int) : List (ScienceSymbol × Int) :=
  ScienceSymbol.all.filterMap (fun s => (m s).map (fun c => (s, c)))

/-! ## EffectSystem.h -/

/-- The enumeration `GuildCriteria`. -/
inductive GuildCriteria where
  | YELLOW_CARDS | BROWN_GREY_CARDS | WONDERS | BLUE_CARDS | GREEN_CARDS | RED_CARDS | COINS
  deriving DecidableEq, Repr, Fintype

/-- The thirteen classes derived from `IEffect`, as a closed variant type; each constructor
carries the data members of its class. -/
inductive Effect where
  | production (producedResources : ResourceType → Option Nat) (isChoice isTradable : Bool)
  | military (shields : Int) (isFromCard : Bool)
  | science (symbol : ScienceSymbol)
  | victoryPoint (points : Int)
  | coin (amount : Nat)
  | coinsPerType (targetType : CardType) (coinsPerCard : Nat) (countWonder : Bool)
  | tradeDiscount (resource : ResourceType)
  | destroyCard (targetColor : CardType)
  | extraTurn
  | buildFromDiscard
  | progressTokenSelect
  | opponentLoseCoins (amount : Nat)
  | guild (criteria : GuildCriteria)

/-! ## Card.h -/

/-- The class `ResourceCost`: a coin amount and a `std::map<ResourceType, int>`. -/
structure ResourceCost where
  coins : Nat := 0
  resources : ResourceType → Option Nat := fun _ => none

/-- The class `Card`; immutable once loaded, so a `Card*` is modelled by the card it points
to. -/
structure Card where
  id : String := ""
  name : String := ""
  age : Int := 0
  type : CardType := CardType.CIVILIAN
  cost : ResourceCost := {}
  chainTag : String := ""
  requiresChainTag : String := ""
  effects : List Effect := []

/-- The class `Wonder`. -/
structure Wonder where
  id : String := ""
  name : String := ""
  cost : ResourceCost := {}
  effects : List Effect := []
  isBuilt : Bool := false

/-- The class `CardSlot`; `cardPtr` is `none` for a null `m_cardPtr`. -/
structure CardSlot where
  id : String := ""
  cardPtr : Option Card := none
  isFaceUp : Bool := false
  isRemoved : Bool := false
  row : Int := 0
  index : Int := 0
  coveredBy : List Int := []

/-! ## Player.h -/

/-- The data members of the class `Player` that the rules read. -/
structure Player where
  id : Int := 0
  coins : Nat := 0
  builtCards : List Card := []
  builtWonders : List Wonder := []
  unbuiltWonders : List Wonder := []
  fixedResources : ResourceType → Nat := fun _ => 0
  publicProduction : ResourceType → Nat := fun _ => 0
  choiceResources : List (List ResourceType) := []
  scienceSymbols : ScienceSymbol → Option Int := fun _ => none
  claimedSciencePairs : List ScienceSymbol := []
  ownedChainTags : List String := []
  progressTokens : List ProgressToken := []
  tradingDiscounts : ResourceType → Bool := fun _ => false

/-! ## Board.h -/

/-- The class `MilitaryTrack`: the position and the four loot tokens
`[P0-5, P0-2, P1-2, P1-5]` (`true`: still on the track). -/
structure MilitaryTrack where
  position : Int := 0
  loot0 : Bool := true
  loot1 : Bool := true
  loot2 : Bool := true
  loot3 : Bool := true
  deriving DecidableEq, Repr

/-- The class `CardPyramid`. -/
structure CardPyramid where
  slots : List CardSlot := []

/-- The class `Board`. -/
structure Board where
  militaryTrack : MilitaryTrack := {}
  cardStructure : CardPyramid := {}
  discardPile : List Card := []
  availableProgressTokens : List ProgressToken := []
  boxProgressTokens : List ProgressToken := []

/-! ## RulesEngine -/

/-- The struct `VictoryResult` with its default member initialisers. -/
structure VictoryResult where
  isGameOver : Bool := false
  type : VictoryType := VictoryType.NONE
  winnerIndex : Int := -1
  deriving DecidableEq, Repr

/-- The loop of `RulesEngine::getNewSciencePairSymbol` over the entries still to visit. -/
def pairScan (claimed : List ScienceSymbol) : List (ScienceSymbol × Int) → ScienceSymbol
  | [] => ScienceSymbol.NONE
  | (sym, count) :: rest =>
    if sym = ScienceSymbol.NONE then pairScan claimed rest
    else if count ≥ Config.SCIENCE_PAIR_COUNT then
      if sym ∉ claimed then sym else pairScan claimed rest
    else pairScan claimed rest

/-- The function `RulesEngine::getNewSciencePairSymbol`. -/
def getNewSciencePairSymbol (player : Player) : ScienceSymbol :=
  pairScan player.claimedSciencePairs (scienceEntries player.scienceSymbols)

/-- The inner loop of `RulesEngine::checkInstantVictory`: `distinctSymbols` after visiting
the given entries, starting from `acc`. -/
def countDistinct : List (ScienceSymbol × Int) → Int → Int
  | [], acc => acc
  | (sym, count) :: rest, acc =>
    if sym ≠ ScienceSymbol.NONE ∧ count > 0 then countDistinct rest (acc + 1)
    else countDistinct rest acc

/-- The value of `distinctSymbols` for one player. -/
def distinctSymbols (p : Player) : Int :=
  countDistinct (scienceEntries p.scienceSymbols) 0

/-- The function `RulesEngine::checkInstantVictory` (the two-iteration player loop unrolled). -/
def checkInstantVictory (p1 p2 : Player) (board : Board) : VictoryResult :=
  let pos := board.militaryTrack.position
  if |pos| ≥ Config.MILITARY_THRESHOLD_WIN then
    { isGameOver := true, type := VictoryType.MILITARY,
      winnerIndex := if pos > 0 then 0 else 1 }
  else if distinctSymbols p1 ≥ Config.SCIENCE_WIN_THRESHOLD then
    { isGameOver := true, type := VictoryType.SCIENCE, winnerIndex := 0 }
  else if distinctSymbols p2 ≥ Config.SCIENCE_WIN_THRESHOLD then
    { isGameOver := true, type := VictoryType.SCIENCE, winnerIndex := 1 }
  else {}

/-! ## CardPyramid::Iterator -/

/-- The test `!slot.isRemoved() && slot.getCoveredBy().empty()` of `advanceToNextAvailable`. -/
def CardSlot.available (slot : CardSlot) : Bool :=
  !slot.isRemoved && slot.coveredBy.isEmpty

/-- The loop of `advanceToNextAvailable`, run on the slots from `m_currentIndex` on
(`rest` is `m_slots` from position `i`; it is empty exactly when `i < size` fails). -/
def skipUnavailable : List CardSlot → Nat → Nat
  | [], i => i
  | slot :: rest, i => if slot.available then i else skipUnavailable rest (i + 1)

/-- The method `Iterator::advanceToNextAvailable`: the new value of `m_currentIndex`. -/
def advanceToNextAvailable (slots : List CardSlot) (i : Nat) : Nat :=
  skipUnavailable (slots.drop i) i

/-- The index held by `CardPyramid::begin()`, that is `Iterator(&m_slots, 0)`. -/
def CardPyramid.begin (p : CardPyramid) : Nat :=
  advanceToNextAvailable p.slots 0

/-- The index held by `CardPyramid::end()`, that is `Iterator(&m_slots, size)`. -/
def CardPyramid.endIndex (p : CardPyramid) : Nat :=
  advanceToNextAvailable p.slots p.slots.length

/-- The pre-increment `Iterator::operator++`. -/
def CardPyramid.next (p : CardPyramid) (i : Nat) : Nat :=
  advanceToNextAvailable p.slots (i + 1)

/-- The loop `for (it = from; it != end(); ++it)` collecting the visited indices; `none` when
`fuel` iterations do not reach `end()`. -/
def CardPyramid.traverseFrom (p : CardPyramid) : Nat → Nat → Option (List Nat)
  | 0, _ => none
  | fuel + 1, i =>
    if i = p.endIndex then some []
    else (p.traverseFrom fuel (p.next i)).map (fun visited => i :: visited)

/-- The indices visited by a range-for over the pyramid, from `begin()` to `end()`. -/
def CardPyramid.traverse (p : CardPyramid) : Option (List Nat) :=
  p.traverseFrom (p.slots.length + 1) p.begin

/-! ## Player: science bookkeeping -/

/-- Modelled from the spec: `Player::addScienceSymbol` (declared in `Player.h`, body not
among the sources) increments the counter of the symbol in `m_scienceSymbols` and touches
nothing else ("Science: increments a symbol counter"). -/
def Player.addScienceSymbol (p : Player) (s : ScienceSymbol) : Player :=
  { p with scienceSymbols := fun k =>
      if k = s then some ((p.scienceSymbols s).getD 0 + 1) else p.scienceSymbols k }

/-! ## Player: cost and trading price -/

/-- Modelled from the spec: `Player::getTradingPrice` (declared in `Player.h`, body not
among the sources) is the bank price of one unit:
"`basePrice(2) + opponent.publicProduction[resource]`, or at fixed price 1 if the player's
trading-discount flag for that resource is active". -/
def Player.getTradingPrice (p : Player) (type : ResourceType) (opponent : Player) : Nat :=
  if p.tradingDiscounts type then 1
  else Config.TRADING_BASE_COST + opponent.publicProduction type

/-- Modelled from the spec: `Player::setTradingDiscount` (declared in `Player.h`, body not
among the sources) sets the per-resource flag
("TradeDiscount: sets a per-resource flag fixing that resource's bank price to 1"). -/
def Player.setTradingDiscount (p : Player) (r : ResourceType) (active : Bool) : Player :=
  { p with tradingDiscounts := fun k => if k = r then active else p.tradingDiscounts k }

/-- Modelled from the spec: `Player::addResource` (declared in `Player.h`, body not among
the sources) adds `count` units of fixed production, and of publicly visible production when
`isTradable` ("Production: grants resources; `isTradable` controls whether the gain is
visible to the opponent's pricing"). -/
def Player.addResource (p : Player) (type : ResourceType) (count : Nat) (isTradable : Bool) :
    Player :=
  { p with
    fixedResources := fun k =>
      if k = type then p.fixedResources k + count else p.fixedResources k
    publicProduction := fun k =>
      if k = type ∧ isTradable = true then p.publicProduction k + count
      else p.publicProduction k }

/-- Modelled from the spec: step (a) of the cost algorithm of `Player::calculateCost`, the
coin component after the "cheap construction" token
reductions, floored at zero. -/
def Player.adjustedCoins (p : Player) (cost : ResourceCost) (targetType : CardType) : Nat :=
  let masonry :=
    if targetType = CardType.CIVILIAN ∧ ProgressToken.MASONRY ∈ p.progressTokens
    then Config.MASONRY_DISCOUNT else 0
  let architecture :=
    if targetType = CardType.WONDER ∧ ProgressToken.ARCHITECTURE ∈ p.progressTokens
    then Config.ARCHITECTURE_DISCOUNT else 0
  cost.coins - masonry - architecture

/-- Modelled from the spec: step (b) of the cost algorithm of `Player::calculateCost`, the
units of each resource still required after the owned fixed production is subtracted. -/
def Player.missing (p : Player) (cost : ResourceCost) (r : ResourceType) : Nat :=
  (cost.resources r).getD 0 - p.fixedResources r

/-- Modelled from the spec: step (d) of the cost algorithm of `Player::calculateCost`, the
price of buying every unit of `need` from the bank. -/
def bankCost (price need : ResourceType → Nat) : Nat :=
  (ResourceType.all.map (fun r => need r * price r)).sum

/-- One unit of `t` less to cover. -/
def useOne (need : ResourceType → Nat) (t : ResourceType) : ResourceType → Nat :=
  fun r => if r = t then need r - 1 else need r

/-- The smallest of `best` and the candidates. -/
def minOver (best : Nat) (candidates : List Nat) : Nat :=
  candidates.foldl min best

/-- Modelled from the spec: step (c) of the cost algorithm of `Player::calculateCost`, the
exhaustive search over the choice entries. Each entry is either left unused or covers one
still-required unit of a type it contains; what is left at the end is bought from the bank;
the cheapest outcome is kept. -/
def searchChoices (price : ResourceType → Nat) :
    List (List ResourceType) → (ResourceType → Nat) → Nat
  | [], need => bankCost price need
  | entry :: rest, need =>
    minOver (searchChoices price rest need)
      ((entry.filter (fun t => 0 < need t)).map
        (fun t => searchChoices price rest (useOne need t)))

/-- Modelled from the spec: `Player::calculateCost` (declared in `Player.h`, body not among
the sources) follows the steps (a) to (e) of the cost algorithm and returns
`(affordable, totalCoins)`. -/
def Player.calculateCost (p : Player) (cost : ResourceCost) (opponent : Player)
    (targetType : CardType) : Bool × Nat :=
  let total := p.adjustedCoins cost targetType +
    searchChoices (fun r => p.getTradingPrice r opponent) p.choiceResources (p.missing cost)
  (decide (total ≤ p.coins), total)

/-- A way of using the choice entries, following the words of the spec: the entry at each
position is either unused (`none`) or covers one unit of a type it contains. -/
def IsAssignment : List (List ResourceType) → List (Option ResourceType) → Prop
  | [], [] => True
  | entry :: rest, o :: os => (∀ t, o = some t → t ∈ entry) ∧ IsAssignment rest os
  | _, _ => False

/-- The coins paid to the bank under an assignment: every required unit that no choice entry
covers is bought. -/
def assignmentCost (price need : ResourceType → Nat) (a : List (Option ResourceType)) : Nat :=
  bankCost price (fun r => need r - a.count (some r))

/-! ## MilitaryTrack -/

/-- Modelled from the spec: `MilitaryTrack::move` (declared in `Board.h`, body not among the
sources). "Position updates by ±shields depending on which side gained them, clamped to
[-9,9]"; reaching the thresholds 3 and 6 consumes the loot token of the losing side and
reports the loot event (negative: P0 loses coins, positive: P1 loses coins). Player 0 pushes
towards the positive end, the side `RulesEngine::checkInstantVictory` awards to index 0. -/
def MilitaryTrack.move (t : MilitaryTrack) (shields : Int) (currentPlayerId : Int) :
    MilitaryTrack × List Int :=
  let raw := if currentPlayerId = 0 then t.position + shields else t.position - shields
  let pos := max (-Config.MILITARY_THRESHOLD_WIN) (min Config.MILITARY_THRESHOLD_WIN raw)
  let hit2 := decide (Config.MILITARY_THRESHOLD_LOOT_1 ≤ pos) && t.loot2
  let hit3 := decide (Config.MILITARY_THRESHOLD_LOOT_2 ≤ pos) && t.loot3
  let hit1 := decide (pos ≤ -Config.MILITARY_THRESHOLD_LOOT_1) && t.loot1
  let hit0 := decide (pos ≤ -Config.MILITARY_THRESHOLD_LOOT_2) && t.loot0
  ({ position := pos
     loot0 := t.loot0 && !hit0
     loot1 := t.loot1 && !hit1
     loot2 := t.loot2 && !hit2
     loot3 := t.loot3 && !hit3 },
   (if hit2 then [Config.MILITARY_LOOT_VALUE_1] else []) ++
   (if hit3 then [Config.MILITARY_LOOT_VALUE_2] else []) ++
   (if hit1 then [-Config.MILITARY_LOOT_VALUE_1] else []) ++
   (if hit0 then [-Config.MILITARY_LOOT_VALUE_2] else []))

/-- The track after a sequence of `move(shields, playerId)` calls. -/
def MilitaryTrack.moves (t : MilitaryTrack) (calls : List (Int × Int)) : MilitaryTrack :=
  calls.foldl (fun track call => (track.move call.1 call.2).1) t

/-! ## GameController -/

/-- The class `GameModel`: the two players, the board and the turn bookkeeping. -/
structure GameModel where
  player0 : Player := {}
  player1 : Player := {}
  board : Board := {}
  currentAge : Int := 0
  currentPlayerIndex : Int := 0
  winnerIndex : Int := -1
  victoryType : VictoryType := VictoryType.NONE
  draftPool : List Wonder := []

/-- The data members of the class `GameController`. -/
structure GameController where
  model : GameModel := {}
  currentState : GameState := GameState.WONDER_DRAFT_PHASE_1
  extraTurnPending : Bool := false
  draftTurnCount : Int := 0
  pendingDestructionType : CardType := CardType.CIVILIAN

/-- The parts of the controller whose bodies are not among the sources, taken as
parameters: the validators of the non-terminal states, the command built for an action
together with the effects it triggers, and the turn/age advance that follows an action. -/
structure Collaborators where
  validate : GameState → Action → GameController → ActionResult
  execute : Action → GameController → GameController
  advance : GameController → GameController

/-- Modelled from the spec: `GameController::validateAction` (declared in
`GameController.h`, body not among the sources) delegates to the validator of
the current state, without side effects; the terminal state `GAME_OVER` accepts no action. -/
def GameController.validateAction (k : Collaborators) (c : GameController) (action : Action) :
    ActionResult :=
  match c.currentState with
  | GameState.GAME_OVER => { isValid := false }
  | s => k.validate s action c

/-- Modelled from the spec: `GameController::checkVictoryConditions` (declared in
`GameController.h`, body not among the sources) records an instant
victory found by `RulesEngine::checkInstantVictory` and enters `GAME_OVER`. -/
def GameController.checkVictoryConditions (c : GameController) : GameController :=
  let v := checkInstantVictory c.model.player0 c.model.player1 c.model.board
  if v.isGameOver then
    { c with
      model := { c.model with winnerIndex := v.winnerIndex, victoryType := v.type }
      currentState := GameState.GAME_OVER }
  else c

/-- Modelled from the spec: `GameController::processAction` (declared in
`GameController.h`, body not among the sources) follows the action pipeline: validate (fail
closed), build and execute the command, check instant victory, then advance unless the game
is over. The result is the returned flag and the controller afterwards. -/
def GameController.processAction (k : Collaborators) (c : GameController) (action : Action) :
    Bool × GameController :=
  if (c.validateAction k action).isValid = false then (false, c)
  else
    let c1 := (k.execute action c).checkVictoryConditions
    if c1.currentState = GameState.GAME_OVER then (true, c1)
    else (true, k.advance c1)

/-! ## Military loot -/

/-- The loot events reported by a sequence of `move(shields, playerId)` calls, in order. -/
def MilitaryTrack.lootEvents (t : MilitaryTrack) : List (Int × Int) → List Int
  | [] => []
  | call :: rest => (t.move call.1 call.2).2 ++ (t.move call.1 call.2).1.lootEvents rest

/-- Modelled from the spec: the coin deduction applied to a looted player (the mutators of
`Player` are declared in `Player.h`, bodies not among the sources): "deducts the associated
coin amount ... from that opponent, floored at zero coins". -/
def Player.loseCoins (p : Player) (amount : Nat) : Player :=
  { p with coins := p.coins - amount }

/-- Modelled from the spec: `GameController::resolveMilitaryLoot` (declared in
`GameController.h`, body not among the sources) applies the loot events of a move: a
positive event makes P1 lose that many coins, a negative one makes P0 lose them. -/
def GameModel.resolveMilitaryLoot (m : GameModel) (lootEvents : List Int) : GameModel :=
  lootEvents.foldl
    (fun acc e =>
      if 0 < e then { acc with player1 := acc.player1.loseCoins e.toNat }
      else if e < 0 then { acc with player0 := acc.player0.loseCoins (-e).toNat }
      else acc)
    m

/-- Modelled from the spec: `GameController::moveMilitary` (declared in `GameController.h`,
body not among the sources) moves the track of the board through `Board::moveMilitary`,
resolves the loot events on the players and returns the events. -/
def GameController.moveMilitary (c : GameController) (shields playerId : Int) :
    GameController × List Int :=
  let moved := c.model.board.militaryTrack.move shields playerId
  let m1 : GameModel := { c.model with board := { c.model.board with militaryTrack := moved.1 } }
  ({ c with model := m1.resolveMilitaryLoot moved.2 }, moved.2)

/-! ## CardPyramid::removeCard -/

/-- Modelled from the spec: `CardSlot::notifyCoveringRemoved` (declared in `Card.h`, body
not among the sources) removes `index` from the covering set of the slot; a slot "whose
covering set becomes empty flips to face-up". The flag tells whether the call turned the
slot over. -/
def CardSlot.notifyCoveringRemoved (slot : CardSlot) (index : Int) : CardSlot × Bool :=
  if index ∈ slot.coveredBy then
    let remaining := slot.coveredBy.filter (fun i => i ≠ index)
    if remaining.isEmpty then
      ({ slot with coveredBy := remaining, isFaceUp := true }, !slot.isFaceUp)
    else ({ slot with coveredBy := remaining }, false)
  else (slot, false)

/-- The position, counted from `i`, of the first slot that carries the id and is still in
the pyramid. -/
def findSlotFrom (cardId : String) : List CardSlot → Nat → Option Nat
  | [], _ => none
  | slot :: rest, i =>
    if slot.id = cardId ∧ slot.isRemoved = false then some i
    else findSlotFrom cardId rest (i + 1)

/-- The slots from position `j` on after the slot at position `removed` has been taken: that
slot is marked removed, every other slot is notified. -/
def notifySlots (removed : Nat) : List CardSlot → Nat → List CardSlot
  | [], _ => []
  | slot :: rest, j =>
    (if j = removed then { slot with isRemoved := true }
      else (slot.notifyCoveringRemoved (removed : Int)).1) :: notifySlots removed rest (j + 1)

/-- Modelled from the spec: `CardPyramid::removeCard` (declared in `Board.h`, body not among
the sources) "marks its slot removed, then, for every other slot, removes this slot's index
from that slot's covering set; any slot whose covering set becomes empty flips to face-up".
It returns the card of the slot, or nothing when no slot still in the pyramid has the id. -/
def CardPyramid.removeCard (p : CardPyramid) (cardId : String) : CardPyramid × Option Card :=
  match findSlotFrom cardId p.slots 0 with
  | none => (p, none)
  | some removed =>
    ({ slots := notifySlots removed p.slots 0 }, (p.slots[removed]?).bind CardSlot.cardPtr)

/-- The slots visited by a range-for over the pyramid (`for (const auto& slot : pyramid)`),
in order. -/
def CardPyramid.visitedSlots (p : CardPyramid) : List CardSlot :=
  match p.traverse with
  | some visited => visited.filterMap (fun i => p.slots[i]?)
  | none => []

/-! ## Player: construction bookkeeping -/

/-- Modelled from the spec: `Player::gainCoins` (declared in `Player.h`, body not among the
sources) adds coins. -/
def Player.gainCoins (p : Player) (amount : Nat) : Player :=
  { p with coins := p.coins + amount }

/-- Modelled from the spec: `Player::payCoins` (declared in `Player.h`, body not among the
sources) takes coins away; a player's coins never go below zero. -/
def Player.payCoins (p : Player) (amount : Nat) : Player :=
  { p with coins := p.coins - amount }

/-- Modelled from the spec: `Player::addProductionChoice` (declared in `Player.h`, body not
among the sources) "appends a choice-resource-set". -/
def Player.addProductionChoice (p : Player) (choices : List ResourceType) : Player :=
  { p with choiceResources := p.choiceResources ++ [choices] }

/-- Modelled from the spec: `Player::getCardCount` (declared in `Player.h`, body not among
the sources) is the number of built cards of the given colour. -/
def Player.getCardCount (p : Player) (type : CardType) : Nat :=
  (p.builtCards.filter (fun card => card.type = type)).length

/-- Modelled from the spec: `Player::constructCard` (declared in `Player.h`, body not among
the sources) adds the card to the built-card list of the player and records the chain tag
the card produces, if it has one. -/
def Player.constructCard (p : Player) (card : Card) : Player :=
  { p with
    builtCards := p.builtCards ++ [card]
    ownedChainTags :=
      if card.chainTag = "" then p.ownedChainTags else card.chainTag :: p.ownedChainTags }

/-! ## GameModel and Board accessors -/

/-- The getter `GameModel::getCurrentPlayer`, `m_players[m_currentPlayerIndex]`. -/
def GameModel.getCurrentPlayer (m : GameModel) : Player :=
  if m.currentPlayerIndex = 0 then m.player0 else m.player1

/-- The getter `GameModel::getOpponent`, `m_players[1 - m_currentPlayerIndex]`. -/
def GameModel.getOpponent (m : GameModel) : Player :=
  if m.currentPlayerIndex = 0 then m.player1 else m.player0

/-- A write through `GameModel::getCurrentPlayerMut()`. -/
def GameModel.setCurrentPlayer (m : GameModel) (p : Player) : GameModel :=
  if m.currentPlayerIndex = 0 then { m with player0 := p } else { m with player1 := p }

/-- A write through `GameModel::getOpponentMut()`. -/
def GameModel.setOpponent (m : GameModel) (p : Player) : GameModel :=
  if m.currentPlayerIndex = 0 then { m with player1 := p } else { m with player0 := p }

/-- Modelled from the spec: `Board::removeCardFromPyramid` (declared in `Board.h`, body not
among the sources) forwards to `CardPyramid::removeCard`. -/
def Board.removeCardFromPyramid (b : Board) (cardId : String) : Board × Option Card :=
  ({ b with cardStructure := (b.cardStructure.removeCard cardId).1 },
   (b.cardStructure.removeCard cardId).2)

/-- Modelled from the spec: `Board::addToDiscardPile` (declared in `Board.h`, body not among
the sources) puts the card on the discard pile. -/
def Board.addToDiscardPile (b : Board) (card : Card) : Board :=
  { b with discardPile := b.discardPile ++ [card] }

/-- Modelled from the spec: `GameController::findCardInPyramid` (declared in
`GameController.h`, body not among the sources) is the card of the slot that carries the id
and is still in the pyramid. -/
def GameController.findCardInPyramid (c : GameController) (cardId : String) : Option Card :=
  (findSlotFrom cardId c.model.board.cardStructure.slots 0).bind
    (fun i => (c.model.board.cardStructure.slots[i]?).bind CardSlot.cardPtr)

/-! ## Effects -/

/-- Modelled from the spec: `IEffect::apply(self, opponent, logger, actions)` of the thirteen
effect classes (declared in `EffectSystem.h`, bodies not among the sources), with `self` the
current player and the controller as `IGameActions`. Production grants resources or appends
a choice set; Military moves the track for `self`, with one more shield for a red card when
`self` owns the strategy token; Science increments a symbol counter; VictoryPoint does
nothing at construction; Coin and CoinsPerType grant coins; TradeDiscount sets the discount
flag; DestroyCard, BuildFromDiscard and ProgressTokenSelect request their interrupt state;
ExtraTurn sets the play-again flag; OpponentLoseCoins deducts coins floored at zero; Guild
grants the coins its strategy computes (`guildCoins`, the strategies are not among the
sources). -/
def Effect.apply (guildCoins : GuildCriteria → Player → Player → Nat) (e : Effect)
    (c : GameController) : GameController :=
  let self := c.model.getCurrentPlayer
  let opponent := c.model.getOpponent
  match e with
  | Effect.production producedResources isChoice isTradable =>
    if isChoice then
      { c with model := c.model.setCurrentPlayer (self.addProductionChoice
          (ResourceType.all.filter (fun r => (producedResources r).isSome))) }
    else
      { c with model := c.model.setCurrentPlayer (ResourceType.all.foldl
          (fun p r =>
            match producedResources r with
            | some count => p.addResource r count isTradable
            | none => p)
          self) }
  | Effect.military shields isFromCard =>
    (c.moveMilitary
      (if isFromCard = true ∧ ProgressToken.STRATEGY ∈ self.progressTokens
        then shields + 1 else shields)
      self.id).1
  | Effect.science symbol =>
    { c with model := c.model.setCurrentPlayer (self.addScienceSymbol symbol) }
  | Effect.victoryPoint _ => c
  | Effect.coin amount =>
    { c with model := c.model.setCurrentPlayer (self.gainCoins amount) }
  | Effect.coinsPerType targetType coinsPerCard countWonder =>
    { c with model := c.model.setCurrentPlayer (self.gainCoins
        (coinsPerCard *
          (self.getCardCount targetType
            + (if countWonder then self.builtWonders.length else 0)))) }
  | Effect.tradeDiscount resource =>
    { c with model := c.model.setCurrentPlayer (self.setTradingDiscount resource true) }
  | Effect.destroyCard targetColor =>
    { c with pendingDestructionType := targetColor
             currentState := GameState.WAITING_FOR_DESTRUCTION }
  | Effect.extraTurn => { c with extraTurnPending := true }
  | Effect.buildFromDiscard =>
    { c with currentState := GameState.WAITING_FOR_DISCARD_BUILD }
  | Effect.progressTokenSelect =>
    { c with currentState := GameState.WAITING_FOR_TOKEN_SELECTION_LIB }
  | Effect.opponentLoseCoins amount =>
    { c with model := c.model.setOpponent (opponent.loseCoins amount) }
  | Effect.guild criteria =>
    { c with model := c.model.setCurrentPlayer (self.gainCoins
        (guildCoins criteria self opponent)) }

/-! ## Commands -/

namespace Config

def BASE_DISCARD_GAIN : Nat := 2

end Config

/-- Modelled from the spec: `BuildCardCommand::execute` (declared in `GameCommands.h`, body
not among the sources): pay the cost (waived when the builder owns the chain tag the card
requires), move the card from the pyramid to the built cards of the current player, then
apply the effects of the card in declaration order. -/
def BuildCardCommand.execute (guildCoins : GuildCriteria → Player → Player → Nat)
    (cardId : String) (c : GameController) : GameController :=
  match c.findCardInPyramid cardId with
  | none => c
  | some card =>
    let self := c.model.getCurrentPlayer
    let price :=
      if card.requiresChainTag ≠ "" ∧ card.requiresChainTag ∈ self.ownedChainTags then 0
      else (self.calculateCost card.cost c.model.getOpponent card.type).2
    let m1 := c.model.setCurrentPlayer (self.payCoins price)
    let m2 : GameModel := { m1 with board := (m1.board.removeCardFromPyramid cardId).1 }
    let m3 := m2.setCurrentPlayer (m2.getCurrentPlayer.constructCard card)
    card.effects.foldl (fun acc e => e.apply guildCoins acc) { c with model := m3 }

/-- Modelled from the spec: `DiscardCardCommand::execute` (declared in `GameCommands.h`,
body not among the sources): move the card from the pyramid to the discard pile; the
current player gains 2 coins plus one per yellow card built. -/
def DiscardCardCommand.execute (cardId : String) (c : GameController) : GameController :=
  match c.findCardInPyramid cardId with
  | none => c
  | some card =>
    let removed := (c.model.board.removeCardFromPyramid cardId).1
    let m1 : GameModel := { c.model with board := removed.addToDiscardPile card }
    let self := m1.getCurrentPlayer
    { c with model := m1.setCurrentPlayer (self.gainCoins
        (Config.BASE_DISCARD_GAIN + self.getCardCount CardType.COMMERCIAL)) }

/-- The two controllers agree on where the cards are: same pyramid, same discard pile, same
current player index and the same built cards for each player. -/
def GameController.sameCards (a b : GameController) : Prop :=
  a.model.board.cardStructure = b.model.board.cardStructure ∧
  a.model.board.discardPile = b.model.board.discardPile ∧
  a.model.currentPlayerIndex = b.model.currentPlayerIndex ∧
  a.model.player0.builtCards = b.model.player0.builtCards ∧
  a.model.player1.builtCards = b.model.player1.builtCards

/-! ## ResourceCost -/

/-- The getter `ResourceCost::getCoins`. -/
def ResourceCost.getCoins (cost : ResourceCost) : Nat := cost.coins

/-- The setter `ResourceCost::setResources`. -/
def ResourceCost.setResources (cost : ResourceCost) (res : ResourceType → Option Nat) :
    ResourceCost :=
  { cost with resources := res }

/-- The method `ResourceCost::addResource`, `m_resources[type] += count`: the entry is
created with value 0 when it is absent, then increased. -/
def ResourceCost.addResource (cost : ResourceCost) (type : ResourceType) (count : Nat) :
    ResourceCost :=
  { cost with resources := fun k =>
      if k = type then some ((cost.resources type).getD 0 + count) else cost.resources k }

/-- The method `ResourceCost::isFree`, `m_coins == 0 && m_resources.empty()`. -/
def ResourceCost.isFree (cost : ResourceCost) : Bool :=
  decide (cost.coins = 0) && ResourceType.all.all (fun r => (cost.resources r).isNone)

/-- The number of units of a resource that the cost demands. -/
def ResourceCost.required (cost : ResourceCost) (r : ResourceType) : Nat :=
  (cost.resources r).getD 0

/-! ## GameView::parseId -/

/-- The C function `isspace` in the "C" locale: space, `\t`, `\n`, `\v`, `\f`, `\r`. -/
def isSpace (c : Char) : Bool :=
  c.toNat = 32 || (9 ≤ c.toNat && c.toNat ≤ 13)

/-- The value read from the decimal digits `digits`, starting from `acc`. -/
def readDigits (digits : List Char) (acc : Nat) : Nat :=
  digits.foldl (fun value d => value * 10 + (d.toNat - 48)) acc

/-- The library function `std::stoi(str)` (base 10): leading whitespace is skipped, an
optional sign is read, then the longest run of digits; what follows is ignored. The result
is `none` when the call throws: `std::invalid_argument` if there is no digit,
`std::out_of_range` if the value does not fit an `int`. -/
def stoi (str : List Char) : Option Int :=
  let trimmed := str.dropWhile isSpace
  let negative := trimmed.head? = some '-'
  let unsigned :=
    if trimmed.head? = some '-' ∨ trimmed.head? = some '+' then trimmed.tail else trimmed
  let digits := unsigned.takeWhile Char.isDigit
  if digits.isEmpty then none
  else
    let value : Int := if negative then -(readDigits digits 0 : Int) else readDigits digits 0
    if value < -2147483648 ∨ 2147483647 < value then none else some value

/-- The function `GameView::parseId(input, prefix)`; `input.substr(1)` is `input.data.tail`
and a caught exception yields `-1`. -/
def parseId (input : String) (pfx : Char) : Int :=
  if input.data.isEmpty then -1
  else
    if input.data.head?.map Char.toUpper = some pfx then
      if 1 < input.data.length then (stoi input.data.tail).getD (-1) else -1
    else (stoi input.data).getD (-1)

/-! ## Sequences of actions -/

/-- The controller after a sequence of `processAction` calls. -/
def GameController.processAll (k : Collaborators) (c : GameController) (actions : List Action) :
    GameController :=
  actions.foldl (fun state action => (state.processAction k action).2) c

/-! ## Agent.cpp -/

/-- The random values an agent takes from `getRNG()` during one call of `decideAction`,
made explicit, together with the order in which `std::sort` happens to leave elements that
compare equal. -/
structure RandomDraws where
  index : Nat := 0
  order : List Nat := []
  dice : Nat := 0
  ties : List Nat := []

/-- The value of `dist(rng)` for `std::uniform_int_distribution<int> dist(0, size - 1)`. -/
def RandomDraws.pick (rng : RandomDraws) (size : Nat) : Nat :=
  rng.index % size

/-- The value of `dice(rng)` for `std::uniform_int_distribution<int> dice(1, 100)`. -/
def RandomDraws.roll (rng : RandomDraws) : Nat :=
  rng.dice % 100 + 1

/-- The library function `std::shuffle`: the permutation of `l` selected by the random
values `keys` (each key picks the next element among those left; when the keys run out the
rest keeps its order). -/
def shuffleWith {α : Type} : List Nat → List α → List α
  | [], l => l
  | key :: keys, l =>
    match l[key % l.length]? with
    | some x => x :: shuffleWith keys (l.eraseIdx (key % l.length))
    | none => l

/-- The library function `std::sort` with the comparator `points(a) > points(b)`: the
elements in descending order of points; elements with equal points come in an order the
library does not specify, here the one selected by `ties`. -/
def sortDescending {α : Type} (points : α → Int) (ties : List Nat) (l : List α) : List α :=
  (shuffleWith ties l).insertionSort (fun a b => points b ≤ points a)

/-- The member functions `Card::getVictoryPoints(self, opponent)` and
`Wonder::getVictoryPoints(self, opponent)` (declared in `Card.h`, bodies not among the
sources), taken as parameters. -/
structure Scoring where
  cardPoints : Card → Player → Player → Int
  wonderPoints : Wonder → Player → Player → Int

/-- The vector `validSlots` that both agents build in `AGE_PLAY_PHASE`: the slots visited by
the range-for over the pyramid whose card pointer is not null and which are face-up, each
with the card it points to. -/
def CardPyramid.validSlots (p : CardPyramid) : List (CardSlot × Card) :=
  p.visitedSlots.filterMap (fun slot =>
    match slot.cardPtr with
    | some card => if slot.isFaceUp then some (slot, card) else none
    | none => none)

/-- The action `tryBuild` for a card. -/
def buildAction (cardId : String) : Action :=
  { type := ActionType.BUILD_CARD, targetCardId := cardId }

/-- The action `tryWonder` for a card and a wonder. -/
def wonderAction (cardId wonderId : String) : Action :=
  { type := ActionType.BUILD_WONDER, targetCardId := cardId, targetWonderId := wonderId }

/-- The action `tryDestruct` for a card; `skipAction` is `destructAction ""`. -/
def destructAction (cardId : String) : Action :=
  { type := ActionType.SELECT_DESTRUCTION, targetCardId := cardId }

/-- The action `tryResurrect` for a card. -/
def resurrectAction (cardId : String) : Action :=
  { type := ActionType.SELECT_FROM_DISCARD, targetCardId := cardId }

/-- The action with which both agents start, `action.type = static_cast<ActionType>(-1)`. -/
def invalidAction : Action :=
  { type := ActionType.INVALID }

/-- The block both agents run in the two token-selection states: a token drawn at random
from the offered list, or the initial action when the list is empty. -/
def pickToken (tokens : List ProgressToken) (rng : RandomDraws) : Action :=
  if !tokens.isEmpty then
    match tokens[rng.pick tokens.length]? with
    | some token =>
      { invalidAction with type := ActionType.SELECT_PROGRESS_TOKEN, selectedToken := token }
    | none => invalidAction
  else invalidAction

/-- The block both agents run in `WAITING_FOR_DESTRUCTION` once the candidates are ordered:
the first candidate whose destruction passes validation, else the empty-target action if it
passes validation, else the initial action. -/
def tryDestruction (k : Collaborators) (game : GameController) (candidates : List Card) :
    Action :=
  match candidates.find? (fun c => (game.validateAction k (destructAction c.id)).isValid) with
  | some c => destructAction c.id
  | none =>
    if (game.validateAction k (destructAction "")).isValid then destructAction ""
    else invalidAction

/-- The block both agents run in `WAITING_FOR_DISCARD_BUILD` once the candidates are ordered:
the first candidate whose resurrection passes validation, else the initial action. -/
def tryResurrection (k : Collaborators) (game : GameController) (candidates : List Card) :
    Action :=
  match candidates.find? (fun c => (game.validateAction k (resurrectAction c.id)).isValid) with
  | some c => resurrectAction c.id
  | none => invalidAction

/-- The nested loops over the unbuilt wonders and the slots: the first `tryWonder` that
passes validation, if any. -/
def tryWonders (k : Collaborators) (game : GameController) (wonders : List Wonder)
    (slots : List (CardSlot × Card)) : Option Action :=
  (wonders.flatMap (fun w => slots.map (fun slot => wonderAction slot.2.id w.id))).find?
    (fun a => (game.validateAction k a).isValid)

/-- The fallback of both agents: discard the card of `validSlots[0]`. -/
def discardFirst (slots : List (CardSlot × Card)) : Action :=
  match slots.head? with
  | some slot =>
    { invalidAction with type := ActionType.DISCARD_FOR_COINS, targetCardId := slot.2.id }
  | none => invalidAction

/-- The `AGE_PLAY_PHASE` branch of `RandomAIAgent::decideAction`. -/
def RandomAIAgent.agePlay (k : Collaborators) (game : GameController) (rng : RandomDraws) :
    Action :=
  let me := game.model.getCurrentPlayer
  let validSlots := game.model.board.cardStructure.validSlots
  if validSlots.isEmpty then invalidAction
  else
    let shuffled := shuffleWith rng.order validSlots
    let wonderFound :=
      if rng.roll ≤ 20 ∧ me.unbuiltWonders.isEmpty = false then
        tryWonders k game me.unbuiltWonders shuffled
      else none
    match wonderFound with
    | some tryWonder => tryWonder
    | none =>
      match (shuffled.map (fun slot => buildAction slot.2.id)).find?
        (fun a => (game.validateAction k a).isValid) with
      | some tryBuild => tryBuild
      | none => discardFirst shuffled

/-- The function `RandomAIAgent::decideAction` (console output and pauses left out). -/
def RandomAIAgent.decideAction (k : Collaborators) (game : GameController)
    (rng : RandomDraws) : Action :=
  let model := game.model
  let state := game.currentState
  if state = GameState.WONDER_DRAFT_PHASE_1 ∨ state = GameState.WONDER_DRAFT_PHASE_2 then
    if !model.draftPool.isEmpty then
      match model.draftPool[rng.pick model.draftPool.length]? with
      | some selectedWonder =>
        { invalidAction with
          type := ActionType.DRAFT_WONDER, targetWonderId := selectedWonder.id }
      | none => invalidAction
    else invalidAction
  else if state = GameState.WAITING_FOR_TOKEN_SELECTION_PAIR then
    pickToken model.board.availableProgressTokens rng
  else if state = GameState.WAITING_FOR_TOKEN_SELECTION_LIB then
    pickToken model.board.boxProgressTokens rng
  else if state = GameState.WAITING_FOR_DESTRUCTION then
    tryDestruction k game (shuffleWith rng.order model.getOpponent.builtCards)
  else if state = GameState.WAITING_FOR_DISCARD_BUILD then
    if !model.board.discardPile.isEmpty then
      tryResurrection k game (shuffleWith rng.order model.board.discardPile)
    else invalidAction
  else if state = GameState.WAITING_FOR_START_PLAYER_SELECTION then
    { invalidAction with
      type := ActionType.CHOOSE_STARTING_PLAYER
      targetCardId := if rng.pick 2 = 0 then "ME" else "OPPONENT" }
  else if state = GameState.AGE_PLAY_PHASE then RandomAIAgent.agePlay k game rng
  else invalidAction

/-- The loop of `GreedyAIAgent::decideAction` over the draft pool: the pair
`(bestWonder, bestVP)` after the given wonders. -/
def bestWonderLoop (points : Wonder → Int) :
    List Wonder → Option Wonder × Int → Option Wonder × Int
  | [], best => best
  | w :: rest, best =>
    if points w > best.2 then bestWonderLoop points rest (some w, points w)
    else bestWonderLoop points rest best

/-- The `AGE_PLAY_PHASE` branch of `GreedyAIAgent::decideAction`. -/
def GreedyAIAgent.agePlay (k : Collaborators) (scoring : Scoring) (game : GameController)
    (rng : RandomDraws) : Action :=
  let me := game.model.getCurrentPlayer
  let opp := game.model.getOpponent
  let validSlots := game.model.board.cardStructure.validSlots
  if validSlots.isEmpty then invalidAction
  else
    let buildable := validSlots.filter
      (fun slot => (game.validateAction k (buildAction slot.2.id)).isValid)
    let blueCards := (buildable.filter (fun slot => slot.2.type = CardType.CIVILIAN)).map
      (fun slot => (slot, scoring.cardPoints slot.2 me opp))
    let otherCards := (buildable.filter (fun slot => slot.2.type ≠ CardType.CIVILIAN)).map
      (fun slot => (slot, scoring.cardPoints slot.2 me opp))
    match (sortDescending (fun entry => entry.2) rng.ties blueCards).head? with
    | some best => buildAction best.1.2.id
    | none =>
      match (sortDescending (fun entry => entry.2) rng.ties otherCards).head? with
      | some best => buildAction best.1.2.id
      | none =>
        match tryWonders k game me.unbuiltWonders validSlots with
        | some tryWonder => tryWonder
        | none => discardFirst validSlots

/-- The function `GreedyAIAgent::decideAction` (console output and pauses left out). -/
def GreedyAIAgent.decideAction (k : Collaborators) (scoring : Scoring) (game : GameController)
    (rng : RandomDraws) : Action :=
  let model := game.model
  let state := game.currentState
  if state = GameState.WONDER_DRAFT_PHASE_1 ∨ state = GameState.WONDER_DRAFT_PHASE_2 then
    if !model.draftPool.isEmpty then
      match (bestWonderLoop
        (fun w => scoring.wonderPoints w model.getCurrentPlayer model.getOpponent)
        model.draftPool (none, -1)).1 with
      | some bestWonder =>
        { invalidAction with
          type := ActionType.DRAFT_WONDER, targetWonderId := bestWonder.id }
      | none => invalidAction
    else invalidAction
  else if state = GameState.WAITING_FOR_TOKEN_SELECTION_PAIR then
    pickToken model.board.availableProgressTokens rng
  else if state = GameState.WAITING_FOR_TOKEN_SELECTION_LIB then
    pickToken model.board.boxProgressTokens rng
  else if state = GameState.WAITING_FOR_DESTRUCTION then
    tryDestruction k game
      (sortDescending
        (fun c => scoring.cardPoints c model.getOpponent model.getCurrentPlayer)
        rng.ties model.getOpponent.builtCards)
  else if state = GameState.WAITING_FOR_DISCARD_BUILD then
    if !model.board.discardPile.isEmpty then
      tryResurrection k game
        (sortDescending
          (fun c => scoring.cardPoints c model.getCurrentPlayer model.getOpponent)
          rng.ties model.board.discardPile)
    else invalidAction
  else if state = GameState.WAITING_FOR_START_PLAYER_SELECTION then
    { invalidAction with type := ActionType.CHOOSE_STARTING_PLAYER, targetCardId := "ME" }
  else if state = GameState.AGE_PLAY_PHASE then GreedyAIAgent.agePlay k scoring game rng
  else invalidAction

/-! ## Player::BuiltCardIterator -/

/-- The loop of `BuiltCardIterator::advanceToNextValid`, run on the cards from `m_index` on
(`rest` is `*m_cards` from position `i`; it is empty exactly when `i < size` fails). -/
def skipFiltered (filter : Option CardType) : List Card → Nat → Nat
  | [], i => i
  | card :: rest, i =>
    match filter with
    | none => i
    | some t => if card.type = t then i else skipFiltered filter rest (i + 1)

/-- The method `BuiltCardIterator::advanceToNextValid`: the new value of `m_index`. -/
def BuiltCardIterator.advanceToNextValid (cards : List Card) (filter : Option CardType)
    (i : Nat) : Nat :=
  skipFiltered filter (cards.drop i) i

/-- The constructor `BuiltCardIterator(cards, index, filter)`: the value of `m_index` of the
iterator it builds. Two iterators over the same vector are equal when these values are. -/
def BuiltCardIterator.create (cards : List Card) (index : Nat) (filter : Option CardType) :
    Nat :=
  BuiltCardIterator.advanceToNextValid cards filter index

/-- The pre-increment `BuiltCardIterator::operator++`. -/
def BuiltCardIterator.next (cards : List Card) (filter : Option CardType) (i : Nat) : Nat :=
  BuiltCardIterator.advanceToNextValid cards filter (i + 1)

/-- The dereference `BuiltCardIterator::operator*`, `(*m_cards)[m_index]`. -/
def BuiltCardIterator.deref (cards : List Card) (i : Nat) : Option Card :=
  cards[i]?

/-- The loop `for (it = from; it != BuiltCardIterator(cards, size, filter); ++it)` collecting
the visited indices; `none` when `fuel` iterations do not reach the end iterator. -/
def BuiltCardIterator.traverseFrom (cards : List Card) (filter : Option CardType) :
    Nat → Nat → Option (List Nat)
  | 0, _ => none
  | fuel + 1, i =>
    if i = BuiltCardIterator.create cards cards.length filter then some []
    else (BuiltCardIterator.traverseFrom cards filter fuel
      (BuiltCardIterator.next cards filter i)).map (fun visited => i :: visited)

/-- The indices visited from the iterator created at index 0 up to the iterator created at
index `size`, both with the same filter. -/
def BuiltCardIterator.traverse (cards : List Card) (filter : Option CardType) :
    Option (List Nat) :=
  BuiltCardIterator.traverseFrom cards filter (cards.length + 1)
    (BuiltCardIterator.create cards 0 filter)

/-! ## Agent.cpp: the calls made on the controller -/

/-- The call `game.validateAction(action)` as the agents make it: `game` is a
`GameController&` and `validateAction` is not a `const` member, so the call returns a result
and leaves a controller behind. What the call does to the controller is the parameter
`touch` (the body of `validateAction` is not among the sources). -/
def GameController.validateActionRun (k : Collaborators)
    (touch : Action → GameController → GameController) (c : GameController)
    (action : Action) : ActionResult × GameController :=
  (c.validateAction k action, touch action c)

/-- The loops `for (...) { Action a = ...; if (game.validateAction(a).isValid) return a; }`
of the agents over the actions they try, in order: the first action that passes validation,
if any, and the controller after the calls made. -/
def firstValidRun (k : Collaborators) (touch : Action → GameController → GameController) :
    List Action → GameController → Option Action × GameController
  | [], c => (none, c)
  | a :: rest, c =>
    if (c.validateActionRun k touch a).1.isValid then
      (some a, (c.validateActionRun k touch a).2)
    else firstValidRun k touch rest (c.validateActionRun k touch a).2

/-- The first loop of the `AGE_PLAY_PHASE` branch of `GreedyAIAgent::decideAction`, which
validates `tryBuild` for every slot and keeps the slots that pass: the slots kept, and the
controller after the calls made. -/
def collectValidRun (k : Collaborators) (touch : Action → GameController → GameController) :
    List (CardSlot × Card) → GameController → List (CardSlot × Card) × GameController
  | [], c => ([], c)
  | slot :: rest, c =>
    let checked := c.validateActionRun k touch (buildAction slot.2.id)
    let later := collectValidRun k touch rest checked.2
    (if checked.1.isValid then slot :: later.1 else later.1, later.2)

/-- The `WAITING_FOR_DESTRUCTION` block of both agents with the calls on the controller
made explicit. -/
def tryDestructionRun (k : Collaborators) (touch : Action → GameController → GameController)
    (game : GameController) (candidates : List Card) : Action × GameController :=
  match firstValidRun k touch (candidates.map (fun c => destructAction c.id)) game with
  | (some tryDestruct, after) => (tryDestruct, after)
  | (none, after) =>
    if (after.validateActionRun k touch (destructAction "")).1.isValid then
      (destructAction "", (after.validateActionRun k touch (destructAction "")).2)
    else (invalidAction, (after.validateActionRun k touch (destructAction "")).2)

/-- The `WAITING_FOR_DISCARD_BUILD` loop of both agents with the calls on the controller
made explicit. -/
def tryResurrectionRun (k : Collaborators) (touch : Action → GameController → GameController)
    (game : GameController) (candidates : List Card) : Action × GameController :=
  match firstValidRun k touch (candidates.map (fun c => resurrectAction c.id)) game with
  | (some tryResurrect, after) => (tryResurrect, after)
  | (none, after) => (invalidAction, after)

/-- The nested loops over the unbuilt wonders and the slots with the calls on the controller
made explicit. -/
def tryWondersRun (k : Collaborators) (touch : Action → GameController → GameController)
    (game : GameController) (wonders : List Wonder) (slots : List (CardSlot × Card)) :
    Option Action × GameController :=
  firstValidRun k touch
    (wonders.flatMap (fun w => slots.map (fun slot => wonderAction slot.2.id w.id))) game

/-- The `AGE_PLAY_PHASE` branch of `RandomAIAgent::decideAction` with the calls on the
controller made explicit. -/
def RandomAIAgent.agePlayRun (k : Collaborators)
    (touch : Action → GameController → GameController) (game : GameController)
    (rng : RandomDraws) : Action × GameController :=
  let me := game.model.getCurrentPlayer
  let validSlots := game.model.board.cardStructure.validSlots
  if validSlots.isEmpty then (invalidAction, game)
  else
    let shuffled := shuffleWith rng.order validSlots
    let wonderFound :=
      if rng.roll ≤ 20 ∧ me.unbuiltWonders.isEmpty = false then
        tryWondersRun k touch game me.unbuiltWonders shuffled
      else (none, game)
    match wonderFound with
    | (some tryWonder, after) => (tryWonder, after)
    | (none, after) =>
      match firstValidRun k touch (shuffled.map (fun slot => buildAction slot.2.id)) after with
      | (some tryBuild, final) => (tryBuild, final)
      | (none, final) => (discardFirst shuffled, final)

/-- The function `RandomAIAgent::decideAction` as a transformation of the controller it is
handed: the action returned and the controller after the call. The agent calls `getModel`,
`getState` (both `const`) and `validateAction` on it and nothing else; what it reads
through the reference `model` is taken from the controller as it is on entry. -/
def RandomAIAgent.decideActionRun (k : Collaborators)
    (touch : Action → GameController → GameController) (game : GameController)
    (rng : RandomDraws) : Action × GameController :=
  let model := game.model
  let state := game.currentState
  if state = GameState.WONDER_DRAFT_PHASE_1 ∨ state = GameState.WONDER_DRAFT_PHASE_2 then
    if !model.draftPool.isEmpty then
      match model.draftPool[rng.pick model.draftPool.length]? with
      | some selectedWonder =>
        ({ invalidAction with
          type := ActionType.DRAFT_WONDER, targetWonderId := selectedWonder.id }, game)
      | none => (invalidAction, game)
    else (invalidAction, game)
  else if state = GameState.WAITING_FOR_TOKEN_SELECTION_PAIR then
    (pickToken model.board.availableProgressTokens rng, game)
  else if state = GameState.WAITING_FOR_TOKEN_SELECTION_LIB then
    (pickToken model.board.boxProgressTokens rng, game)
  else if state = GameState.WAITING_FOR_DESTRUCTION then
    tryDestructionRun k touch game (shuffleWith rng.order model.getOpponent.builtCards)
  else if state = GameState.WAITING_FOR_DISCARD_BUILD then
    if !model.board.discardPile.isEmpty then
      tryResurrectionRun k touch game (shuffleWith rng.order model.board.discardPile)
    else (invalidAction, game)
  else if state = GameState.WAITING_FOR_START_PLAYER_SELECTION then
    ({ invalidAction with
      type := ActionType.CHOOSE_STARTING_PLAYER
      targetCardId := if rng.pick 2 = 0 then "ME" else "OPPONENT" }, game)
  else if state = GameState.AGE_PLAY_PHASE then RandomAIAgent.agePlayRun k touch game rng
  else (invalidAction, game)

/-- The `AGE_PLAY_PHASE` branch of `GreedyAIAgent::decideAction` with the calls on the
controller made explicit. -/
def GreedyAIAgent.agePlayRun (k : Collaborators)
    (touch : Action → GameController → GameController) (scoring : Scoring)
    (game : GameController) (rng : RandomDraws) : Action × GameController :=
  let me := game.model.getCurrentPlayer
  let opp := game.model.getOpponent
  let validSlots := game.model.board.cardStructure.validSlots
  if validSlots.isEmpty then (invalidAction, game)
  else
    let collected := collectValidRun k touch validSlots game
    let blueCards := (collected.1.filter (fun slot => slot.2.type = CardType.CIVILIAN)).map
      (fun slot => (slot, scoring.cardPoints slot.2 me opp))
    let otherCards := (collected.1.filter (fun slot => slot.2.type ≠ CardType.CIVILIAN)).map
      (fun slot => (slot, scoring.cardPoints slot.2 me opp))
    match (sortDescending (fun entry => entry.2) rng.ties blueCards).head? with
    | some best => (buildAction best.1.2.id, collected.2)
    | none =>
      match (sortDescending (fun entry => entry.2) rng.ties otherCards).head? with
      | some best => (buildAction best.1.2.id, collected.2)
      | none =>
        match tryWondersRun k touch collected.2 me.unbuiltWonders validSlots with
        | (some tryWonder, after) => (tryWonder, after)
        | (none, after) => (discardFirst validSlots, after)

/-- The function `GreedyAIAgent::decideAction` as a transformation of the controller it is
handed, under the same conventions as `RandomAIAgent.decideActionRun`. -/
def GreedyAIAgent.decideActionRun (k : Collaborators)
    (touch : Action → GameController → GameController) (scoring : Scoring)
    (game : GameController) (rng : RandomDraws) : Action × GameController :=
  let model := game.model
  let state := game.currentState
  if state = GameState.WONDER_DRAFT_PHASE_1 ∨ state = GameState.WONDER_DRAFT_PHASE_2 then
    if !model.draftPool.isEmpty then
      match (bestWonderLoop
        (fun w => scoring.wonderPoints w model.getCurrentPlayer model.getOpponent)
        model.draftPool (none, -1)).1 with
      | some bestWonder =>
        ({ invalidAction with
          type := ActionType.DRAFT_WONDER, targetWonderId := bestWonder.id }, game)
      | none => (invalidAction, game)
    else (invalidAction, game)
  else if state = GameState.WAITING_FOR_TOKEN_SELECTION_PAIR then
    (pickToken model.board.availableProgressTokens rng, game)
  else if state = GameState.WAITING_FOR_TOKEN_SELECTION_LIB then
    (pickToken model.board.boxProgressTokens rng, game)
  else if state = GameState.WAITING_FOR_DESTRUCTION then
    tryDestructionRun k touch game
      (sortDescending
        (fun c => scoring.cardPoints c model.getOpponent model.getCurrentPlayer)
        rng.ties model.getOpponent.builtCards)
  else if state = GameState.WAITING_FOR_DISCARD_BUILD then
    if !model.board.discardPile.isEmpty then
      tryResurrectionRun k touch game
        (sortDescending
          (fun c => scoring.cardPoints c model.getCurrentPlayer model.getOpponent)
          rng.ties model.board.discardPile)
    else (invalidAction, game)
  else if state = GameState.WAITING_FOR_START_PLAYER_SELECTION then
    ({ invalidAction with type := ActionType.CHOOSE_STARTING_PLAYER, targetCardId := "ME" },
      game)
  else if state = GameState.AGE_PLAY_PHASE then
    GreedyAIAgent.agePlayRun k touch scoring game rng
  else (invalidAction, game)

/-! ## Statements in the words of the specification -/

/-- The player holds the symbol: it is not `NONE` and its count is positive. -/
def Player.holds (p : Player) (s : ScienceSymbol) : Bool :=
  match p.scienceSymbols s with
  | some c => decide (s ≠ ScienceSymbol.NONE) && decide (0 < c)
  | none => false

/-- The number of distinct science symbols other than `NONE` that the player holds. -/
def Player.distinctHeld (p : Player) : Nat :=
  (Finset.univ.filter (fun s => p.holds s = true)).card

/-- The symbol has reached the pair count and has not been claimed by the player. -/
def Player.hasUnclaimedPair (p : Player) (s : ScienceSymbol) : Prop :=
  (∃ c, p.scienceSymbols s = some c ∧ 2 ≤ c) ∧ s ∉ p.claimedSciencePairs

/-- The slot at storage position `i` exists, is not removed and is covered by nothing. -/
def CardPyramid.selectableAt (p : CardPyramid) (i : Nat) : Bool :=
  match p.slots[i]? with
  | some slot => !slot.isRemoved && slot.coveredBy.isEmpty
  | none => false

/-- The card passes the filter of an iterator: there is no filter, or the card has the type
the filter asks for. -/
def Card.passes (filter : Option CardType) (card : Card) : Bool :=
  match filter with
  | none => true
  | some t => decide (card.type = t)

/-- The card at position `i` of the list exists and passes the filter. -/
def passesAt (cards : List Card) (filter : Option CardType) (i : Nat) : Bool :=
  match cards[i]? with
  | some card => card.passes filter
  | none => false

/-- The part of the input that `parseId` hands to `std::stoi`: the input without its first
character when that character is the prefix up to case, the whole input otherwise. -/
def numericPart (input : String) (pfx : Char) : List Char :=
  if input.data.head?.map Char.toUpper = some pfx then input.data.tail else input.data

/-- The integer a text starts with: after leading whitespace, an optional sign and the
longest run of decimal digits; `none` when the run is empty. -/
def leadingInteger (str : List Char) : Option Int :=
  let trimmed := str.dropWhile isSpace
  let unsigned :=
    if trimmed.head? = some '-' ∨ trimmed.head? = some '+' then trimmed.tail else trimmed
  let digits := unsigned.takeWhile Char.isDigit
  if digits.isEmpty then none
  else if trimmed.head? = some '-' then some (-(readDigits digits 0 : Int))
  else some (readDigits digits 0 : Int)

/-- The controller `after` is what a sequence of `validateAction` calls, and nothing else,
makes of the controller `before`. -/
def onlyValidated (touch : Action → GameController → GameController)
    (before after : GameController) : Prop :=
  ∃ calls : List Action, after = calls.foldl (fun c a => touch a c) before

/-- The slot offers the card: it is not removed, nothing covers it, it holds the card and it
is face-up. -/
def CardSlot.offers (slot : CardSlot) (card : Card) : Prop :=
  slot.isRemoved = false ∧ slot.coveredBy = [] ∧ slot.cardPtr = some card ∧
    slot.isFaceUp = true

/-- Every slot of the pyramid that holds a card has the id of that card as its own id (the
member `m_id` is documented in `Card.h` as the cached id of the card). -/
def CardPyramid.idsCached (p : CardPyramid) : Prop :=
  ∀ slot ∈ p.slots, ∀ card, slot.cardPtr = some card → slot.id = card.id

/-- The action targets a card the pyramid offers: its `targetCardId` is the id of the card
held by a slot that is not removed, is covered by nothing and is face-up; and when the slots
cache the ids of their cards, it is the id of such a slot. -/
def CardPyramid.offersTarget (p : CardPyramid) (a : Action) : Prop :=
  (∃ slot card, slot ∈ p.slots ∧ slot.offers card ∧ a.targetCardId = card.id) ∧
  (p.idsCached →
    ∃ slot card, slot ∈ p.slots ∧ slot.offers card ∧ a.targetCardId = slot.id)

/-- The answer `a` to a destruction request treats the skip as a last resort: it is the
empty-target `SELECT_DESTRUCTION` action exactly when no card built by the opponent passes
`SELECT_DESTRUCTION` validation and the empty-target action does; and whenever some card of
the opponent passes validation, it targets such a card. -/
def GameController.skipsAsLastResort (k : Collaborators) (game : GameController)
    (a : Action) : Prop :=
  (a = destructAction "" ↔
    ((∀ c ∈ game.model.getOpponent.builtCards,
        (game.validateAction k (destructAction c.id)).isValid = false) ∧
      (game.validateAction k (destructAction "")).isValid = true)) ∧
  ((∃ c ∈ game.model.getOpponent.builtCards,
      (game.validateAction k (destructAction c.id)).isValid = true) →
    ∃ c ∈ game.model.getOpponent.builtCards,
      (game.validateAction k (destructAction c.id)).isValid = true ∧
      a = destructAction c.id)

/-- A player holding one copy of each of six symbols (all but `NONE` and `LAW`). -/
def sixSymbolPlayer : Player :=
  { id := 1
    scienceSymbols := fun s =>
      if s = ScienceSymbol.NONE ∨ s = ScienceSymbol.LAW then none else some 1 }

/-- A player with two globes and three tablets who has claimed the globe pair. -/
def pairPlayer : Player :=
  { scienceSymbols := fun s =>
      if s = ScienceSymbol.GLOBE then some 2
      else if s = ScienceSymbol.TABLET then some 3 else none
    claimedSciencePairs := [ScienceSymbol.GLOBE] }

/-- A player without symbols whose claimed-pairs set holds `NONE`. -/
def claimedNonePlayer : Player :=
  { claimedSciencePairs := [ScienceSymbol.NONE] }

/-- A board whose military position is `pos`. -/
def boardAt (pos : Int) : Board :=
  { militaryTrack := { position := pos } }

/-- The scenario player: no fixed wood, one fixed clay, one choice entry `{wood, clay}`. -/
def scenarioPlayer : Player :=
  { fixedResources := fun r => if r = ResourceType.CLAY then 1 else 0
    choiceResources := [[ResourceType.WOOD, ResourceType.CLAY]] }

/-- The scenario cost: one wood and one clay, no coins. -/
def scenarioCost : ResourceCost :=
  { resources := fun r =>
      if r = ResourceType.WOOD ∨ r = ResourceType.CLAY then some 1 else none }

/-- An opponent whose publicly visible production is one clay. -/
def clayProducer : Player :=
  { id := 1
    fixedResources := fun r => if r = ResourceType.CLAY then 1 else 0
    publicProduction := fun r => if r = ResourceType.CLAY then 1 else 0 }

/-- A pyramid of four slots: the second is covered by the first, the third is removed. -/
def samplePyramid : CardPyramid :=
  { slots :=
      [ { id := "a", cardPtr := some { id := "a" }, isFaceUp := true },
        { id := "b", cardPtr := some { id := "b" }, coveredBy := [0] },
        { id := "c", cardPtr := some { id := "c" }, isFaceUp := true, isRemoved := true },
        { id := "d", cardPtr := some { id := "d" }, isFaceUp := true } ] }

/-- Sample collaborators: only `BUILD_CARD` is accepted, and only during age play; executing
grants an extra turn; advancing passes the turn to player 1. -/
def sampleCollaborators : Collaborators :=
  { validate := fun s a _ =>
      { isValid := decide (s = GameState.AGE_PLAY_PHASE ∧ a.type = ActionType.BUILD_CARD) }
    execute := fun _ c => { c with extraTurnPending := true }
    advance := fun c => { c with model := { c.model with currentPlayerIndex := 1 } } }

/-- A controller in the age-play state. -/
def agePlayController : GameController :=
  { currentState := GameState.AGE_PLAY_PHASE }

/-- A controller whose track stands at `+2`, all loot tokens in place, and whose second
player owns `coins` coins. -/
def trackAtTwo (coins : Nat) : GameController :=
  { model :=
      { player0 := { id := 0, coins := 7 }
        player1 := { id := 1, coins := coins }
        board := boardAt 2 }
    currentState := GameState.AGE_PLAY_PHASE }

/-- A three-slot pyramid: slot 0 is free and face-up; slot 1 is face-down under slot 0;
slot 2 is face-down under slots 0 and 1. -/
def coveredPyramid : CardPyramid :=
  { slots :=
      [ { id := "top", cardPtr := some { id := "top" }, isFaceUp := true },
        { id := "mid", cardPtr := some { id := "mid" }, coveredBy := [0] },
        { id := "low", cardPtr := some { id := "low" }, coveredBy := [0, 1] } ] }

/-- A red card giving one shield. -/
def barracks : Card :=
  { id := "barracks", name := "Barracks", age := 1, type := CardType.MILITARY,
    effects := [Effect.military 1 true] }

/-- A blue card worth three points. -/
def baths : Card :=
  { id := "baths", name := "Baths", age := 1, type := CardType.CIVILIAN,
    effects := [Effect.victoryPoint 3] }

/-- A controller in age play whose pyramid offers `barracks` and, covered by it, `baths`. -/
def buildController : GameController :=
  { model :=
      { player0 := { id := 0, coins := 7 }
        player1 := { id := 1, coins := 7 }
        board :=
          { cardStructure :=
              { slots :=
                  [ { id := "barracks", cardPtr := some barracks, isFaceUp := true },
                    { id := "baths", cardPtr := some baths, coveredBy := [0] } ] } }
        currentAge := 1 }
    currentState := GameState.AGE_PLAY_PHASE }

/-- A player holding one copy of each of five symbols. -/
def fiveSymbolPlayer : Player :=
  { scienceSymbols := fun s =>
      if s = ScienceSymbol.NONE ∨ s = ScienceSymbol.LAW ∨ s = ScienceSymbol.QUILL then none
      else some 1 }

/-- Collaborators whose commands give the current player a quill: `BUILD_CARD` is accepted
during age play and executing it applies a science effect. -/
def scienceCollaborators : Collaborators :=
  { validate := fun s a _ =>
      { isValid := decide (s = GameState.AGE_PLAY_PHASE ∧ a.type = ActionType.BUILD_CARD) }
    execute := fun _ c => (Effect.science ScienceSymbol.QUILL).apply (fun _ _ _ => 0) c
    advance := fun c => { c with model := { c.model with currentPlayerIndex := 1 } } }

/-- A controller in age play whose current player holds five symbols. -/
def fiveSymbolController : GameController :=
  { model := { player0 := fiveSymbolPlayer, player1 := { id := 1 } }
    currentState := GameState.AGE_PLAY_PHASE }

/-- A cost built by `addResource(WOOD, 0)` on a default-constructed `ResourceCost`. -/
def zeroWoodCost : ResourceCost :=
  ({} : ResourceCost).addResource ResourceType.WOOD 0

/-- A blue card worth five points. -/
def temple : Card :=
  { id := "temple", name := "Temple", age := 1, type := CardType.CIVILIAN,
    effects := [Effect.victoryPoint 5] }

/-- A scoring under which `baths` is worth 3 points, `temple` 5, `barracks` 9 and every
wonder none. -/
def sampleScoring : Scoring :=
  { cardPoints := fun card _ _ =>
      if card.id = "baths" then 3 else if card.id = "temple" then 5
      else if card.id = "barracks" then 9 else 0
    wonderPoints := fun _ _ _ => 0 }

/-- A controller in age play whose pyramid offers `baths`, `barracks` and `temple`. -/
def greedyController : GameController :=
  { model :=
      { player0 := { id := 0, coins := 7 }
        player1 := { id := 1, coins := 7 }
        board :=
          { cardStructure :=
              { slots :=
                  [ { id := "baths", cardPtr := some baths, isFaceUp := true },
                    { id := "barracks", cardPtr := some barracks, isFaceUp := true },
                    { id := "temple", cardPtr := some temple, isFaceUp := true } ] } }
        currentAge := 1 }
    currentState := GameState.AGE_PLAY_PHASE }

/-- Collaborators that validate destruction the way the spec words it: in
`WAITING_FOR_DESTRUCTION` a `SELECT_DESTRUCTION` action is accepted when it names a card of
the pending colour built by the opponent, or names nothing while the opponent has no card of
that colour. -/
def destructionCollaborators : Collaborators :=
  { validate := fun s a c =>
      { isValid :=
          decide (s = GameState.WAITING_FOR_DESTRUCTION) &&
          decide (a.type = ActionType.SELECT_DESTRUCTION) &&
          (c.model.getOpponent.builtCards.any (fun card =>
              decide (card.id = a.targetCardId) &&
              decide (card.type = c.pendingDestructionType)) ||
            (decide (a.targetCardId = "") &&
              !c.model.getOpponent.builtCards.any (fun card =>
                decide (card.type = c.pendingDestructionType)))) }
    execute := fun _ c => c
    advance := fun c => c }

/-- A controller waiting for the current player to destroy a card of colour `colour` of an
opponent who has built `baths`, `barracks` and `temple`. -/
def destructionController (colour : CardType) : GameController :=
  { model :=
      { player0 := { id := 0, coins := 7 }
        player1 := { id := 1, coins := 7, builtCards := [baths, barracks, temple] }
        currentAge := 1 }
    currentState := GameState.WAITING_FOR_DESTRUCTION
    pendingDestructionType := colour }

/-- Collaborators that accept no action at all. -/
def refusingCollaborators : Collaborators :=
  { validate := fun _ _ _ => { isValid := false }
    execute := fun _ c => c
    advance := fun c => c }

/-- The wonder `The Pyramids`. -/
def pyramids : Wonder :=
  { id := "pyramids", name := "The Pyramids", effects := [Effect.victoryPoint 9] }

/-- The wonder `The Sphinx`. -/
def sphinx : Wonder :=
  { id := "sphinx", name := "The Sphinx", effects := [Effect.victoryPoint 6, Effect.extraTurn] }

/-- The wonder `The Great Lighthouse`. -/
def lighthouse : Wonder :=
  { id := "lighthouse", name := "The Great Lighthouse", effects := [Effect.victoryPoint 4] }

/-- A scoring under which `sphinx` and `pyramids` are worth 6 points each, `lighthouse` 4, and
every card none. -/
def draftScoring : Scoring :=
  { cardPoints := fun _ _ _ => 0
    wonderPoints := fun w _ _ =>
      if w.id = "sphinx" ∨ w.id = "pyramids" then 6
      else if w.id = "lighthouse" then 4 else 0 }

/-- A controller in the first draft phase whose pool offers `lighthouse`, `sphinx` and
`pyramids`, in this order. -/
def draftController : GameController :=
  { model := { draftPool := [lighthouse, sphinx, pyramids] }
    currentState := GameState.WONDER_DRAFT_PHASE_1 }

/-- A scoring under which every wonder is worth `-1` point. -/
def negativeScoring : Scoring :=
  { cardPoints := fun _ _ _ => 0
    wonderPoints := fun _ _ _ => -1 }

/-- A controller in the first draft phase whose pool offers `lighthouse` only. -/
def negativeController : GameController :=
  { model := { draftPool := [lighthouse] }
    currentState := GameState.WONDER_DRAFT_PHASE_1 }

theorem ScienceSymbol.mem_all (s : ScienceSymbol) : s ∈ ScienceSymbol.all := by
  cases s <;> decide

theorem ScienceSymbol.nodup_all : ScienceSymbol.all.Nodup := by decide

theorem mem_scienceEntries (m : ScienceSymbol → Option Int) (s : ScienceSymbol) (c : Int) :
    (s, c) ∈ scienceEntries m ↔ m s = some c := by
  unfold scienceEntries
  rw [List.mem_filterMap]
  constructor
  · rintro ⟨k, -, hk⟩
    cases hm : m k with
    | none => simp [hm] at hk
    | some v =>
      simp only [hm, Option.map_some', Option.some.injEq, Prod.mk.injEq] at hk
      obtain ⟨rfl, rfl⟩ := hk
      exact hm
  · intro h
    exact ⟨s, ScienceSymbol.mem_all s, by simp [h]⟩

theorem countDistinct_filterMap (p : Player) (l : List ScienceSymbol) (acc : Int) :
    countDistinct (l.filterMap (fun s => (p.scienceSymbols s).map (fun c => (s, c)))) acc
      = acc + ((l.filter (fun s => p.holds s)).length : Int) := by
  induction l generalizing acc with
  | nil => simp [countDistinct]
  | cons s rest ih =>
    cases hm : p.scienceSymbols s with
    | none =>
      have hh : p.holds s = false := by simp [Player.holds, hm]
      simp [List.filterMap_cons, hm, hh, ih]
    | some c =>
      by_cases hc : s ≠ ScienceSymbol.NONE ∧ c > 0
      · have hh : p.holds s = true := by
          simp only [Player.holds, hm, Bool.and_eq_true, decide_eq_true_eq]
          exact ⟨hc.1, hc.2⟩
        simp only [List.filterMap_cons, hm, Option.map_some', List.filter_cons, hh, if_true,
          List.length_cons]
        rw [countDistinct, if_pos hc, ih]
        push_cast
        ring
      · have hh : p.holds s = false := by
          cases hs : p.holds s with
          | false => rfl
          | true =>
            simp only [Player.holds, hm, Bool.and_eq_true, decide_eq_true_eq] at hs
            exact absurd ⟨hs.1, hs.2⟩ hc
        simp only [List.filterMap_cons, hm, Option.map_some', List.filter_cons, hh]
        rw [countDistinct, if_neg hc, ih]
        simp

theorem distinctSymbols_eq (p : Player) : distinctSymbols p = (p.distinctHeld : Int) := by
  have h1 : (Finset.univ.filter (fun s => p.holds s = true))
      = (ScienceSymbol.all.filter (fun s => p.holds s)).toFinset := by
    ext s
    simp [ScienceSymbol.mem_all]
  have h2 : p.distinctHeld = (ScienceSymbol.all.filter (fun s => p.holds s)).length := by
    unfold Player.distinctHeld
    rw [h1, List.toFinset_card_of_nodup (ScienceSymbol.nodup_all.filter _)]
  unfold distinctSymbols scienceEntries
  rw [countDistinct_filterMap, h2]
  simp

/-- C1. Military supremacy: when the absolute military position is at least 9,
`checkInstantVictory` reports a finished game of type `MILITARY` with a winner index in
`{0, 1}`, whatever science symbols the two players hold. -/
theorem checkInstantVictory_military (p1 p2 : Player) (board : Board)
    (h : 9 ≤ |board.militaryTrack.position|) :
    (checkInstantVictory p1 p2 board).isGameOver = true ∧
    (checkInstantVictory p1 p2 board).type = VictoryType.MILITARY ∧
    ((checkInstantVictory p1 p2 board).winnerIndex = 0 ∨
      (checkInstantVictory p1 p2 board).winnerIndex = 1) := by
  have h9 : |board.militaryTrack.position| ≥ Config.MILITARY_THRESHOLD_WIN := h
  unfold checkInstantVictory
  simp only [h9, if_true, true_and]
  by_cases hp : board.militaryTrack.position > 0
  · simp [hp]
  · simp [hp]

/-- C2. Science supremacy: when the absolute military position is below 9, the game is
reported over exactly when one of the two players holds at least 6 distinct symbols other
than `NONE` with a positive count; then the type is `SCIENCE` and the winner index is that of
a player holding them; otherwise the result is `(false, NONE, -1)`. -/
theorem checkInstantVictory_science (p1 p2 : Player) (board : Board)
    (h : |board.militaryTrack.position| < 9) :
    ((checkInstantVictory p1 p2 board).isGameOver = true ↔
      (6 ≤ p1.distinctHeld ∨ 6 ≤ p2.distinctHeld)) ∧
    ((checkInstantVictory p1 p2 board).isGameOver = true →
      (checkInstantVictory p1 p2 board).type = VictoryType.SCIENCE ∧
      (((checkInstantVictory p1 p2 board).winnerIndex = 0 ∧ 6 ≤ p1.distinctHeld) ∨
        ((checkInstantVictory p1 p2 board).winnerIndex = 1 ∧ 6 ≤ p2.distinctHeld))) ∧
    ((checkInstantVictory p1 p2 board).isGameOver ≠ true →
      checkInstantVictory p1 p2 board =
        { isGameOver := false, type := VictoryType.NONE, winnerIndex := -1 }) := by
  have h9 : ¬ (|board.militaryTrack.position| ≥ Config.MILITARY_THRESHOLD_WIN) := by
    simp only [Config.MILITARY_THRESHOLD_WIN]
    exact not_le.mpr h
  have e1 : distinctSymbols p1 ≥ Config.SCIENCE_WIN_THRESHOLD ↔ 6 ≤ p1.distinctHeld := by
    rw [distinctSymbols_eq]
    simp only [Config.SCIENCE_WIN_THRESHOLD]
    exact_mod_cast Iff.rfl
  have e2 : distinctSymbols p2 ≥ Config.SCIENCE_WIN_THRESHOLD ↔ 6 ≤ p2.distinctHeld := by
    rw [distinctSymbols_eq]
    simp only [Config.SCIENCE_WIN_THRESHOLD]
    exact_mod_cast Iff.rfl
  unfold checkInstantVictory
  simp only [h9, if_false, e1, e2]
  by_cases a1 : 6 ≤ p1.distinctHeld
  · simp [a1]
  · by_cases a2 : 6 ≤ p2.distinctHeld
    · simp [a1, a2]
    · simp [a1, a2]

theorem checkInstantVictory_military_witness :
    9 ≤ |(boardAt (-9)).militaryTrack.position| ∧
    (checkInstantVictory {} sixSymbolPlayer (boardAt (-9))).isGameOver = true ∧
    (checkInstantVictory {} sixSymbolPlayer (boardAt (-9))).type = VictoryType.MILITARY ∧
    ((checkInstantVictory {} sixSymbolPlayer (boardAt (-9))).winnerIndex = 0 ∨
      (checkInstantVictory {} sixSymbolPlayer (boardAt (-9))).winnerIndex = 1) :=
  ⟨by simp [boardAt],
   checkInstantVictory_military {} sixSymbolPlayer (boardAt (-9)) (by simp [boardAt])⟩

theorem checkInstantVictory_science_witness :
    |(boardAt 4).militaryTrack.position| < 9 ∧
    (checkInstantVictory {} sixSymbolPlayer (boardAt 4)).isGameOver = true ∧
    (checkInstantVictory {} sixSymbolPlayer (boardAt 4)).type = VictoryType.SCIENCE ∧
    6 ≤ sixSymbolPlayer.distinctHeld :=
  have hpos : |(boardAt 4).militaryTrack.position| < 9 := by
    simp only [boardAt]
    decide
  have hsix : 6 ≤ sixSymbolPlayer.distinctHeld := by decide
  have hspec := checkInstantVictory_science {} sixSymbolPlayer (boardAt 4) hpos
  have hover := hspec.1.mpr (Or.inr hsix)
  ⟨hpos, hover, (hspec.2.1 hover).1, hsix⟩

/-! ## Theorems: science pairs -/

theorem pairScan_found (claimed : List ScienceSymbol) (l : List (ScienceSymbol × Int))
    (h : pairScan claimed l ≠ ScienceSymbol.NONE) :
    ∃ c, (pairScan claimed l, c) ∈ l ∧ 2 ≤ c ∧ pairScan claimed l ∉ claimed := by
  induction l with
  | nil => exact absurd rfl h
  | cons e rest ih =>
    obtain ⟨sym, count⟩ := e
    rw [pairScan] at h ⊢
    by_cases h1 : sym = ScienceSymbol.NONE
    · rw [if_pos h1] at h ⊢
      obtain ⟨c, hc, h2, h3⟩ := ih h
      exact ⟨c, List.mem_cons_of_mem _ hc, h2, h3⟩
    · rw [if_neg h1] at h ⊢
      by_cases h2 : count ≥ Config.SCIENCE_PAIR_COUNT
      · rw [if_pos h2] at h ⊢
        by_cases h3 : sym ∉ claimed
        · rw [if_pos h3]
          exact ⟨count, List.mem_cons_self _ _, h2, h3⟩
        · rw [if_neg h3] at h ⊢
          obtain ⟨c, hc, h4, h5⟩ := ih h
          exact ⟨c, List.mem_cons_of_mem _ hc, h4, h5⟩
      · rw [if_neg h2] at h ⊢
        obtain ⟨c, hc, h4, h5⟩ := ih h
        exact ⟨c, List.mem_cons_of_mem _ hc, h4, h5⟩

theorem pairScan_of_mem (claimed : List ScienceSymbol) (l : List (ScienceSymbol × Int))
    (s : ScienceSymbol) (c : Int) (hmem : (s, c) ∈ l) (hs : s ≠ ScienceSymbol.NONE)
    (hc : 2 ≤ c) (hcl : s ∉ claimed) : pairScan claimed l ≠ ScienceSymbol.NONE := by
  induction l with
  | nil => simp at hmem
  | cons e rest ih =>
    obtain ⟨sym, count⟩ := e
    rw [pairScan]
    rcases List.mem_cons.mp hmem with heq | hrest
    · simp only [Prod.mk.injEq] at heq
      obtain ⟨rfl, rfl⟩ := heq
      have h2 : c ≥ Config.SCIENCE_PAIR_COUNT := hc
      rw [if_neg hs, if_pos h2, if_pos hcl]
      exact hs
    · by_cases h1 : sym = ScienceSymbol.NONE
      · rw [if_pos h1]
        exact ih hrest
      · rw [if_neg h1]
        by_cases h2 : count ≥ Config.SCIENCE_PAIR_COUNT
        · rw [if_pos h2]
          by_cases h3 : sym ∉ claimed
          · rw [if_pos h3]
            exact h1
          · rw [if_neg h3]
            exact ih hrest
        · rw [if_neg h2]
          exact ih hrest

theorem getNewSciencePairSymbol_found (p : Player)
    (h : getNewSciencePairSymbol p ≠ ScienceSymbol.NONE) :
    p.hasUnclaimedPair (getNewSciencePairSymbol p) := by
  obtain ⟨c, hc, h2, h3⟩ := pairScan_found p.claimedSciencePairs _ h
  exact ⟨⟨c, (mem_scienceEntries _ _ _).mp hc, h2⟩, h3⟩

theorem getNewSciencePairSymbol_ignores_none (p : Player) (v : Option Int) :
    getNewSciencePairSymbol
      { p with scienceSymbols := fun k =>
          if k = ScienceSymbol.NONE then v else p.scienceSymbols k }
      = getNewSciencePairSymbol p := by
  unfold getNewSciencePairSymbol scienceEntries ScienceSymbol.all
  simp only [List.filterMap_cons, if_true, reduceCtorEq, if_false]
  cases v <;> cases p.scienceSymbols ScienceSymbol.NONE <;> simp [pairScan]

/-- C3. `getNewSciencePairSymbol` returns a symbol other than `NONE` exactly when some symbol
other than `NONE` has count at least 2 and is not in the claimed-pairs set; a returned symbol
other than `NONE` itself has count at least 2 and is unclaimed; and the entry of `NONE`,
whatever its count, has no influence on the result. -/
theorem getNewSciencePairSymbol_spec (p : Player) :
    (getNewSciencePairSymbol p ≠ ScienceSymbol.NONE ↔
      ∃ s, s ≠ ScienceSymbol.NONE ∧ p.hasUnclaimedPair s) ∧
    (getNewSciencePairSymbol p ≠ ScienceSymbol.NONE →
      p.hasUnclaimedPair (getNewSciencePairSymbol p)) ∧
    (∀ v : Option Int,
      getNewSciencePairSymbol
        { p with scienceSymbols := fun k =>
            if k = ScienceSymbol.NONE then v else p.scienceSymbols k }
        = getNewSciencePairSymbol p) := by
  refine ⟨⟨fun h => ⟨_, h, getNewSciencePairSymbol_found p h⟩, ?_⟩,
    getNewSciencePairSymbol_found p, getNewSciencePairSymbol_ignores_none p⟩
  rintro ⟨s, hs, ⟨c, hm, hc⟩, hcl⟩
  exact pairScan_of_mem _ _ s c ((mem_scienceEntries _ _ _).mpr hm) hs hc hcl

theorem getNewSciencePairSymbol_spec_witness :
    getNewSciencePairSymbol pairPlayer = ScienceSymbol.TABLET ∧
    pairPlayer.hasUnclaimedPair ScienceSymbol.TABLET :=
  have hret : getNewSciencePairSymbol pairPlayer = ScienceSymbol.TABLET := by decide
  ⟨hret, hret ▸ (getNewSciencePairSymbol_spec pairPlayer).2.1 (by decide)⟩

theorem claimed_preserved_by_adds (p : Player) (adds : List ScienceSymbol) :
    (adds.foldl Player.addScienceSymbol p).claimedSciencePairs = p.claimedSciencePairs := by
  induction adds generalizing p with
  | nil => rfl
  | cons a rest ih =>
    rw [List.foldl_cons, ih]
    rfl

/-- C4 as stated fails: for a player whose claimed-pairs set holds `NONE`, the function
returns `NONE`, a member of that set. -/
theorem claimed_symbol_returned :
    ScienceSymbol.NONE ∈ claimedNonePlayer.claimedSciencePairs ∧
    getNewSciencePairSymbol claimedNonePlayer = ScienceSymbol.NONE := by
  decide

/-- C4, amended. A symbol other than `NONE` that is in the claimed-pairs set is never
returned by `getNewSciencePairSymbol`, after any sequence of further `addScienceSymbol`
calls and whatever the counts have become. -/
theorem claimed_pair_never_returned (p : Player) (s : ScienceSymbol)
    (adds : List ScienceSymbol) (hs : s ≠ ScienceSymbol.NONE)
    (hclaimed : s ∈ p.claimedSciencePairs) :
    getNewSciencePairSymbol (adds.foldl Player.addScienceSymbol p) ≠ s := by
  intro heq
  have hne : getNewSciencePairSymbol (adds.foldl Player.addScienceSymbol p)
      ≠ ScienceSymbol.NONE := by
    rw [heq]
    exact hs
  have hfound := (getNewSciencePairSymbol_found _ hne).2
  rw [heq, claimed_preserved_by_adds] at hfound
  exact hfound hclaimed

theorem claimed_pair_never_returned_witness :
    ScienceSymbol.GLOBE ≠ ScienceSymbol.NONE ∧
    ScienceSymbol.GLOBE ∈ pairPlayer.claimedSciencePairs ∧
    getNewSciencePairSymbol
      ([ScienceSymbol.GLOBE, ScienceSymbol.GLOBE].foldl Player.addScienceSymbol pairPlayer)
      ≠ ScienceSymbol.GLOBE :=
  ⟨by decide, by decide,
   claimed_pair_never_returned pairPlayer ScienceSymbol.GLOBE
     [ScienceSymbol.GLOBE, ScienceSymbol.GLOBE] (by decide) (by decide)⟩

/-! ## Theorems: pyramid traversal -/

theorem CardPyramid.endIndex_eq (p : CardPyramid) : p.endIndex = p.slots.length := by
  simp [CardPyramid.endIndex, advanceToNextAvailable, skipUnavailable]

theorem CardPyramid.selectableAt_of_drop (p : CardPyramid) (i : Nat) (slot : CardSlot)
    (rest : List CardSlot) (h : p.slots.drop i = slot :: rest) :
    p.slots[i]? = some slot ∧ p.selectableAt i = slot.available ∧
      p.slots.drop (i + 1) = rest := by
  have h0 : p.slots[i]? = some slot := by
    have := List.getElem?_drop (L := p.slots) (i := i) (j := 0)
    rw [h] at this
    simpa using this.symm
  refine ⟨h0, ?_, ?_⟩
  · simp [CardPyramid.selectableAt, h0, CardSlot.available]
  · rw [← List.tail_drop, h]
    rfl

theorem CardPyramid.traverseFrom_suffix (p : CardPyramid) :
    ∀ (l : List CardSlot) (i fuel : Nat), p.slots.drop i = l →
      i + l.length = p.slots.length → l.length < fuel →
      p.traverseFrom fuel (skipUnavailable l i)
        = some ((List.range' i l.length).filter p.selectableAt) := by
  intro l
  induction l with
  | nil =>
    intro i fuel _ hlen hfuel
    obtain ⟨f, rfl⟩ : ∃ f, fuel = f + 1 := ⟨fuel - 1, by simp at hfuel; omega⟩
    have hi : i = p.endIndex := by
      rw [p.endIndex_eq]
      simpa using hlen
    simp [skipUnavailable, CardPyramid.traverseFrom, hi]
  | cons slot rest ih =>
    intro i fuel hdrop hlen hfuel
    obtain ⟨hget, hsel, hrest⟩ := p.selectableAt_of_drop i slot rest hdrop
    have hlen2 : (i + 1) + rest.length = p.slots.length := by
      simp only [List.length_cons] at hlen
      omega
    by_cases hav : slot.available = true
    · obtain ⟨f, rfl⟩ : ∃ f, fuel = f + 1 := ⟨fuel - 1, by omega⟩
      have hne : i ≠ p.endIndex := by
        rw [p.endIndex_eq]
        omega
      have hnext : p.next i = skipUnavailable rest (i + 1) := by
        simp [CardPyramid.next, advanceToNextAvailable, hrest]
      have hf : rest.length < f := by
        simp only [List.length_cons] at hfuel
        omega
      rw [skipUnavailable, if_pos hav, CardPyramid.traverseFrom, if_neg hne, hnext,
        ih (i + 1) f hrest hlen2 hf]
      simp [List.range'_succ, List.filter_cons, hsel, hav]
    · have hf : rest.length < fuel := by
        simp only [List.length_cons] at hfuel
        omega
      have hav2 : slot.available = false := by simpa using hav
      rw [skipUnavailable, if_neg hav, ih (i + 1) fuel hrest hlen2 hf]
      simp [List.range'_succ, List.filter_cons, hsel, hav2]

theorem CardPyramid.visited_slots_suffix (p : CardPyramid) :
    ∀ (l : List CardSlot) (i : Nat), p.slots.drop i = l →
      ((List.range' i l.length).filter p.selectableAt).filterMap (fun j => p.slots[j]?)
        = l.filter CardSlot.available := by
  intro l
  induction l with
  | nil => intro i _; simp
  | cons slot rest ih =>
    intro i hdrop
    obtain ⟨hget, hsel, hrest⟩ := p.selectableAt_of_drop i slot rest hdrop
    cases hav : slot.available with
    | true =>
      simp [List.range'_succ, List.filter_cons, hsel, hav, hget, ih (i + 1) hrest]
    | false =>
      simp [List.range'_succ, List.filter_cons, hsel, hav, ih (i + 1) hrest]

theorem CardPyramid.selectableAt_iff (p : CardPyramid) (i : Nat) :
    p.selectableAt i = true ↔
      ∃ slot, p.slots[i]? = some slot ∧ slot.isRemoved = false ∧ slot.coveredBy = [] := by
  unfold CardPyramid.selectableAt
  cases h : p.slots[i]? with
  | none => simp
  | some slot => simp [List.isEmpty_iff]

/-- C5. Iterating a pyramid from `begin()` to `end()` terminates and visits exactly the
storage positions of the slots that are not removed and covered by nothing, in storage
order: the visited slots are the subsequence of such slots, a position is visited once if
its slot is selectable and never otherwise. -/
theorem CardPyramid.traverse_selectable (p : CardPyramid) :
    ∃ visited, p.traverse = some visited ∧
      visited = (List.range p.slots.length).filter p.selectableAt ∧
      visited.filterMap (fun i => p.slots[i]?)
        = p.slots.filter (fun slot => !slot.isRemoved && slot.coveredBy.isEmpty) ∧
      (∀ i, i ∈ visited ↔
        ∃ slot, p.slots[i]? = some slot ∧ slot.isRemoved = false ∧ slot.coveredBy = []) ∧
      (∀ i, visited.count i = if p.selectableAt i = true then 1 else 0) := by
  have hrun : p.traverse = some ((List.range p.slots.length).filter p.selectableAt) := by
    have := p.traverseFrom_suffix p.slots 0 (p.slots.length + 1) (by simp) (by simp)
      (by omega)
    rw [List.range_eq_range']
    exact this
  have hmem : ∀ i, i ∈ (List.range p.slots.length).filter p.selectableAt ↔
      p.selectableAt i = true := by
    intro i
    rw [List.mem_filter, List.mem_range]
    constructor
    · exact fun h => h.2
    · intro h
      refine ⟨?_, h⟩
      obtain ⟨slot, hslot, -⟩ := (p.selectableAt_iff i).mp h
      exact (List.getElem?_eq_some_iff.mp hslot).1
  refine ⟨_, hrun, rfl, ?_, ?_, ?_⟩
  · have := p.visited_slots_suffix p.slots 0 (by simp)
    rw [List.range_eq_range']
    exact this
  · intro i
    rw [hmem, p.selectableAt_iff]
  · intro i
    by_cases hsel : p.selectableAt i = true
    · rw [if_pos hsel]
      exact List.count_eq_one_of_mem ((List.nodup_range _).filter _) ((hmem i).mpr hsel)
    · rw [if_neg hsel]
      exact List.count_eq_zero_of_not_mem (fun h => hsel ((hmem i).mp h))

theorem CardPyramid.traverse_selectable_witness : samplePyramid.traverse = some [0, 3] :=
  match CardPyramid.traverse_selectable samplePyramid with
  | ⟨_, hrun, hvisited, _⟩ => hrun.trans (congrArg some (hvisited.trans (by decide)))

/-! ## Theorems: action pipeline -/

/-- C6. `processAction` returns `false` exactly when the validation of the action by the
current state fails, and then the controller (both players, board, age, current player and
state-machine state) is what it was before the call. -/
theorem GameController.processAction_false_iff (k : Collaborators) (c : GameController)
    (action : Action) :
    ((c.processAction k action).1 = false ↔ (c.validateAction k action).isValid = false) ∧
    ((c.processAction k action).1 = false →
      (c.processAction k action).2 = c ∧
      (c.processAction k action).2.model = c.model ∧
      (c.processAction k action).2.currentState = c.currentState) := by
  unfold GameController.processAction
  by_cases hv : (c.validateAction k action).isValid = false
  · simp [hv]
  · rw [if_neg hv]
    have hv2 : (c.validateAction k action).isValid = true := by simpa using hv
    by_cases hg : (k.execute action c).checkVictoryConditions.currentState
        = GameState.GAME_OVER
    · simp [hg, hv2]
    · simp [hg, hv2]

theorem GameController.processAction_false_iff_witness :
    (agePlayController.processAction sampleCollaborators
      { type := ActionType.DRAFT_WONDER }).1 = false ∧
    (agePlayController.processAction sampleCollaborators
      { type := ActionType.DRAFT_WONDER }).2 = agePlayController :=
  have hinvalid : (agePlayController.validateAction sampleCollaborators
      { type := ActionType.DRAFT_WONDER }).isValid = false := by decide
  have hspec := GameController.processAction_false_iff sampleCollaborators agePlayController
    { type := ActionType.DRAFT_WONDER }
  ⟨hspec.1.mpr hinvalid, (hspec.2 (hspec.1.mpr hinvalid)).1⟩

/-! ## Theorems: trading price and cost -/

/-- C8. The trading price of a resource is 1 when the player's trading-discount flag for it
is active, and otherwise 2 plus the opponent's publicly visible production of it. -/
theorem Player.getTradingPrice_spec (p opponent : Player) (type : ResourceType) :
    (p.tradingDiscounts type = true → p.getTradingPrice type opponent = 1) ∧
    (p.tradingDiscounts type = false →
      p.getTradingPrice type opponent = 2 + opponent.publicProduction type) := by
  unfold Player.getTradingPrice
  constructor
  · intro h
    simp [h]
  · intro h
    simp [h, Config.TRADING_BASE_COST]

theorem Player.getTradingPrice_spec_witness :
    (scenarioPlayer.setTradingDiscount ResourceType.WOOD true).getTradingPrice
      ResourceType.WOOD clayProducer = 1 ∧
    scenarioPlayer.getTradingPrice ResourceType.CLAY clayProducer = 3 :=
  ⟨(Player.getTradingPrice_spec (scenarioPlayer.setTradingDiscount ResourceType.WOOD true)
      clayProducer ResourceType.WOOD).1 (by decide),
   ((Player.getTradingPrice_spec scenarioPlayer clayProducer ResourceType.CLAY).2
      (by decide)).trans (by decide)⟩

theorem minOver_le_best (best : Nat) (l : List Nat) : minOver best l ≤ best := by
  unfold minOver
  induction l generalizing best with
  | nil => exact le_refl _
  | cons x rest ih => exact le_trans (ih (min best x)) (Nat.min_le_left _ _)

theorem minOver_le_of_mem (best : Nat) (l : List Nat) (x : Nat) (hx : x ∈ l) :
    minOver best l ≤ x := by
  unfold minOver
  induction l generalizing best with
  | nil => simp at hx
  | cons y rest ih =>
    rcases List.mem_cons.mp hx with rfl | hrest
    · exact le_trans (minOver_le_best (min best x) rest) (Nat.min_le_right _ _)
    · exact ih (min best y) hrest

theorem minOver_attained (best : Nat) (l : List Nat) :
    minOver best l = best ∨ minOver best l ∈ l := by
  unfold minOver
  induction l generalizing best with
  | nil => exact Or.inl rfl
  | cons y rest ih =>
    rcases ih (min best y) with h | h
    · rcases Nat.le_total best y with hle | hle
      · left
        rw [List.foldl_cons, h, Nat.min_eq_left hle]
      · right
        rw [List.foldl_cons, h, Nat.min_eq_right hle]
        exact List.mem_cons_self _ _
    · exact Or.inr (List.mem_cons_of_mem _ h)

theorem assignmentCost_nil (price need : ResourceType → Nat) :
    assignmentCost price need [] = bankCost price need := by
  simp [assignmentCost]

theorem assignmentCost_unused (price need : ResourceType → Nat)
    (a : List (Option ResourceType)) :
    assignmentCost price need (none :: a) = assignmentCost price need a := by
  simp [assignmentCost, List.count_cons]

theorem assignmentCost_used (price need : ResourceType → Nat) (t : ResourceType)
    (a : List (Option ResourceType)) :
    assignmentCost price need (some t :: a) = assignmentCost price (useOne need t) a := by
  unfold assignmentCost
  congr 1
  funext r
  by_cases hr : r = t
  · subst hr
    simp only [List.count_cons, useOne, beq_self_eq_true, if_true]
    omega
  · have hne : ¬ (t = r) := fun h => hr h.symm
    simp [List.count_cons, useOne, hr, hne]

theorem useOne_of_zero (need : ResourceType → Nat) (t : ResourceType) (h : ¬ 0 < need t) :
    useOne need t = need := by
  funext r
  unfold useOne
  by_cases hr : r = t
  · subst hr
    simp only [if_true]
    omega
  · simp [hr]

theorem searchChoices_le (price : ResourceType → Nat) :
    ∀ (choices : List (List ResourceType)) (need : ResourceType → Nat)
      (a : List (Option ResourceType)), IsAssignment choices a →
      searchChoices price choices need ≤ assignmentCost price need a := by
  intro choices
  induction choices with
  | nil =>
    intro need a ha
    cases a with
    | nil => rw [assignmentCost_nil, searchChoices]
    | cons o os => exact absurd ha (by simp [IsAssignment])
  | cons entry rest ih =>
    intro need a ha
    cases a with
    | nil => exact absurd ha (by simp [IsAssignment])
    | cons o os =>
      obtain ⟨hin, hrest⟩ := ha
      rw [searchChoices]
      cases o with
      | none =>
        rw [assignmentCost_unused]
        exact le_trans (minOver_le_best _ _) (ih need os hrest)
      | some t =>
        rw [assignmentCost_used]
        by_cases hpos : 0 < need t
        · refine le_trans (minOver_le_of_mem _ _ _ ?_) (ih (useOne need t) os hrest)
          refine List.mem_map.mpr ⟨t, List.mem_filter.mpr ⟨hin t rfl, ?_⟩, rfl⟩
          simpa using hpos
        · rw [useOne_of_zero need t hpos]
          exact le_trans (minOver_le_best _ _) (ih need os hrest)

theorem searchChoices_attained (price : ResourceType → Nat) :
    ∀ (choices : List (List ResourceType)) (need : ResourceType → Nat),
      ∃ a, IsAssignment choices a ∧
        searchChoices price choices need = assignmentCost price need a := by
  intro choices
  induction choices with
  | nil =>
    intro need
    exact ⟨[], trivial, by rw [assignmentCost_nil, searchChoices]⟩
  | cons entry rest ih =>
    intro need
    rw [searchChoices]
    rcases minOver_attained (searchChoices price rest need)
      ((entry.filter (fun t => 0 < need t)).map
        (fun t => searchChoices price rest (useOne need t))) with h | h
    · obtain ⟨a, ha, hcost⟩ := ih need
      refine ⟨none :: a, ⟨fun t ht => by simp at ht, ha⟩, ?_⟩
      rw [h, assignmentCost_unused, hcost]
    · obtain ⟨t, ht, heq⟩ := List.mem_map.mp h
      obtain ⟨a, ha, hcost⟩ := ih (useOne need t)
      refine ⟨some t :: a, ⟨fun u hu => ?_, ha⟩, ?_⟩
      · have : t = u := by simpa using hu
        rw [← this]
        exact (List.mem_filter.mp ht).1
      · rw [← heq, assignmentCost_used, hcost]

theorem bankCost_mono (price need1 need2 : ResourceType → Nat)
    (h : ∀ r, need1 r ≤ need2 r) : bankCost price need1 ≤ bankCost price need2 := by
  unfold bankCost
  exact List.sum_le_sum (fun r _ => Nat.mul_le_mul_right _ (h r))

theorem searchChoices_mono (price : ResourceType → Nat) (choices : List (List ResourceType))
    (need1 need2 : ResourceType → Nat) (h : ∀ r, need1 r ≤ need2 r) :
    searchChoices price choices need1 ≤ searchChoices price choices need2 := by
  obtain ⟨a, ha, hcost⟩ := searchChoices_attained price choices need2
  rw [hcost]
  refine le_trans (searchChoices_le price choices need1 a ha) ?_
  exact bankCost_mono price _ _ (fun r => Nat.sub_le_sub_right (h r) _)

/-- C7. The total returned by `calculateCost` is the minimum, over all ways of using the
choice entries (each entry at most once, for one unit of a type it contains), of the
adjusted coin cost plus the bank purchases of the units covered neither by fixed production
nor by a choice entry. In the scenario of one fixed clay, no fixed wood and one choice entry
`{wood, clay}`, a cost of one wood and one clay is paid without any bank purchase. -/
theorem Player.calculateCost_minimal (p : Player) (cost : ResourceCost) (opponent : Player)
    (targetType : CardType) :
    (∀ a, IsAssignment p.choiceResources a →
      (p.calculateCost cost opponent targetType).2 ≤
        p.adjustedCoins cost targetType +
          assignmentCost (fun r => p.getTradingPrice r opponent) (p.missing cost) a) ∧
    (∃ a, IsAssignment p.choiceResources a ∧
      (p.calculateCost cost opponent targetType).2 =
        p.adjustedCoins cost targetType +
          assignmentCost (fun r => p.getTradingPrice r opponent) (p.missing cost) a) ∧
    scenarioPlayer.calculateCost scenarioCost opponent targetType = (true, 0) := by
  refine ⟨fun a ha => ?_, ?_, ?_⟩
  · exact Nat.add_le_add_left (searchChoices_le _ _ _ a ha) _
  · obtain ⟨a, ha, hcost⟩ := searchChoices_attained
      (fun r => p.getTradingPrice r opponent) p.choiceResources (p.missing cost)
    exact ⟨a, ha, by simp only [Player.calculateCost, hcost]⟩
  · have hsearch : searchChoices (fun r => scenarioPlayer.getTradingPrice r opponent)
        scenarioPlayer.choiceResources (scenarioPlayer.missing scenarioCost) = 0 := by
      refine Nat.le_zero.mp (le_trans (searchChoices_le _ _ _ [some ResourceType.WOOD] ?_) ?_)
      · simp [scenarioPlayer, IsAssignment]
      · simp [assignmentCost, bankCost, ResourceType.all, Player.missing, scenarioPlayer,
          scenarioCost]
    have hcoins : scenarioPlayer.adjustedCoins scenarioCost targetType = 0 := by
      simp [Player.adjustedCoins, scenarioCost]
    simp [Player.calculateCost, hsearch, hcoins]

theorem Player.calculateCost_minimal_witness :
    IsAssignment scenarioPlayer.choiceResources [none] ∧
    (scenarioPlayer.calculateCost scenarioCost sixSymbolPlayer CardType.CIVILIAN).2 ≤
      scenarioPlayer.adjustedCoins scenarioCost CardType.CIVILIAN +
        assignmentCost (fun r => scenarioPlayer.getTradingPrice r sixSymbolPlayer)
          (scenarioPlayer.missing scenarioCost) [none] :=
  have hassign : IsAssignment scenarioPlayer.choiceResources [none] := by
    simp [scenarioPlayer, IsAssignment]
  ⟨hassign,
   (Player.calculateCost_minimal scenarioPlayer scenarioCost sixSymbolPlayer
      CardType.CIVILIAN).1 [none] hassign⟩

/-- C9. Adding one unit of fixed production of any resource, tradable or not, never
increases the total returned by `calculateCost`; and for every resource the bank price with
the trading discount removed is at least the price the player had. -/
theorem Player.calculateCost_monotone (p opponent : Player) (cost : ResourceCost)
    (targetType : CardType) (r : ResourceType) (isTradable : Bool) :
    ((p.addResource r 1 isTradable).calculateCost cost opponent targetType).2
      ≤ (p.calculateCost cost opponent targetType).2 ∧
    p.getTradingPrice r opponent
      ≤ (p.setTradingDiscount r false).getTradingPrice r opponent ∧
    (p.setTradingDiscount r true).getTradingPrice r opponent
      ≤ (p.setTradingDiscount r false).getTradingPrice r opponent := by
  refine ⟨?_, ?_, ?_⟩
  · have hneed : ∀ k, (p.addResource r 1 isTradable).missing cost k ≤ p.missing cost k := by
      intro k
      unfold Player.missing Player.addResource
      by_cases hk : k = r
      · simp only [hk, if_true]
        omega
      · simp [hk]
    exact Nat.add_le_add_left
      (searchChoices_mono (fun k => p.getTradingPrice k opponent) p.choiceResources _ _
        hneed) _
  · unfold Player.getTradingPrice Player.setTradingDiscount
    by_cases hd : p.tradingDiscounts r = true
    · simp [hd, Config.TRADING_BASE_COST]
      omega
    · simp [hd]
  · simp [Player.getTradingPrice, Player.setTradingDiscount, Config.TRADING_BASE_COST]
    omega

theorem Player.calculateCost_monotone_witness :
    (clayProducer.calculateCost scenarioCost clayProducer CardType.CIVILIAN).2 = 2 ∧
    ((clayProducer.addResource ResourceType.WOOD 1 true).calculateCost scenarioCost
      clayProducer CardType.CIVILIAN).2 ≤ 2 ∧
    clayProducer.getTradingPrice ResourceType.CLAY clayProducer
      ≤ (clayProducer.setTradingDiscount ResourceType.CLAY false).getTradingPrice
          ResourceType.CLAY clayProducer :=
  have hbefore :
      (clayProducer.calculateCost scenarioCost clayProducer CardType.CIVILIAN).2 = 2 := by
    decide
  ⟨hbefore,
   le_of_le_of_eq (Player.calculateCost_monotone clayProducer clayProducer scenarioCost
      CardType.CIVILIAN ResourceType.WOOD true).1 hbefore,
   (Player.calculateCost_monotone clayProducer clayProducer scenarioCost
      CardType.CIVILIAN ResourceType.CLAY true).2.1⟩

/-! ## Theorems: military track -/

theorem MilitaryTrack.move_position (t : MilitaryTrack) (shields playerId : Int) :
    -9 ≤ (t.move shields playerId).1.position ∧ (t.move shields playerId).1.position ≤ 9 := by
  simp only [MilitaryTrack.move, Config.MILITARY_THRESHOLD_WIN]
  constructor
  · exact le_max_left _ _
  · exact max_le (by decide) (min_le_left _ _)

theorem MilitaryTrack.moves_position (calls : List (Int × Int)) :
    ∀ t : MilitaryTrack, -9 ≤ t.position ∧ t.position ≤ 9 →
      -9 ≤ (t.moves calls).position ∧ (t.moves calls).position ≤ 9 := by
  induction calls with
  | nil => exact fun t h => h
  | cons call rest ih =>
    intro t _
    exact ih _ (t.move_position call.1 call.2)

/-- C10. Starting from position 0, after any sequence of `move(shields, playerId)` calls
with `shields ≥ 0` and `playerId` 0 or 1, the military position lies in `[-9, 9]`. -/
theorem MilitaryTrack.position_in_range (calls : List (Int × Int))
    (_hcalls : ∀ call ∈ calls, 0 ≤ call.1 ∧ (call.2 = 0 ∨ call.2 = 1)) :
    -9 ≤ (({} : MilitaryTrack).moves calls).position ∧
    (({} : MilitaryTrack).moves calls).position ≤ 9 :=
  MilitaryTrack.moves_position calls {} (by decide)

theorem MilitaryTrack.position_in_range_witness :
    (({} : MilitaryTrack).moves [(4, 0), (7, 0), (2, 1), (30, 1)]).position = -9 ∧
    -9 ≤ (({} : MilitaryTrack).moves [(4, 0), (7, 0), (2, 1), (30, 1)]).position ∧
    (({} : MilitaryTrack).moves [(4, 0), (7, 0), (2, 1), (30, 1)]).position ≤ 9 :=
  ⟨by decide,
   MilitaryTrack.position_in_range [(4, 0), (7, 0), (2, 1), (30, 1)] (by decide)⟩

/-! ## Theorems: loot tokens -/

theorem count_optional_event (b : Bool) (v w : Int) :
    (if b = true then [w] else []).count v = if b = true ∧ w = v then 1 else 0 := by
  cases b <;> simp [List.count_singleton]

theorem MilitaryTrack.move_loot_balance (t : MilitaryTrack) (shields playerId : Int) :
    ((t.move shields playerId).2.count (-5)
        + (if (t.move shields playerId).1.loot0 = true then 1 else 0)
      = if t.loot0 = true then 1 else 0) ∧
    ((t.move shields playerId).2.count (-2)
        + (if (t.move shields playerId).1.loot1 = true then 1 else 0)
      = if t.loot1 = true then 1 else 0) ∧
    ((t.move shields playerId).2.count 2
        + (if (t.move shields playerId).1.loot2 = true then 1 else 0)
      = if t.loot2 = true then 1 else 0) ∧
    ((t.move shields playerId).2.count 5
        + (if (t.move shields playerId).1.loot3 = true then 1 else 0)
      = if t.loot3 = true then 1 else 0) := by
  obtain ⟨pos, l0, l1, l2, l3⟩ := t
  simp only [MilitaryTrack.move, Config.MILITARY_THRESHOLD_WIN,
    Config.MILITARY_THRESHOLD_LOOT_1, Config.MILITARY_THRESHOLD_LOOT_2,
    Config.MILITARY_LOOT_VALUE_1, Config.MILITARY_LOOT_VALUE_2, List.count_append,
    count_optional_event]
  generalize max (-9 : Int) (min 9 (if playerId = 0 then pos + shields else pos - shields))
    = q
  refine ⟨?_, ?_, ?_, ?_⟩
  · cases l0 <;> by_cases h : q ≤ (-6 : Int) <;> simp [h]
  · cases l1 <;> by_cases h : q ≤ (-3 : Int) <;> simp [h]
  · cases l2 <;> by_cases h : (3 : Int) ≤ q <;> simp [h]
  · cases l3 <;> by_cases h : (6 : Int) ≤ q <;> simp [h]

theorem MilitaryTrack.moves_cons (t : MilitaryTrack) (call : Int × Int)
    (rest : List (Int × Int)) :
    t.moves (call :: rest) = (t.move call.1 call.2).1.moves rest := rfl

theorem MilitaryTrack.loot_balance (calls : List (Int × Int)) :
    ∀ t : MilitaryTrack,
      ((t.lootEvents calls).count (-5) + (if (t.moves calls).loot0 = true then 1 else 0)
        = if t.loot0 = true then 1 else 0) ∧
      ((t.lootEvents calls).count (-2) + (if (t.moves calls).loot1 = true then 1 else 0)
        = if t.loot1 = true then 1 else 0) ∧
      ((t.lootEvents calls).count 2 + (if (t.moves calls).loot2 = true then 1 else 0)
        = if t.loot2 = true then 1 else 0) ∧
      ((t.lootEvents calls).count 5 + (if (t.moves calls).loot3 = true then 1 else 0)
        = if t.loot3 = true then 1 else 0) := by
  induction calls with
  | nil =>
    intro t
    simp [MilitaryTrack.lootEvents, MilitaryTrack.moves]
  | cons call rest ih =>
    intro t
    obtain ⟨a0, a1, a2, a3⟩ := t.move_loot_balance call.1 call.2
    obtain ⟨b0, b1, b2, b3⟩ := ih (t.move call.1 call.2).1
    simp only [MilitaryTrack.lootEvents, MilitaryTrack.moves_cons, List.count_append]
    refine ⟨?_, ?_, ?_, ?_⟩ <;> omega

/-- C11. Loot tokens are one-shot: over any sequence of `move` calls a token that is
already consumed stays consumed, it reports no further loot event, and each of the four loot
events occurs at most once. -/
theorem MilitaryTrack.loot_one_shot (t : MilitaryTrack) (calls : List (Int × Int)) :
    ((t.loot0 = false → (t.moves calls).loot0 = false ∧ (t.lootEvents calls).count (-5) = 0) ∧
     (t.loot1 = false → (t.moves calls).loot1 = false ∧ (t.lootEvents calls).count (-2) = 0) ∧
     (t.loot2 = false → (t.moves calls).loot2 = false ∧ (t.lootEvents calls).count 2 = 0) ∧
     (t.loot3 = false → (t.moves calls).loot3 = false ∧ (t.lootEvents calls).count 5 = 0)) ∧
    ((t.lootEvents calls).count (-5) ≤ 1 ∧ (t.lootEvents calls).count (-2) ≤ 1 ∧
     (t.lootEvents calls).count 2 ≤ 1 ∧ (t.lootEvents calls).count 5 ≤ 1) := by
  obtain ⟨b0, b1, b2, b3⟩ := MilitaryTrack.loot_balance calls t
  refine ⟨⟨fun h => ?_, fun h => ?_, fun h => ?_, fun h => ?_⟩, ?_, ?_, ?_, ?_⟩
  · rw [h] at b0
    cases hf : (t.moves calls).loot0 <;> simp [hf] at b0 ⊢
    omega
  · rw [h] at b1
    cases hf : (t.moves calls).loot1 <;> simp [hf] at b1 ⊢
    omega
  · rw [h] at b2
    cases hf : (t.moves calls).loot2 <;> simp [hf] at b2 ⊢
    omega
  · rw [h] at b3
    cases hf : (t.moves calls).loot3 <;> simp [hf] at b3 ⊢
    omega
  · split_ifs at b0 <;> omega
  · split_ifs at b1 <;> omega
  · split_ifs at b2 <;> omega
  · split_ifs at b3 <;> omega

theorem MilitaryTrack.loot_one_shot_witness :
    (({} : MilitaryTrack).moves [(4, 0), (1, 1)]).loot2 = false ∧
    ((({} : MilitaryTrack).moves [(4, 0), (1, 1)]).moves [(2, 0), (9, 1), (9, 0)]).loot2
      = false ∧
    ((({} : MilitaryTrack).moves [(4, 0), (1, 1)]).lootEvents
      [(2, 0), (9, 1), (9, 0)]).count 2 = 0 :=
  have hconsumed : (({} : MilitaryTrack).moves [(4, 0), (1, 1)]).loot2 = false := by decide
  have hlater := (MilitaryTrack.loot_one_shot (({} : MilitaryTrack).moves [(4, 0), (1, 1)])
    [(2, 0), (9, 1), (9, 0)]).1.2.2.1 hconsumed
  ⟨hconsumed, hlater.1, hlater.2⟩

theorem MilitaryTrack.tokens_kept (calls : List (Int × Int)) :
    ∀ t : MilitaryTrack,
      ((∀ n, 1 ≤ n → n ≤ calls.length → |(t.moves (calls.take n)).position| < 3) →
        (t.moves calls).loot1 = t.loot1 ∧ (t.moves calls).loot2 = t.loot2) ∧
      ((∀ n, 1 ≤ n → n ≤ calls.length → |(t.moves (calls.take n)).position| < 6) →
        (t.moves calls).loot0 = t.loot0 ∧ (t.moves calls).loot3 = t.loot3) := by
  induction calls with
  | nil =>
    intro t
    exact ⟨fun _ => ⟨rfl, rfl⟩, fun _ => ⟨rfl, rfl⟩⟩
  | cons call rest ih =>
    intro t
    have hstep : ∀ b : Int,
        (∀ n, 1 ≤ n → n ≤ (call :: rest).length →
          |(t.moves ((call :: rest).take n)).position| < b) →
        |(t.move call.1 call.2).1.position| < b ∧
        (∀ n, 1 ≤ n → n ≤ rest.length →
          |((t.move call.1 call.2).1.moves (rest.take n)).position| < b) := by
      intro b h
      refine ⟨by simpa [MilitaryTrack.moves] using h 1 (le_refl 1) (by simp), ?_⟩
      intro n h1 h2
      have := h (n + 1) (by omega) (by simp only [List.length_cons]; omega)
      simpa [MilitaryTrack.moves_cons] using this
    have hpos : (t.move call.1 call.2).1.position
        = max (-9 : Int) (min 9 (if call.2 = 0 then t.position + call.1
            else t.position - call.1)) := rfl
    constructor
    · intro h
      obtain ⟨h1, h2⟩ := hstep 3 h
      obtain ⟨i1, i2⟩ := ((ih (t.move call.1 call.2).1).1 h2)
      rw [MilitaryTrack.moves_cons, i1, i2]
      rw [hpos] at h1
      rw [abs_lt] at h1
      have ha : ¬ ((3 : Int) ≤ max (-9 : Int) (min 9 (if call.2 = 0 then t.position + call.1
          else t.position - call.1))) := by omega
      have hb : ¬ (max (-9 : Int) (min 9 (if call.2 = 0 then t.position + call.1
          else t.position - call.1)) ≤ (-3 : Int)) := by omega
      simp [MilitaryTrack.move, Config.MILITARY_THRESHOLD_WIN,
        Config.MILITARY_THRESHOLD_LOOT_1, ha, hb]
    · intro h
      obtain ⟨h1, h2⟩ := hstep 6 h
      obtain ⟨i1, i2⟩ := ((ih (t.move call.1 call.2).1).2 h2)
      rw [MilitaryTrack.moves_cons, i1, i2]
      rw [hpos] at h1
      rw [abs_lt] at h1
      have ha : ¬ ((6 : Int) ≤ max (-9 : Int) (min 9 (if call.2 = 0 then t.position + call.1
          else t.position - call.1))) := by omega
      have hb : ¬ (max (-9 : Int) (min 9 (if call.2 = 0 then t.position + call.1
          else t.position - call.1)) ≤ (-6 : Int)) := by omega
      simp [MilitaryTrack.move, Config.MILITARY_THRESHOLD_WIN,
        Config.MILITARY_THRESHOLD_LOOT_2, ha, hb]

theorem GameModel.resolve_move_events (m : GameModel) (h2 h3 h1 h0 : Bool) :
    (m.resolveMilitaryLoot
      ((if h2 = true then [(2 : Int)] else []) ++ (if h3 = true then [(5 : Int)] else []) ++
        (if h1 = true then [(-2 : Int)] else []) ++
        (if h0 = true then [(-5 : Int)] else []))).player1.coins
      = m.player1.coins - (if h2 = true then 2 else 0) - (if h3 = true then 5 else 0) ∧
    (m.resolveMilitaryLoot
      ((if h2 = true then [(2 : Int)] else []) ++ (if h3 = true then [(5 : Int)] else []) ++
        (if h1 = true then [(-2 : Int)] else []) ++
        (if h0 = true then [(-5 : Int)] else []))).player0.coins
      = m.player0.coins - (if h1 = true then 2 else 0) - (if h0 = true then 5 else 0) := by
  cases h2 <;> cases h3 <;> cases h1 <;> cases h0 <;>
    simp [GameModel.resolveMilitaryLoot, Player.loseCoins]

theorem GameController.moveMilitary_coins (c : GameController) (shields playerId : Int) :
    (c.moveMilitary shields playerId).2
      = (c.model.board.militaryTrack.move shields playerId).2 ∧
    (c.moveMilitary shields playerId).1.model.player1.coins
      = c.model.player1.coins
        - (if (3 ≤ (c.model.board.militaryTrack.move shields playerId).1.position
              ∧ c.model.board.militaryTrack.loot2 = true) then 2 else 0)
        - (if (6 ≤ (c.model.board.militaryTrack.move shields playerId).1.position
              ∧ c.model.board.militaryTrack.loot3 = true) then 5 else 0) ∧
    (c.moveMilitary shields playerId).1.model.player0.coins
      = c.model.player0.coins
        - (if ((c.model.board.militaryTrack.move shields playerId).1.position ≤ -3
              ∧ c.model.board.militaryTrack.loot1 = true) then 2 else 0)
        - (if ((c.model.board.militaryTrack.move shields playerId).1.position ≤ -6
              ∧ c.model.board.militaryTrack.loot0 = true) then 5 else 0) := by
  have h := GameModel.resolve_move_events
    { c.model with board :=
        { c.model.board with
          militaryTrack := (c.model.board.militaryTrack.move shields playerId).1 } }
    (decide (3 ≤ (c.model.board.militaryTrack.move shields playerId).1.position)
      && c.model.board.militaryTrack.loot2)
    (decide (6 ≤ (c.model.board.militaryTrack.move shields playerId).1.position)
      && c.model.board.militaryTrack.loot3)
    (decide ((c.model.board.militaryTrack.move shields playerId).1.position ≤ -3)
      && c.model.board.militaryTrack.loot1)
    (decide ((c.model.board.militaryTrack.move shields playerId).1.position ≤ -6)
      && c.model.board.militaryTrack.loot0)
  have hm : (c.moveMilitary shields playerId).1.model
      = GameModel.resolveMilitaryLoot
          { c.model with board :=
              { c.model.board with
                militaryTrack := (c.model.board.militaryTrack.move shields playerId).1 } }
          ((if (decide (3 ≤ (c.model.board.militaryTrack.move shields playerId).1.position)
                && c.model.board.militaryTrack.loot2) = true then [(2 : Int)] else []) ++
            (if (decide (6 ≤ (c.model.board.militaryTrack.move shields playerId).1.position)
                && c.model.board.militaryTrack.loot3) = true then [(5 : Int)] else []) ++
            (if (decide ((c.model.board.militaryTrack.move shields playerId).1.position ≤ -3)
                && c.model.board.militaryTrack.loot1) = true then [(-2 : Int)] else []) ++
            (if (decide ((c.model.board.militaryTrack.move shields playerId).1.position ≤ -6)
                && c.model.board.militaryTrack.loot0) = true then [(-5 : Int)] else [])) :=
    rfl
  refine ⟨rfl, ?_, ?_⟩
  · rw [hm]
    simpa only [Bool.and_eq_true, decide_eq_true_eq] using h.1
  · rw [hm]
    simpa only [Bool.and_eq_true, decide_eq_true_eq] using h.2

theorem GameModel.resolveMilitaryLoot_board (lootEvents : List Int) :
    ∀ m : GameModel, (m.resolveMilitaryLoot lootEvents).board = m.board := by
  induction lootEvents with
  | nil => exact fun _ => rfl
  | cons e rest ih =>
    intro m
    simp only [GameModel.resolveMilitaryLoot, List.foldl_cons]
    have := ih (if 0 < e then { m with player1 := m.player1.loseCoins e.toNat }
      else if e < 0 then { m with player0 := m.player0.loseCoins (-e).toNat } else m)
    simp only [GameModel.resolveMilitaryLoot] at this
    rw [this]
    split_ifs <;> rfl

theorem GameController.moveMilitary_track (c : GameController) (shields playerId : Int) :
    (c.moveMilitary shields playerId).1.model.board.militaryTrack
      = (c.model.board.militaryTrack.move shields playerId).1 := by
  simp [GameController.moveMilitary, GameModel.resolveMilitaryLoot_board]

theorem MilitaryTrack.move_tokens (t : MilitaryTrack) (shields playerId : Int) :
    ((t.move shields playerId).1.loot0
        = (t.loot0 && !decide ((t.move shields playerId).1.position ≤ -6)) ∧
      (t.move shields playerId).1.loot1
        = (t.loot1 && !decide ((t.move shields playerId).1.position ≤ -3)) ∧
      (t.move shields playerId).1.loot2
        = (t.loot2 && !decide (3 ≤ (t.move shields playerId).1.position)) ∧
      (t.move shields playerId).1.loot3
        = (t.loot3 && !decide (6 ≤ (t.move shields playerId).1.position))) ∧
    ((-5 ∈ (t.move shields playerId).2 ↔
        ((t.move shields playerId).1.position ≤ -6 ∧ t.loot0 = true)) ∧
      (-2 ∈ (t.move shields playerId).2 ↔
        ((t.move shields playerId).1.position ≤ -3 ∧ t.loot1 = true)) ∧
      (2 ∈ (t.move shields playerId).2 ↔
        (3 ≤ (t.move shields playerId).1.position ∧ t.loot2 = true)) ∧
      (5 ∈ (t.move shields playerId).2 ↔
        (6 ≤ (t.move shields playerId).1.position ∧ t.loot3 = true))) := by
  obtain ⟨pos, l0, l1, l2, l3⟩ := t
  simp only [MilitaryTrack.move, Config.MILITARY_THRESHOLD_WIN,
    Config.MILITARY_THRESHOLD_LOOT_1, Config.MILITARY_THRESHOLD_LOOT_2,
    Config.MILITARY_LOOT_VALUE_1, Config.MILITARY_LOOT_VALUE_2, List.mem_append]
  generalize max (-9 : Int) (min 9 (if playerId = 0 then pos + shields else pos - shields))
    = q
  refine ⟨⟨?_, ?_, ?_, ?_⟩, ?_, ?_, ?_, ?_⟩
  · cases l0 <;> simp
  · cases l1 <;> simp
  · cases l2 <;> simp
  · cases l3 <;> simp
  · cases l0 <;> cases l1 <;> cases l2 <;> cases l3 <;> simp
  · cases l0 <;> cases l1 <;> cases l2 <;> cases l3 <;> simp
  · cases l0 <;> cases l1 <;> cases l2 <;> cases l3 <;> simp
  · cases l0 <;> cases l1 <;> cases l2 <;> cases l3 <;> simp

/-- C12. Crossing a loot threshold. As long as the absolute position has stayed below 3
(below 6) the 2-coin (5-coin) tokens are still on the track, so the first crossing finds
them. When a move brings the track to `+3` or beyond with the opposing 2-coin token still in
place, that token is consumed, the loot event 2 is reported and the opponent (P1) loses 2
coins, floored at zero; likewise 5 coins at `+6`, and symmetrically P0 on the negative
side. From `+2`, the `+` side gaining 2 shields gives `+4`, the opponent loses 2 coins and
the 2-coin token is consumed. -/
theorem GameController.moveMilitary_crossing (c : GameController) (shields playerId : Int)
    (history : List (Int × Int)) (coins : Nat) :
    ((∀ n, 1 ≤ n → n ≤ history.length →
        |(({} : MilitaryTrack).moves (history.take n)).position| < 3) →
      (({} : MilitaryTrack).moves history).loot1 = true ∧
      (({} : MilitaryTrack).moves history).loot2 = true) ∧
    ((∀ n, 1 ≤ n → n ≤ history.length →
        |(({} : MilitaryTrack).moves (history.take n)).position| < 6) →
      (({} : MilitaryTrack).moves history).loot0 = true ∧
      (({} : MilitaryTrack).moves history).loot3 = true) ∧
    (c.model.board.militaryTrack.loot2 = true →
      3 ≤ (c.moveMilitary shields playerId).1.model.board.militaryTrack.position →
        (c.moveMilitary shields playerId).1.model.board.militaryTrack.loot2 = false ∧
        2 ∈ (c.moveMilitary shields playerId).2 ∧
        (c.moveMilitary shields playerId).1.model.player1.coins
          = c.model.player1.coins - 2
            - (if (6 ≤ (c.moveMilitary shields playerId).1.model.board.militaryTrack.position
                ∧ c.model.board.militaryTrack.loot3 = true) then 5 else 0) ∧
        (c.moveMilitary shields playerId).1.model.player0.coins = c.model.player0.coins) ∧
    (c.model.board.militaryTrack.loot3 = true →
      6 ≤ (c.moveMilitary shields playerId).1.model.board.militaryTrack.position →
        (c.moveMilitary shields playerId).1.model.board.militaryTrack.loot3 = false ∧
        5 ∈ (c.moveMilitary shields playerId).2 ∧
        (c.moveMilitary shields playerId).1.model.player1.coins
          = c.model.player1.coins
            - (if c.model.board.militaryTrack.loot2 = true then 2 else 0) - 5 ∧
        (c.moveMilitary shields playerId).1.model.player0.coins = c.model.player0.coins) ∧
    (c.model.board.militaryTrack.loot1 = true →
      (c.moveMilitary shields playerId).1.model.board.militaryTrack.position ≤ -3 →
        (c.moveMilitary shields playerId).1.model.board.militaryTrack.loot1 = false ∧
        -2 ∈ (c.moveMilitary shields playerId).2 ∧
        (c.moveMilitary shields playerId).1.model.player0.coins
          = c.model.player0.coins - 2
            - (if ((c.moveMilitary shields playerId).1.model.board.militaryTrack.position ≤ -6
                ∧ c.model.board.militaryTrack.loot0 = true) then 5 else 0) ∧
        (c.moveMilitary shields playerId).1.model.player1.coins = c.model.player1.coins) ∧
    (c.model.board.militaryTrack.loot0 = true →
      (c.moveMilitary shields playerId).1.model.board.militaryTrack.position ≤ -6 →
        (c.moveMilitary shields playerId).1.model.board.militaryTrack.loot0 = false ∧
        -5 ∈ (c.moveMilitary shields playerId).2 ∧
        (c.moveMilitary shields playerId).1.model.player0.coins
          = c.model.player0.coins
            - (if c.model.board.militaryTrack.loot1 = true then 2 else 0) - 5 ∧
        (c.moveMilitary shields playerId).1.model.player1.coins = c.model.player1.coins) ∧
    (((trackAtTwo coins).moveMilitary 2 0).1.model.board.militaryTrack.position = 4 ∧
      ((trackAtTwo coins).moveMilitary 2 0).2 = [2] ∧
      ((trackAtTwo coins).moveMilitary 2 0).1.model.board.militaryTrack.loot2 = false ∧
      ((trackAtTwo coins).moveMilitary 2 0).1.model.player1.coins = coins - 2) := by
  obtain ⟨hev, hp1, hp0⟩ := c.moveMilitary_coins shields playerId
  obtain ⟨⟨k0, k1, k2, k3⟩, m0, m1, m2, m3⟩ :=
    c.model.board.militaryTrack.move_tokens shields playerId
  rw [c.moveMilitary_track, hev, hp1, hp0, k0, k1, k2, k3]
  refine ⟨fun h => ?_, fun h => ?_, fun hflag hpos => ?_, fun hflag hpos => ?_,
    fun hflag hpos => ?_, fun hflag hpos => ?_, ?_⟩
  · exact (MilitaryTrack.tokens_kept history {}).1 h
  · exact (MilitaryTrack.tokens_kept history {}).2 h
  · have n1 : ¬ ((c.model.board.militaryTrack.move shields playerId).1.position ≤ -3) := by
      omega
    have n2 : ¬ ((c.model.board.militaryTrack.move shields playerId).1.position ≤ -6) := by
      omega
    refine ⟨by simp [hflag, hpos], m2.mpr ⟨hpos, hflag⟩, ?_, ?_⟩
    · simp [hflag, hpos]
    · simp [n1, n2]
  · have h3 : 3 ≤ (c.model.board.militaryTrack.move shields playerId).1.position := by omega
    have n1 : ¬ ((c.model.board.militaryTrack.move shields playerId).1.position ≤ -3) := by
      omega
    have n2 : ¬ ((c.model.board.militaryTrack.move shields playerId).1.position ≤ -6) := by
      omega
    refine ⟨by simp [hflag, hpos], m3.mpr ⟨hpos, hflag⟩, ?_, ?_⟩
    · simp [hflag, hpos, h3]
    · simp [n1, n2]
  · have n1 : ¬ (3 ≤ (c.model.board.militaryTrack.move shields playerId).1.position) := by
      omega
    have n2 : ¬ (6 ≤ (c.model.board.militaryTrack.move shields playerId).1.position) := by
      omega
    refine ⟨by simp [hflag, hpos], m1.mpr ⟨hpos, hflag⟩, ?_, ?_⟩
    · simp [hflag, hpos]
    · simp [n1, n2]
  · have h3 : (c.model.board.militaryTrack.move shields playerId).1.position ≤ -3 := by omega
    have n1 : ¬ (3 ≤ (c.model.board.militaryTrack.move shields playerId).1.position) := by
      omega
    have n2 : ¬ (6 ≤ (c.model.board.militaryTrack.move shields playerId).1.position) := by
      omega
    refine ⟨by simp [hflag, hpos], m0.mpr ⟨hpos, hflag⟩, ?_, ?_⟩
    · simp [hflag, hpos, h3]
    · simp [n1, n2]
  · have ht : (trackAtTwo coins).model.board.militaryTrack = { position := 2 } := rfl
    have e1 : (({ position := 2 } : MilitaryTrack).move 2 0).1.position = 4 := by decide
    refine ⟨?_, ?_, ?_, ?_⟩
    · rw [GameController.moveMilitary_track, ht]
      exact e1
    · rw [(GameController.moveMilitary_coins _ _ _).1, ht]
      decide
    · rw [GameController.moveMilitary_track, ht]
      decide
    · rw [(GameController.moveMilitary_coins _ _ _).2.1, ht]
      have e3 : (trackAtTwo coins).model.player1.coins = coins := rfl
      simp [e1, e3]

theorem GameController.moveMilitary_crossing_witness :
    (trackAtTwo 1).model.board.militaryTrack.loot2 = true ∧
    3 ≤ ((trackAtTwo 1).moveMilitary 2 0).1.model.board.militaryTrack.position ∧
    ((trackAtTwo 1).moveMilitary 2 0).1.model.board.militaryTrack.loot2 = false ∧
    2 ∈ ((trackAtTwo 1).moveMilitary 2 0).2 ∧
    ((trackAtTwo 1).moveMilitary 2 0).1.model.player1.coins = 0 :=
  have hflag : (trackAtTwo 1).model.board.militaryTrack.loot2 = true := rfl
  have hpos : 3 ≤ ((trackAtTwo 1).moveMilitary 2 0).1.model.board.militaryTrack.position := by
    rw [GameController.moveMilitary_track]
    decide
  have hcross := (GameController.moveMilitary_crossing (trackAtTwo 1) 2 0 [] 1).2.2.1
    hflag hpos
  have hexample := (GameController.moveMilitary_crossing (trackAtTwo 1) 2 0 [] 1).2.2.2.2.2.2
  ⟨hflag, hpos, hcross.1, hcross.2.1, hexample.2.2.2⟩

/-! ## Theorems: removing a card -/

theorem notifySlots_getElem? (removed : Nat) :
    ∀ (l : List CardSlot) (j k : Nat),
      (notifySlots removed l j)[k]? =
        (l[k]?).map (fun slot =>
          if j + k = removed then { slot with isRemoved := true }
          else (slot.notifyCoveringRemoved (removed : Int)).1) := by
  intro l
  induction l with
  | nil => intro j k; simp [notifySlots]
  | cons slot rest ih =>
    intro j k
    cases k with
    | zero => simp [notifySlots]
    | succ k =>
      simp only [notifySlots, List.getElem?_cons_succ, ih]
      have : j + 1 + k = j + (k + 1) := by omega
      rw [this]

theorem CardSlot.notify_faceUp (slot : CardSlot) (index : Int) :
    (slot.notifyCoveringRemoved index).1.isFaceUp
      = (slot.isFaceUp ||
          (decide (slot.coveredBy ≠ []) &&
            decide ((slot.notifyCoveringRemoved index).1.coveredBy = []))) := by
  by_cases hmem : index ∈ slot.coveredBy
  · have hne : slot.coveredBy ≠ [] := List.ne_nil_of_mem hmem
    by_cases hempty : (slot.coveredBy.filter (fun i => i ≠ index)).isEmpty = true
    · have hnil : slot.coveredBy.filter (fun i => i ≠ index) = [] :=
        List.isEmpty_iff.mp hempty
      have hres : slot.notifyCoveringRemoved index
          = ({ slot with coveredBy := slot.coveredBy.filter (fun i => i ≠ index),
                         isFaceUp := true }, !slot.isFaceUp) := by
        simp only [CardSlot.notifyCoveringRemoved, hmem, if_true, hempty]
      rw [hres]
      show true = (slot.isFaceUp || (decide (slot.coveredBy ≠ []) &&
        decide (slot.coveredBy.filter (fun i => i ≠ index) = [])))
      rw [hnil]
      simp [hne]
    · have hnn : slot.coveredBy.filter (fun i => i ≠ index) ≠ [] :=
        fun h => hempty (List.isEmpty_iff.mpr h)
      have hres : slot.notifyCoveringRemoved index
          = ({ slot with coveredBy := slot.coveredBy.filter (fun i => i ≠ index) },
              false) := by
        simp only [CardSlot.notifyCoveringRemoved, hmem, if_true, hempty]
        rfl
      rw [hres]
      show slot.isFaceUp = (slot.isFaceUp || (decide (slot.coveredBy ≠ []) &&
        decide (slot.coveredBy.filter (fun i => i ≠ index) = [])))
      rw [decide_eq_false hnn]
      simp
  · have hres : slot.notifyCoveringRemoved index = (slot, false) := by
      simp only [CardSlot.notifyCoveringRemoved, hmem, if_false]
    rw [hres]
    cases hc : slot.coveredBy with
    | nil => simp
    | cons a rest => simp

/-- C13. Face-up rule of `removeCard`: for every slot, the slot is face-up after the call
exactly when it was face-up before or the call emptied its covering set; a slot that still
has a covering slot keeps its face, a slot whose last covering slot is removed is face-up
right after the call, and a face-down slot turns face-up if and only if the call emptied
its covering set. -/
theorem CardPyramid.removeCard_faceUp (p : CardPyramid) (cardId : String) (j : Nat)
    (slot : CardSlot) (hslot : p.slots[j]? = some slot) :
    ∃ after, (p.removeCard cardId).1.slots[j]? = some after ∧
      after.isFaceUp
        = (slot.isFaceUp || (decide (slot.coveredBy ≠ []) && decide (after.coveredBy = []))) ∧
      (after.coveredBy ≠ [] → after.isFaceUp = slot.isFaceUp) ∧
      (slot.coveredBy ≠ [] → after.coveredBy = [] → after.isFaceUp = true) ∧
      (slot.isFaceUp = false →
        (after.isFaceUp = true ↔ (slot.coveredBy ≠ [] ∧ after.coveredBy = []))) := by
  have hrule : ∀ after : CardSlot,
      after.isFaceUp
        = (slot.isFaceUp || (decide (slot.coveredBy ≠ []) && decide (after.coveredBy = []))) →
      after.isFaceUp
        = (slot.isFaceUp || (decide (slot.coveredBy ≠ []) && decide (after.coveredBy = []))) ∧
      (after.coveredBy ≠ [] → after.isFaceUp = slot.isFaceUp) ∧
      (slot.coveredBy ≠ [] → after.coveredBy = [] → after.isFaceUp = true) ∧
      (slot.isFaceUp = false →
        (after.isFaceUp = true ↔ (slot.coveredBy ≠ [] ∧ after.coveredBy = []))) := by
    intro after h
    refine ⟨h, fun h1 => ?_, fun h1 h2 => ?_, fun h1 => ?_⟩
    · rw [h]
      simp [h1]
    · rw [h]
      simp [h1, h2]
    · rw [h, h1]
      simp
  have hsame : slot.isFaceUp
      = (slot.isFaceUp || (decide (slot.coveredBy ≠ []) && decide (slot.coveredBy = []))) := by
    cases hc : slot.coveredBy with
    | nil => simp
    | cons a rest => simp
  unfold CardPyramid.removeCard
  cases hfind : findSlotFrom cardId p.slots 0 with
  | none => exact ⟨slot, hslot, hrule slot hsame⟩
  | some removed =>
    simp only [notifySlots_getElem?, hslot, Option.map_some', zero_add]
    by_cases hj : j = removed
    · rw [if_pos hj]
      exact ⟨_, rfl, hrule { slot with isRemoved := true } hsame⟩
    · rw [if_neg hj]
      exact ⟨_, rfl, hrule _ (slot.notify_faceUp removed)⟩

theorem CardPyramid.removeCard_faceUp_witness :
    ∃ after, (coveredPyramid.removeCard "top").1.slots[1]? = some after ∧
      after.coveredBy = [] ∧ after.isFaceUp = true :=
  match CardPyramid.removeCard_faceUp coveredPyramid "top" 1
    { id := "mid", cardPtr := some { id := "mid" }, coveredBy := [0] } rfl with
  | ⟨after, hafter, _, _, hflip, _⟩ =>
    have hcov : after.coveredBy = [] := by
      have h : (coveredPyramid.removeCard "top").1.slots[1]?
          = some { id := "mid", cardPtr := some { id := "mid" }, isFaceUp := true } := by
        simp [coveredPyramid, CardPyramid.removeCard, findSlotFrom, notifySlots,
          CardSlot.notifyCoveringRemoved]
      rw [h] at hafter
      rw [← Option.some.inj hafter]
    ⟨after, hafter, hcov, hflip (by simp) hcov⟩

/-! ## Theorems: build and discard -/

theorem CardPyramid.visitedSlots_eq (p : CardPyramid) :
    p.visitedSlots = p.slots.filter CardSlot.available := by
  have hrun : p.traverse = some ((List.range' 0 p.slots.length).filter p.selectableAt) :=
    p.traverseFrom_suffix p.slots 0 (p.slots.length + 1) (by simp) (by simp) (by omega)
  unfold CardPyramid.visitedSlots
  rw [hrun]
  exact p.visited_slots_suffix p.slots 0 (by simp)

theorem findSlotFrom_some (cardId : String) :
    ∀ (l : List CardSlot) (i r : Nat), findSlotFrom cardId l i = some r →
      ∃ k slot, r = i + k ∧ l[k]? = some slot ∧ slot.id = cardId ∧ slot.isRemoved = false := by
  intro l
  induction l with
  | nil => intro i r h; simp [findSlotFrom] at h
  | cons slot rest ih =>
    intro i r h
    rw [findSlotFrom] at h
    by_cases hc : slot.id = cardId ∧ slot.isRemoved = false
    · rw [if_pos hc] at h
      exact ⟨0, slot, by simpa using (Option.some.inj h).symm, by simp, hc.1, hc.2⟩
    · rw [if_neg hc] at h
      obtain ⟨k, s, hr, hk, h1, h2⟩ := ih (i + 1) r h
      exact ⟨k + 1, s, by omega, by simpa using hk, h1, h2⟩

theorem findSlotFrom_of_mem (cardId : String) :
    ∀ (l : List CardSlot) (i k : Nat) (slot : CardSlot), l[k]? = some slot →
      slot.id = cardId → slot.isRemoved = false → ∃ r, findSlotFrom cardId l i = some r := by
  intro l
  induction l with
  | nil => intro i k slot h; simp at h
  | cons first rest ih =>
    intro i k slot h h1 h2
    rw [findSlotFrom]
    by_cases hc : first.id = cardId ∧ first.isRemoved = false
    · exact ⟨i, by rw [if_pos hc]⟩
    · rw [if_neg hc]
      cases k with
      | zero =>
        simp only [List.getElem?_cons_zero, Option.some.injEq] at h
        exact absurd ⟨h ▸ h1, h ▸ h2⟩ hc
      | succ k => exact ih (i + 1) k slot (by simpa using h) h1 h2

theorem findSlotFrom_unique (cardId : String) (l : List CardSlot) (i : Nat) (slot : CardSlot)
    (hslot : l[i]? = some slot) (hid : slot.id = cardId) (hrem : slot.isRemoved = false)
    (huniq : ∀ j other, l[j]? = some other → other.id = cardId → j = i) :
    findSlotFrom cardId l 0 = some i := by
  obtain ⟨r, hr⟩ := findSlotFrom_of_mem cardId l 0 i slot hslot hid hrem
  obtain ⟨k, s, hk, hget, h1, _⟩ := findSlotFrom_some cardId l 0 r hr
  have : k = i := huniq k s hget h1
  rw [hr]
  congr 1
  omega

theorem GameModel.resolveMilitaryLoot_frame (lootEvents : List Int) :
    ∀ m : GameModel,
      (m.resolveMilitaryLoot lootEvents).currentPlayerIndex = m.currentPlayerIndex ∧
      (m.resolveMilitaryLoot lootEvents).player0.builtCards = m.player0.builtCards ∧
      (m.resolveMilitaryLoot lootEvents).player1.builtCards = m.player1.builtCards := by
  induction lootEvents with
  | nil => exact fun _ => ⟨rfl, rfl, rfl⟩
  | cons e rest ih =>
    intro m
    have h := ih (if 0 < e then { m with player1 := m.player1.loseCoins e.toNat }
      else if e < 0 then { m with player0 := m.player0.loseCoins (-e).toNat } else m)
    simp only [GameModel.resolveMilitaryLoot, List.foldl_cons] at h ⊢
    obtain ⟨h1, h2, h3⟩ := h
    rw [h1, h2, h3]
    split_ifs <;> exact ⟨rfl, rfl, rfl⟩

theorem GameController.moveMilitary_sameCards (c : GameController) (shields playerId : Int) :
    (c.moveMilitary shields playerId).1.sameCards c := by
  obtain ⟨h1, h2, h3⟩ := GameModel.resolveMilitaryLoot_frame
    (c.model.board.militaryTrack.move shields playerId).2
    { c.model with board :=
        { c.model.board with
          militaryTrack := (c.model.board.militaryTrack.move shields playerId).1 } }
  have hb := GameModel.resolveMilitaryLoot_board
    (c.model.board.militaryTrack.move shields playerId).2
    { c.model with board :=
        { c.model.board with
          militaryTrack := (c.model.board.militaryTrack.move shields playerId).1 } }
  refine ⟨?_, ?_, h1, h2, h3⟩
  · show (GameModel.resolveMilitaryLoot _ _).board.cardStructure = _
    rw [hb]
  · show (GameModel.resolveMilitaryLoot _ _).board.discardPile = _
    rw [hb]

theorem GameController.sameCards_of_setCurrent (c : GameController) (p : Player)
    (h : p.builtCards = c.model.getCurrentPlayer.builtCards) :
    GameController.sameCards { c with model := c.model.setCurrentPlayer p } c := by
  unfold GameController.sameCards
  by_cases hi : c.model.currentPlayerIndex = 0
  · have hs : c.model.setCurrentPlayer p = { c.model with player0 := p } := by
      unfold GameModel.setCurrentPlayer
      rw [if_pos hi]
    have hg : c.model.getCurrentPlayer = c.model.player0 := by
      unfold GameModel.getCurrentPlayer
      rw [if_pos hi]
    rw [hg] at h
    rw [hs]
    exact ⟨rfl, rfl, rfl, h, rfl⟩
  · have hs : c.model.setCurrentPlayer p = { c.model with player1 := p } := by
      unfold GameModel.setCurrentPlayer
      rw [if_neg hi]
    have hg : c.model.getCurrentPlayer = c.model.player1 := by
      unfold GameModel.getCurrentPlayer
      rw [if_neg hi]
    rw [hg] at h
    rw [hs]
    exact ⟨rfl, rfl, rfl, rfl, h⟩

theorem GameController.sameCards_of_setOpponent (c : GameController) (p : Player)
    (h : p.builtCards = c.model.getOpponent.builtCards) :
    GameController.sameCards { c with model := c.model.setOpponent p } c := by
  unfold GameController.sameCards
  by_cases hi : c.model.currentPlayerIndex = 0
  · have hs : c.model.setOpponent p = { c.model with player1 := p } := by
      unfold GameModel.setOpponent
      rw [if_pos hi]
    have hg : c.model.getOpponent = c.model.player1 := by
      unfold GameModel.getOpponent
      rw [if_pos hi]
    rw [hg] at h
    rw [hs]
    exact ⟨rfl, rfl, rfl, rfl, h⟩
  · have hs : c.model.setOpponent p = { c.model with player0 := p } := by
      unfold GameModel.setOpponent
      rw [if_neg hi]
    have hg : c.model.getOpponent = c.model.player0 := by
      unfold GameModel.getOpponent
      rw [if_neg hi]
    rw [hg] at h
    rw [hs]
    exact ⟨rfl, rfl, rfl, h, rfl⟩

theorem Player.addResources_builtCards (produced : ResourceType → Option Nat)
    (isTradable : Bool) (l : List ResourceType) :
    ∀ p : Player,
      (l.foldl
        (fun p r =>
          match produced r with
          | some count => p.addResource r count isTradable
          | none => p)
        p).builtCards = p.builtCards := by
  induction l with
  | nil => exact fun _ => rfl
  | cons r rest ih =>
    intro p
    rw [List.foldl_cons, ih]
    cases produced r <;> rfl

theorem Effect.apply_sameCards (guildCoins : GuildCriteria → Player → Player → Nat)
    (e : Effect) (c : GameController) : (e.apply guildCoins c).sameCards c := by
  cases e with
  | production produced isChoice isTradable =>
    cases isChoice with
    | true => exact c.sameCards_of_setCurrent _ rfl
    | false =>
      exact c.sameCards_of_setCurrent _ (Player.addResources_builtCards produced _ _ _)
  | military shields isFromCard => exact c.moveMilitary_sameCards _ _
  | science symbol => exact c.sameCards_of_setCurrent _ rfl
  | victoryPoint points => exact ⟨rfl, rfl, rfl, rfl, rfl⟩
  | coin amount => exact c.sameCards_of_setCurrent _ rfl
  | coinsPerType targetType coinsPerCard countWonder => exact c.sameCards_of_setCurrent _ rfl
  | tradeDiscount resource => exact c.sameCards_of_setCurrent _ rfl
  | destroyCard targetColor => exact ⟨rfl, rfl, rfl, rfl, rfl⟩
  | extraTurn => exact ⟨rfl, rfl, rfl, rfl, rfl⟩
  | buildFromDiscard => exact ⟨rfl, rfl, rfl, rfl, rfl⟩
  | progressTokenSelect => exact ⟨rfl, rfl, rfl, rfl, rfl⟩
  | opponentLoseCoins amount => exact c.sameCards_of_setOpponent _ rfl
  | guild criteria => exact c.sameCards_of_setCurrent _ rfl

theorem Effect.applyAll_sameCards (guildCoins : GuildCriteria → Player → Player → Nat)
    (effects : List Effect) :
    ∀ c : GameController,
      (effects.foldl (fun acc e => e.apply guildCoins acc) c).sameCards c := by
  induction effects with
  | nil => exact fun _ => ⟨rfl, rfl, rfl, rfl, rfl⟩
  | cons e rest ih =>
    intro c
    obtain ⟨a1, a2, a3, a4, a5⟩ := ih (e.apply guildCoins c)
    obtain ⟨b1, b2, b3, b4, b5⟩ := e.apply_sameCards guildCoins c
    exact ⟨a1.trans b1, a2.trans b2, a3.trans b3, a4.trans b4, a5.trans b5⟩

theorem CardSlot.notify_id (slot : CardSlot) (index : Int) :
    (slot.notifyCoveringRemoved index).1.id = slot.id ∧
    (slot.notifyCoveringRemoved index).1.cardPtr = slot.cardPtr ∧
    (slot.notifyCoveringRemoved index).1.isRemoved = slot.isRemoved := by
  simp only [CardSlot.notifyCoveringRemoved]
  split_ifs <;> exact ⟨rfl, rfl, rfl⟩

theorem CardPyramid.removeCard_not_visited (p : CardPyramid) (cardId : String) (i : Nat)
    (slot : CardSlot) (hslot : p.slots[i]? = some slot) (hid : slot.id = cardId)
    (hrem : slot.isRemoved = false)
    (huniq : ∀ j other, p.slots[j]? = some other → other.id = cardId → j = i)
    (hcache : ∀ other ∈ p.slots, ∀ held, other.cardPtr = some held → held.id = other.id) :
    (p.removeCard cardId).2 = slot.cardPtr ∧
    ∀ s ∈ (p.removeCard cardId).1.visitedSlots,
      s.id ≠ cardId ∧ ∀ held, s.cardPtr = some held → held.id ≠ cardId := by
  have hfind := findSlotFrom_unique cardId p.slots i slot hslot hid hrem huniq
  have hres : p.removeCard cardId
      = ({ slots := notifySlots i p.slots 0 }, (p.slots[i]?).bind CardSlot.cardPtr) := by
    unfold CardPyramid.removeCard
    rw [hfind]
  rw [hres]
  refine ⟨by simp [hslot], ?_⟩
  intro s hs
  rw [CardPyramid.visitedSlots_eq] at hs
  obtain ⟨hmem, hav⟩ := List.mem_filter.mp hs
  obtain ⟨k, hk⟩ := List.getElem?_of_mem hmem
  simp only [notifySlots_getElem?, zero_add] at hk
  cases horig : p.slots[k]? with
  | none => simp [horig] at hk
  | some orig =>
    rw [horig] at hk
    simp only [Option.map_some', Option.some.injEq] at hk
    by_cases hki : k = i
    · rw [if_pos hki] at hk
      rw [← hk] at hav
      simp [CardSlot.available] at hav
    · rw [if_neg hki] at hk
      obtain ⟨e1, e2, _⟩ := orig.notify_id (i : Int)
      have hne : orig.id ≠ cardId := fun h => hki (huniq k orig horig h)
      have horigmem : orig ∈ p.slots := List.getElem?_mem horig
      rw [← hk, e1, e2]
      exact ⟨hne, fun held hheld => by rw [hcache orig horigmem held hheld]; exact hne⟩

theorem GameModel.setCurrentPlayer_spec (m : GameModel) (p : Player) :
    (m.setCurrentPlayer p).getCurrentPlayer = p ∧
    (m.setCurrentPlayer p).getOpponent = m.getOpponent ∧
    (m.setCurrentPlayer p).board = m.board ∧
    (m.setCurrentPlayer p).currentPlayerIndex = m.currentPlayerIndex := by
  unfold GameModel.setCurrentPlayer GameModel.getCurrentPlayer GameModel.getOpponent
  by_cases hi : m.currentPlayerIndex = 0
  · simp [hi]
  · simp [hi]

theorem GameController.sameCards_players (a b : GameController) (h : a.sameCards b) :
    a.model.getCurrentPlayer.builtCards = b.model.getCurrentPlayer.builtCards ∧
    a.model.getOpponent.builtCards = b.model.getOpponent.builtCards := by
  obtain ⟨_, _, h3, h4, h5⟩ := h
  unfold GameModel.getCurrentPlayer GameModel.getOpponent
  rw [h3]
  by_cases hi : b.model.currentPlayerIndex = 0
  · simp [hi, h4, h5]
  · simp [hi, h4, h5]
/-- C14. Build/discard round trip. For a selectable card that lies in one slot of the
pyramid and in no built-card list: after `BUILD_CARD` is executed no traversal of the pyramid
visits it, it has been appended to the built cards of the builder, where it occurs once, and
it is not among the opponent's built cards; after `DISCARD_FOR_COINS` is executed no
traversal visits it and it is on the discard pile. -/
theorem build_discard_round_trip (guildCoins : GuildCriteria → Player → Player → Nat)
    (c : GameController) (cardId : String) (i : Nat) (slot : CardSlot) (card : Card)
    (hslot : c.model.board.cardStructure.slots[i]? = some slot)
    (hid : slot.id = cardId) (hcard : slot.cardPtr = some card)
    (hsel : slot.isRemoved = false ∧ slot.coveredBy = [])
    (huniq : ∀ j other, c.model.board.cardStructure.slots[j]? = some other →
      other.id = cardId → j = i)
    (hcache : ∀ other ∈ c.model.board.cardStructure.slots, ∀ held,
      other.cardPtr = some held → held.id = other.id)
    (hfresh : ∀ built ∈ c.model.getCurrentPlayer.builtCards ++ c.model.getOpponent.builtCards,
      built.id ≠ cardId) :
    ((∀ s ∈ (BuildCardCommand.execute guildCoins cardId c).model.board.cardStructure.visitedSlots,
        s.id ≠ cardId ∧ ∀ held, s.cardPtr = some held → held.id ≠ cardId) ∧
      (BuildCardCommand.execute guildCoins cardId c).model.getCurrentPlayer.builtCards
        = c.model.getCurrentPlayer.builtCards ++ [card] ∧
      (BuildCardCommand.execute guildCoins cardId c).model.getCurrentPlayer.builtCards.countP
        (fun built => built.id = cardId) = 1 ∧
      (∀ built ∈ (BuildCardCommand.execute guildCoins cardId c).model.getOpponent.builtCards,
        built.id ≠ cardId)) ∧
    ((∀ s ∈ (DiscardCardCommand.execute cardId c).model.board.cardStructure.visitedSlots,
        s.id ≠ cardId ∧ ∀ held, s.cardPtr = some held → held.id ≠ cardId) ∧
      (DiscardCardCommand.execute cardId c).model.board.discardPile
        = c.model.board.discardPile ++ [card] ∧
      card.id = cardId) := by
  have hcid : card.id = cardId := by
    rw [hcache slot (List.getElem?_mem hslot) card hcard]
    exact hid
  have hfind := findSlotFrom_unique cardId c.model.board.cardStructure.slots i slot hslot hid
    hsel.1 huniq
  have hcardfound : c.findCardInPyramid cardId = some card := by
    simp [GameController.findCardInPyramid, hfind, hslot, hcard]
  obtain ⟨_, hvis⟩ := c.model.board.cardStructure.removeCard_not_visited cardId i slot hslot
    hid hsel.1 huniq hcache
  constructor
  · obtain ⟨price, hprice⟩ : ∃ price : Nat, price =
        (if card.requiresChainTag ≠ "" ∧
            card.requiresChainTag ∈ c.model.getCurrentPlayer.ownedChainTags then 0
          else (c.model.getCurrentPlayer.calculateCost card.cost c.model.getOpponent
            card.type).2) := ⟨_, rfl⟩
    obtain ⟨m1, hm1⟩ : ∃ m1 : GameModel,
        m1 = c.model.setCurrentPlayer (c.model.getCurrentPlayer.payCoins price) := ⟨_, rfl⟩
    obtain ⟨m2, hm2⟩ : ∃ m2 : GameModel,
        m2 = { m1 with board := (m1.board.removeCardFromPyramid cardId).1 } := ⟨_, rfl⟩
    obtain ⟨m3, hm3⟩ : ∃ m3 : GameModel,
        m3 = m2.setCurrentPlayer (m2.getCurrentPlayer.constructCard card) := ⟨_, rfl⟩
    have hrun : BuildCardCommand.execute guildCoins cardId c
        = card.effects.foldl (fun acc e => e.apply guildCoins acc) { c with model := m3 } := by
      unfold BuildCardCommand.execute
      rw [hcardfound, hm3, hm2, hm1, hprice]
    obtain ⟨a1, a2, a3, _⟩ := GameModel.setCurrentPlayer_spec c.model
      (c.model.getCurrentPlayer.payCoins price)
    rw [← hm1] at a1 a2 a3
    have b1 : m2.getCurrentPlayer = m1.getCurrentPlayer := by rw [hm2]; rfl
    have b2 : m2.getOpponent = m1.getOpponent := by rw [hm2]; rfl
    have b3 : m2.board.cardStructure = (c.model.board.cardStructure.removeCard cardId).1 := by
      rw [hm2]
      show (m1.board.cardStructure.removeCard cardId).1 = _
      rw [a3]
    obtain ⟨d1, d2, d3, _⟩ := GameModel.setCurrentPlayer_spec m2
      (m2.getCurrentPlayer.constructCard card)
    rw [← hm3] at d1 d2 d3
    have hmine : m3.getCurrentPlayer.builtCards
        = c.model.getCurrentPlayer.builtCards ++ [card] := by
      rw [d1, b1, a1]
      rfl
    have htheirs : m3.getOpponent.builtCards = c.model.getOpponent.builtCards := by
      rw [d2, b2, a2]
    have hpyr : m3.board.cardStructure
        = (c.model.board.cardStructure.removeCard cardId).1 := by
      rw [d3, b3]
    have hframe := Effect.applyAll_sameCards guildCoins card.effects { c with model := m3 }
    obtain ⟨hcur, hopp⟩ := GameController.sameCards_players _ _ hframe
    have hcur2 : (card.effects.foldl (fun acc (e : Effect) => e.apply guildCoins acc)
        { c with model := m3 }).model.getCurrentPlayer.builtCards
        = c.model.getCurrentPlayer.builtCards ++ [card] := hcur.trans hmine
    have hopp2 : (card.effects.foldl (fun acc (e : Effect) => e.apply guildCoins acc)
        { c with model := m3 }).model.getOpponent.builtCards
        = c.model.getOpponent.builtCards := hopp.trans htheirs
    have hpyr2 : (card.effects.foldl (fun acc (e : Effect) => e.apply guildCoins acc)
        { c with model := m3 }).model.board.cardStructure
        = (c.model.board.cardStructure.removeCard cardId).1 := hframe.1.trans hpyr
    rw [hrun, hpyr2, hcur2, hopp2]
    refine ⟨hvis, rfl, ?_, fun built hb => hfresh built (List.mem_append_right _ hb)⟩
    rw [List.countP_append]
    have hzero : c.model.getCurrentPlayer.builtCards.countP (fun built => built.id = cardId)
        = 0 := by
      rw [List.countP_eq_zero]
      intro built hb
      simpa using hfresh built (List.mem_append_left _ hb)
    rw [hzero]
    simp [hcid]
  · obtain ⟨m1, hm1⟩ : ∃ m1 : GameModel,
        m1 = { c.model with
          board := ((c.model.board.removeCardFromPyramid cardId).1.addToDiscardPile card) } :=
      ⟨_, rfl⟩
    have hrun : DiscardCardCommand.execute cardId c
        = { c with model := m1.setCurrentPlayer (m1.getCurrentPlayer.gainCoins
            (Config.BASE_DISCARD_GAIN + m1.getCurrentPlayer.getCardCount
              CardType.COMMERCIAL)) } := by
      unfold DiscardCardCommand.execute
      rw [hcardfound, hm1]
    obtain ⟨_, _, a3, _⟩ := GameModel.setCurrentPlayer_spec m1
      (m1.getCurrentPlayer.gainCoins
        (Config.BASE_DISCARD_GAIN + m1.getCurrentPlayer.getCardCount CardType.COMMERCIAL))
    have hboard : (DiscardCardCommand.execute cardId c).model.board
        = (c.model.board.removeCardFromPyramid cardId).1.addToDiscardPile card := by
      rw [hrun]
      show (GameModel.setCurrentPlayer _ _).board = _
      rw [a3, hm1]
    rw [hboard]
    exact ⟨hvis, rfl, hcid⟩
theorem build_discard_round_trip_witness :
    (BuildCardCommand.execute (fun _ _ _ => 0) "barracks"
        buildController).model.getCurrentPlayer.builtCards = [barracks] ∧
    (∀ s ∈ (BuildCardCommand.execute (fun _ _ _ => 0) "barracks"
        buildController).model.board.cardStructure.visitedSlots, s.id ≠ "barracks") ∧
    (DiscardCardCommand.execute "barracks" buildController).model.board.discardPile
      = [barracks] :=
  have hround := build_discard_round_trip (fun _ _ _ => 0) buildController "barracks" 0
    { id := "barracks", cardPtr := some barracks, isFaceUp := true } barracks
    rfl rfl rfl ⟨rfl, rfl⟩
    (by
      intro j other hj hother
      rcases j with _ | _ | j
      · rfl
      · simp only [buildController, List.getElem?_cons_succ, List.getElem?_cons_zero,
          Option.some.injEq] at hj
        rw [← hj] at hother
        exact absurd hother (by decide)
      · simp [buildController] at hj)
    (by
      intro other hmem held hheld
      simp only [buildController, List.mem_cons, List.mem_singleton, List.not_mem_nil,
        or_false] at hmem
      rcases hmem with rfl | rfl
      · rw [← Option.some.inj hheld]
        rfl
      · rw [← Option.some.inj hheld]
        rfl)
    (by
      intro built hb
      simp [buildController, GameModel.getCurrentPlayer, GameModel.getOpponent] at hb)
  ⟨hround.1.2.1, fun s hs => (hround.1.1 s hs).1, hround.2.2.1⟩

/-! ## Theorems: end of the game -/

theorem checkInstantVictory_of_six (p1 p2 : Player) (board : Board)
    (hsix : 6 ≤ p1.distinctHeld ∨ 6 ≤ p2.distinctHeld) :
    (checkInstantVictory p1 p2 board).isGameOver = true := by
  have e1 : distinctSymbols p1 ≥ Config.SCIENCE_WIN_THRESHOLD ↔ 6 ≤ p1.distinctHeld := by
    rw [distinctSymbols_eq]
    simp only [Config.SCIENCE_WIN_THRESHOLD]
    exact_mod_cast Iff.rfl
  have e2 : distinctSymbols p2 ≥ Config.SCIENCE_WIN_THRESHOLD ↔ 6 ≤ p2.distinctHeld := by
    rw [distinctSymbols_eq]
    simp only [Config.SCIENCE_WIN_THRESHOLD]
    exact_mod_cast Iff.rfl
  unfold checkInstantVictory
  simp only [e1, e2]
  by_cases hm : |board.militaryTrack.position| ≥ Config.MILITARY_THRESHOLD_WIN
  · simp [hm]
  · by_cases a1 : 6 ≤ p1.distinctHeld
    · simp [hm, a1]
    · have a2 : 6 ≤ p2.distinctHeld := hsix.resolve_left a1
      simp [hm, a1, a2]

theorem GameController.validateAction_gameOver (k : Collaborators) (c : GameController)
    (action : Action) (h : c.currentState = GameState.GAME_OVER) :
    (c.validateAction k action).isValid = false := by
  unfold GameController.validateAction
  rw [h]

theorem GameController.processAll_gameOver (k : Collaborators) (actions : List Action) :
    ∀ c : GameController, c.currentState = GameState.GAME_OVER →
      c.processAll k actions = c := by
  induction actions with
  | nil => exact fun _ _ => rfl
  | cons a rest ih =>
    intro c h
    have hstep : (c.processAction k a).2 = c := by
      unfold GameController.processAction
      rw [if_pos (c.validateAction_gameOver k a h)]
    unfold GameController.processAll at ih ⊢
    rw [List.foldl_cons, hstep]
    exact ih c h

/-- C15. `GAME_OVER` is terminal: when a valid action leaves a player with 6 distinct science
symbols, `processAction` returns `true` and the state becomes `GAME_OVER`; whatever actions
are processed afterwards the state stays `GAME_OVER`, `validateAction` rejects every action
of every type and `processAction` returns `false`. -/
theorem GameController.game_over_terminal (k : Collaborators) (c : GameController)
    (action : Action) (hvalid : (c.validateAction k action).isValid = true)
    (hsix : 6 ≤ (k.execute action c).model.player0.distinctHeld ∨
      6 ≤ (k.execute action c).model.player1.distinctHeld) :
    (c.processAction k action).1 = true ∧
    (c.processAction k action).2.currentState = GameState.GAME_OVER ∧
    ∀ (later : List Action) (probe : Action),
      (((c.processAction k action).2.processAll k later).currentState = GameState.GAME_OVER ∧
        (((c.processAction k action).2.processAll k later).validateAction k probe).isValid
          = false ∧
        (((c.processAction k action).2.processAll k later).processAction k probe).1
          = false) := by
  have hover : (k.execute action c).checkVictoryConditions.currentState
      = GameState.GAME_OVER := by
    unfold GameController.checkVictoryConditions
    simp only [checkInstantVictory_of_six _ _ _ hsix, if_true]
  have hrun : c.processAction k action = (true, (k.execute action c).checkVictoryConditions) := by
    unfold GameController.processAction
    rw [if_neg (by simp [hvalid]), if_pos hover]
  rw [hrun]
  refine ⟨rfl, hover, fun later probe => ?_⟩
  rw [GameController.processAll_gameOver k later _ hover]
  refine ⟨hover, GameController.validateAction_gameOver k _ probe hover, ?_⟩
  unfold GameController.processAction
  rw [if_pos (GameController.validateAction_gameOver k _ probe hover)]

theorem GameController.game_over_terminal_witness :
    (fiveSymbolController.validateAction scienceCollaborators
      { type := ActionType.BUILD_CARD }).isValid = true ∧
    (fiveSymbolController.processAction scienceCollaborators
      { type := ActionType.BUILD_CARD }).1 = true ∧
    (fiveSymbolController.processAction scienceCollaborators
      { type := ActionType.BUILD_CARD }).2.currentState = GameState.GAME_OVER ∧
    ((((fiveSymbolController.processAction scienceCollaborators
      { type := ActionType.BUILD_CARD }).2.processAll scienceCollaborators
        [{ type := ActionType.DISCARD_FOR_COINS }]).validateAction scienceCollaborators
          { type := ActionType.BUILD_CARD }).isValid = false) :=
  have hvalid : (fiveSymbolController.validateAction scienceCollaborators
      { type := ActionType.BUILD_CARD }).isValid = true := by decide
  have hterm := GameController.game_over_terminal scienceCollaborators fiveSymbolController
    { type := ActionType.BUILD_CARD } hvalid (Or.inl (by decide))
  ⟨hvalid, hterm.1, hterm.2.1,
    (hterm.2.2 [{ type := ActionType.DISCARD_FOR_COINS }] { type := ActionType.BUILD_CARD }).2.1⟩

/-- C16, amended. Player 0 is the side that pushes the track towards `+9` and player 1 the
side that pushes it towards `-9`: `checkInstantVictory` returns `winnerIndex` 0 whenever the
position is at least 9 and `winnerIndex` 1 whenever it is at most -9. -/
theorem checkInstantVictory_orientation (p1 p2 : Player) (board : Board) :
    (9 ≤ board.militaryTrack.position →
      (checkInstantVictory p1 p2 board).winnerIndex = 0) ∧
    (board.militaryTrack.position ≤ -9 →
      (checkInstantVictory p1 p2 board).winnerIndex = 1) := by
  constructor
  · intro h
    have h9 : |board.militaryTrack.position| ≥ Config.MILITARY_THRESHOLD_WIN :=
      le_trans h (le_abs_self _)
    have hp : board.militaryTrack.position > 0 := by omega
    unfold checkInstantVictory
    simp [h9, hp]
  · intro h
    have h9 : |board.militaryTrack.position| ≥ Config.MILITARY_THRESHOLD_WIN := by
      have : (9 : Int) ≤ -board.militaryTrack.position := by omega
      exact le_trans this (neg_le_abs _)
    have hp : ¬ board.militaryTrack.position > 0 := by omega
    unfold checkInstantVictory
    simp [h9, hp]

theorem checkInstantVictory_orientation_witness :
    (checkInstantVictory {} {} (boardAt 9)).winnerIndex = 0 ∧
    (checkInstantVictory {} {} (boardAt (-9))).winnerIndex = 1 :=
  ⟨(checkInstantVictory_orientation {} {} (boardAt 9)).1 (by decide),
   (checkInstantVictory_orientation {} {} (boardAt (-9))).2 (by decide)⟩

/-- C16 as stated fails: at position `+9` the winner is not index 1, and at position `-9` it
is not index 0. -/
theorem checkInstantVictory_class_comment_fails :
    (checkInstantVictory {} {} (boardAt 9)).isGameOver = true ∧
    (checkInstantVictory {} {} (boardAt 9)).winnerIndex ≠ 1 ∧
    (checkInstantVictory {} {} (boardAt (-9))).isGameOver = true ∧
    (checkInstantVictory {} {} (boardAt (-9))).winnerIndex ≠ 0 := by
  decide

/-! ## Theorems: free costs -/

/-- C19. `isFree` is `false` for a cost that demands nothing but holds a zero entry: after
`addResource(type, 0)` the map is not empty, so `isFree()` fails although no coin and no
resource unit is required. In the other direction `isFree()` does imply that nothing is
demanded. -/
theorem ResourceCost.isFree_zero_entry :
    (zeroWoodCost.isFree = false ∧ zeroWoodCost.getCoins = 0 ∧
      ∀ r, zeroWoodCost.required r = 0) ∧
    (∀ (cost : ResourceCost) (type : ResourceType), (cost.addResource type 0).isFree = false) ∧
    (∀ cost : ResourceCost, cost.isFree = true →
      cost.getCoins = 0 ∧ ∀ r, cost.required r = 0) := by
  refine ⟨⟨by decide, rfl, fun r => by cases r <;> rfl⟩, ?_, ?_⟩
  · intro cost type
    unfold ResourceCost.isFree
    have : (ResourceType.all.all
        (fun r => ((cost.addResource type 0).resources r).isNone)) = false := by
      rw [List.all_eq_false]
      refine ⟨type, by cases type <;> decide, ?_⟩
      simp [ResourceCost.addResource]
    rw [this, Bool.and_false]
  · intro cost h
    unfold ResourceCost.isFree at h
    rw [Bool.and_eq_true, decide_eq_true_eq, List.all_eq_true] at h
    refine ⟨h.1, fun r => ?_⟩
    have hr := h.2 r (by cases r <;> decide)
    unfold ResourceCost.required
    cases hc : cost.resources r with
    | none => rfl
    | some v => simp [hc] at hr

/-! ## Theorems: parseId -/

theorem digitChar_spec :
    ∀ d, d < 10 → (Nat.digitChar d).isDigit = true ∧ (Nat.digitChar d).toNat - 48 = d := by
  decide

theorem isDigit_bounds (c : Char) (h : c.isDigit = true) : 48 ≤ c.toNat ∧ c.toNat ≤ 57 := by
  simp only [Char.isDigit, Bool.and_eq_true, decide_eq_true_eq] at h
  exact ⟨h.1, h.2⟩

theorem isUpper_bounds (c : Char) (h : c.isUpper = true) : 65 ≤ c.toNat ∧ c.toNat ≤ 90 := by
  simp only [Char.isUpper, Bool.and_eq_true, decide_eq_true_eq] at h
  exact ⟨h.1, h.2⟩

theorem toUpper_of_upper (c : Char) (h : c.isUpper = true) : c.toUpper = c := by
  have hb := isUpper_bounds c h
  unfold Char.toUpper
  have h2 : ¬ (c.toNat ≥ 97 ∧ c.toNat ≤ 122) := by omega
  simp only [h2, if_false]

theorem toUpper_of_digit (c : Char) (h : c.isDigit = true) : c.toUpper = c := by
  have hb := isDigit_bounds c h
  unfold Char.toUpper
  have h2 : ¬ (c.toNat ≥ 97 ∧ c.toNat ≤ 122) := by omega
  simp only [h2, if_false]

theorem toDigitsCore_spec :
    ∀ (fuel n : Nat) (ds : List Char), n < fuel → (∀ c ∈ ds, c.isDigit = true) →
      (∀ c ∈ Nat.toDigitsCore 10 fuel n ds, c.isDigit = true) ∧
      Nat.toDigitsCore 10 fuel n ds ≠ [] ∧
      readDigits (Nat.toDigitsCore 10 fuel n ds) 0 = readDigits ds n := by
  intro fuel
  induction fuel with
  | zero => intro n ds h; omega
  | succ fuel ih =>
    intro n ds hn hds
    have hd := digitChar_spec (n % 10) (Nat.mod_lt _ (by decide))
    have hall : ∀ c ∈ Nat.digitChar (n % 10) :: ds, c.isDigit = true := by
      intro c hc
      rcases List.mem_cons.mp hc with rfl | hc
      · exact hd.1
      · exact hds c hc
    have hhead : readDigits (Nat.digitChar (n % 10) :: ds) (n / 10) = readDigits ds n := by
      unfold readDigits
      rw [List.foldl_cons, hd.2]
      congr 1
      omega
    by_cases hz : n / 10 = 0
    · have hres : Nat.toDigitsCore 10 (fuel + 1) n ds = Nat.digitChar (n % 10) :: ds := by
        simp [Nat.toDigitsCore, hz]
      rw [hres]
      refine ⟨hall, List.cons_ne_nil _ _, ?_⟩
      rw [← hhead, hz]
    · have hres : Nat.toDigitsCore 10 (fuel + 1) n ds
          = Nat.toDigitsCore 10 fuel (n / 10) (Nat.digitChar (n % 10) :: ds) := by
        simp [Nat.toDigitsCore, hz]
      rw [hres]
      obtain ⟨i1, i2, i3⟩ := ih (n / 10) (Nat.digitChar (n % 10) :: ds) (by omega) hall
      exact ⟨i1, i2, i3.trans hhead⟩

theorem repr_digits (n : Nat) :
    (∀ c ∈ (Nat.repr n).data, c.isDigit = true) ∧ (Nat.repr n).data ≠ [] ∧
    readDigits (Nat.repr n).data 0 = n := by
  have h := toDigitsCore_spec (n + 1) n [] (by omega) (by simp)
  have hdata : (Nat.repr n).data = Nat.toDigitsCore 10 (n + 1) n [] := rfl
  rw [hdata]
  exact ⟨h.1, h.2.1, h.2.2.trans rfl⟩

theorem stoi_digits (l : List Char) (hall : ∀ c ∈ l, c.isDigit = true) (hne : l ≠ [])
    (hfit : readDigits l 0 ≤ 2147483647) : stoi l = some (readDigits l 0 : Int) := by
  obtain ⟨first, rest, rfl⟩ := List.exists_cons_of_ne_nil hne
  have hfirst := isDigit_bounds first (hall first (List.mem_cons_self _ _))
  have hspace : isSpace first = false := by
    unfold isSpace
    have h1 : ¬ first.toNat = 32 := by omega
    have h2 : ¬ first.toNat ≤ 13 := by omega
    simp [h1, h2]
  have hminus : ¬ first = '-' := by
    intro h
    rw [h] at hfirst
    exact absurd hfirst (by decide)
  have hplus : ¬ first = '+' := by
    intro h
    rw [h] at hfirst
    exact absurd hfirst (by decide)
  have htake : (first :: rest).takeWhile Char.isDigit = first :: rest :=
    List.takeWhile_eq_self_iff.mpr hall
  have hcast : ((readDigits (first :: rest) 0 : Nat) : Int) ≤ 2147483647 := by
    exact_mod_cast hfit
  have hnonneg : (0 : Int) ≤ ((readDigits (first :: rest) 0 : Nat) : Int) := Int.natCast_nonneg _
  unfold stoi
  simp only [List.dropWhile_cons, hspace, List.head?_cons, Option.some.injEq, hminus, hplus,
    or_self, if_false, htake, List.isEmpty_cons, Bool.false_eq_true]
  rw [if_neg]
  omega

/-- C20. `parseId` round trip: for every `n` with `0 ≤ n ≤ INT_MAX` and every upper-case
letter `P`, `parseId` returns `n` on the decimal text of `n` and on `P` followed by it. -/
theorem parseId_round_trip (n : Nat) (letter : Char) (hn : n ≤ 2147483647)
    (hletter : letter.isUpper = true) :
    parseId (Nat.repr n) letter = n ∧
    parseId (String.mk (letter :: (Nat.repr n).data)) letter = n := by
  obtain ⟨hall, hne, hval⟩ := repr_digits n
  have hstoi : stoi (Nat.repr n).data = some (n : Int) := by
    rw [stoi_digits _ hall hne (by rw [hval]; exact hn), hval]
  have hup := isUpper_bounds letter hletter
  constructor
  · obtain ⟨first, rest, hdata⟩ := List.exists_cons_of_ne_nil hne
    have hfirst : first.isDigit = true := hall first (by rw [hdata]; exact List.mem_cons_self _ _)
    have hb := isDigit_bounds first hfirst
    have hdiff : ¬ first = letter := by
      intro h
      rw [h] at hb
      omega
    unfold parseId
    rw [hstoi]
    simp [hdata, toUpper_of_digit first hfirst, hdiff]
  · unfold parseId
    have hlen : 1 < (letter :: (Nat.repr n).data).length := by
      have : 0 < (Nat.repr n).data.length := List.length_pos.mpr hne
      simp only [List.length_cons]
      omega
    simp only [List.isEmpty_cons, Bool.false_eq_true, if_false, List.head?_cons, Option.map_some',
      toUpper_of_upper letter hletter, if_true, hlen, List.tail_cons, hstoi, Option.getD_some]

theorem parseId_round_trip_witness :
    parseId "12" 'C' = 12 ∧ parseId "C12" 'C' = 12 :=
  have h := parseId_round_trip 12 'C' (by decide) (by decide)
  ⟨h.1, h.2⟩

/-! ## Theorems: agents -/

theorem perm_cons_eraseIdx {α : Type} :
    ∀ (l : List α) (i : Nat) (x : α), l[i]? = some x → l.Perm (x :: l.eraseIdx i) := by
  intro l
  induction l with
  | nil => intro i x h; simp at h
  | cons a rest ih =>
    intro i x h
    cases i with
    | zero =>
      simp only [List.getElem?_cons_zero, Option.some.injEq] at h
      rw [h]
      exact List.Perm.refl _
    | succ i =>
      simp only [List.getElem?_cons_succ] at h
      exact ((ih i x h).cons a).trans (List.Perm.swap x a _)

theorem shuffleWith_perm {α : Type} (keys : List Nat) :
    ∀ l : List α, (shuffleWith keys l).Perm l := by
  induction keys with
  | nil => exact fun l => List.Perm.refl l
  | cons key keys ih =>
    intro l
    unfold shuffleWith
    cases h : l[key % l.length]? with
    | none => exact List.Perm.refl l
    | some x => exact ((ih _).cons x).trans (perm_cons_eraseIdx l _ x h).symm

theorem sortDescending_perm {α : Type} (points : α → Int) (ties : List Nat) (l : List α) :
    (sortDescending points ties l).Perm l :=
  (List.perm_insertionSort _ _).trans (shuffleWith_perm ties l)

theorem sortDescending_head {α : Type} (points : α → Int) (ties : List Nat) (l : List α)
    (best : α) (h : (sortDescending points ties l).head? = some best) :
    best ∈ l ∧ ∀ other ∈ l, points other ≤ points best := by
  have hsorted : (sortDescending points ties l).Sorted (fun a b => points b ≤ points a) := by
    haveI : IsTotal α (fun a b => points b ≤ points a) := ⟨fun a b => le_total _ _⟩
    haveI : IsTrans α (fun a b => points b ≤ points a) := ⟨fun a b c h1 h2 => le_trans h2 h1⟩
    exact List.sorted_insertionSort _ _
  have hperm := sortDescending_perm points ties l
  cases hl : sortDescending points ties l with
  | nil => rw [hl] at h; simp at h
  | cons first rest =>
    rw [hl] at h hsorted hperm
    simp only [List.head?_cons, Option.some.injEq] at h
    subst h
    refine ⟨hperm.subset (List.mem_cons_self _ _), fun other ho => ?_⟩
    rcases List.mem_cons.mp (hperm.symm.subset ho) with rfl | hrest
    · exact le_refl _
    · exact List.rel_of_sorted_cons hsorted other hrest

theorem sortDescending_head_isSome {α : Type} (points : α → Int) (ties : List Nat)
    (l : List α) (x : α) (hx : x ∈ l) : ∃ best, (sortDescending points ties l).head? = some best := by
  have hperm := sortDescending_perm points ties l
  cases hl : sortDescending points ties l with
  | nil =>
    rw [hl] at hperm
    have := hperm.symm.subset hx
    simp at this
  | cons first rest => exact ⟨first, rfl⟩

theorem CardPyramid.mem_validSlots (p : CardPyramid) (slot : CardSlot) (card : Card) :
    (slot, card) ∈ p.validSlots ↔
      (slot ∈ p.slots ∧ slot.isRemoved = false ∧ slot.coveredBy = [] ∧
        slot.cardPtr = some card ∧ slot.isFaceUp = true) := by
  unfold CardPyramid.validSlots
  rw [List.mem_filterMap, p.visitedSlots_eq]
  constructor
  · rintro ⟨s, hs, hmatch⟩
    obtain ⟨hmem, hav⟩ := List.mem_filter.mp hs
    cases hc : s.cardPtr with
    | none => simp [hc] at hmatch
    | some held =>
      cases hf : s.isFaceUp with
      | false => simp [hc, hf] at hmatch
      | true =>
        simp only [hc, hf, if_true, Option.some.injEq, Prod.mk.injEq] at hmatch
        obtain ⟨rfl, rfl⟩ := hmatch
        simp only [CardSlot.available, Bool.and_eq_true, Bool.not_eq_true',
          List.isEmpty_iff] at hav
        exact ⟨hmem, hav.1, hav.2, hc, hf⟩
  · rintro ⟨hmem, hrem, hcov, hc, hf⟩
    refine ⟨slot, List.mem_filter.mpr ⟨hmem, ?_⟩, by simp [hc, hf]⟩
    simp [CardSlot.available, hrem, hcov]
theorem tryDestruction_valid (k : Collaborators) (game : GameController)
    (candidates : List Card) :
    tryDestruction k game candidates = invalidAction ∨
    (game.validateAction k (tryDestruction k game candidates)).isValid = true := by
  unfold tryDestruction
  split
  · rename_i c hfound
    exact Or.inr (by simpa using List.find?_some hfound)
  · split
    · rename_i hskip
      exact Or.inr hskip
    · exact Or.inl rfl

theorem tryResurrection_valid (k : Collaborators) (game : GameController)
    (candidates : List Card) :
    tryResurrection k game candidates = invalidAction ∨
    (game.validateAction k (tryResurrection k game candidates)).isValid = true := by
  unfold tryResurrection
  split
  · rename_i c hfound
    exact Or.inr (by simpa using List.find?_some hfound)
  · exact Or.inl rfl

theorem tryWonders_valid (k : Collaborators) (game : GameController) (wonders : List Wonder)
    (slots : List (CardSlot × Card)) (a : Action)
    (h : tryWonders k game wonders slots = some a) :
    (game.validateAction k a).isValid = true := by
  unfold tryWonders at h
  simpa using List.find?_some h

theorem discardFirst_type (slots : List (CardSlot × Card)) :
    (discardFirst slots).type = ActionType.DISCARD_FOR_COINS ∨
    discardFirst slots = invalidAction := by
  unfold discardFirst
  split
  · exact Or.inl rfl
  · exact Or.inr rfl

theorem pickToken_type (tokens : List ProgressToken) (rng : RandomDraws) :
    (pickToken tokens rng).type = ActionType.SELECT_PROGRESS_TOKEN ∨
    pickToken tokens rng = invalidAction := by
  unfold pickToken
  split
  · split
    · exact Or.inl rfl
    · exact Or.inr rfl
  · exact Or.inr rfl

theorem RandomAIAgent.agePlay_valid (k : Collaborators) (game : GameController)
    (rng : RandomDraws) :
    (game.validateAction k (RandomAIAgent.agePlay k game rng)).isValid = true ∨
    (RandomAIAgent.agePlay k game rng).type = ActionType.DISCARD_FOR_COINS ∨
    RandomAIAgent.agePlay k game rng = invalidAction := by
  unfold RandomAIAgent.agePlay
  simp only []
  split
  · exact Or.inr (Or.inr rfl)
  · split
    · rename_i a hfound
      split at hfound
      · exact Or.inl (tryWonders_valid k game _ _ a hfound)
      · exact absurd hfound (by simp)
    · split
      · rename_i a hfound
        exact Or.inl (by simpa using List.find?_some hfound)
      · exact Or.inr (discardFirst_type _)

theorem GreedyAIAgent.decideAction_agePlay (k : Collaborators) (scoring : Scoring)
    (game : GameController) (rng : RandomDraws)
    (hstate : game.currentState = GameState.AGE_PLAY_PHASE) :
    GreedyAIAgent.decideAction k scoring game rng = GreedyAIAgent.agePlay k scoring game rng := by
  unfold GreedyAIAgent.decideAction
  simp [hstate]

theorem BuiltCardIterator.end_eq (cards : List Card) (filter : Option CardType) :
    BuiltCardIterator.create cards cards.length filter = cards.length := by
  simp [BuiltCardIterator.create, BuiltCardIterator.advanceToNextValid, skipFiltered]

theorem skipFiltered_cons (filter : Option CardType) (card : Card) (rest : List Card)
    (i : Nat) :
    skipFiltered filter (card :: rest) i
      = if card.passes filter = true then i else skipFiltered filter rest (i + 1) := by
  cases filter with
  | none => rfl
  | some t =>
    by_cases h : card.type = t
    · simp [skipFiltered, Card.passes, h]
    · simp [skipFiltered, Card.passes, h]

theorem BuiltCardIterator.builtFrom_suffix (cards : List Card) (filter : Option CardType) :
    ∀ (l : List Card) (i fuel : Nat), cards.drop i = l →
      i + l.length = cards.length → l.length < fuel →
      BuiltCardIterator.traverseFrom cards filter fuel (skipFiltered filter l i)
        = some ((List.range' i l.length).filter (passesAt cards filter)) := by
  intro l
  induction l with
  | nil =>
    intro i fuel _ hlen hfuel
    obtain ⟨f, rfl⟩ : ∃ f, fuel = f + 1 := ⟨fuel - 1, by simp at hfuel; omega⟩
    have hi : i = BuiltCardIterator.create cards cards.length filter := by
      rw [BuiltCardIterator.end_eq]
      simpa using hlen
    simp [skipFiltered, BuiltCardIterator.traverseFrom, ← hi]
  | cons card rest ih =>
    intro i fuel hdrop hlen hfuel
    have hget : cards[i]? = some card := by
      have := List.getElem?_drop (L := cards) (i := i) (j := 0)
      rw [hdrop] at this
      simpa using this.symm
    have hpass : passesAt cards filter i = card.passes filter := by
      simp [passesAt, hget]
    have hrest : cards.drop (i + 1) = rest := by
      rw [← List.tail_drop, hdrop]
      rfl
    have hlen2 : (i + 1) + rest.length = cards.length := by
      simp only [List.length_cons] at hlen
      omega
    have hne : i ≠ BuiltCardIterator.create cards cards.length filter := by
      rw [BuiltCardIterator.end_eq]
      simp only [List.length_cons] at hlen
      omega
    have hnext : BuiltCardIterator.next cards filter i = skipFiltered filter rest (i + 1) := by
      simp [BuiltCardIterator.next, BuiltCardIterator.advanceToNextValid, hrest]
    rw [skipFiltered_cons]
    cases hstop : card.passes filter with
    | true =>
      obtain ⟨f, rfl⟩ : ∃ f, fuel = f + 1 := ⟨fuel - 1, by omega⟩
      have hf : rest.length < f := by
        simp only [List.length_cons] at hfuel
        omega
      rw [if_pos rfl, BuiltCardIterator.traverseFrom, if_neg hne, hnext,
        ih (i + 1) f hrest hlen2 hf]
      simp [List.range'_succ, List.filter_cons, hpass, hstop]
    | false =>
      have hf : rest.length < fuel := by
        simp only [List.length_cons] at hfuel
        omega
      rw [if_neg (by simp), ih (i + 1) fuel hrest hlen2 hf]
      simp [List.range'_succ, List.filter_cons, hpass, hstop]

theorem BuiltCardIterator.visited_cards_suffix (cards : List Card) (filter : Option CardType) :
    ∀ (l : List Card) (i : Nat), cards.drop i = l →
      ((List.range' i l.length).filter (passesAt cards filter)).filterMap
          (BuiltCardIterator.deref cards)
        = l.filter (Card.passes filter) := by
  intro l
  induction l with
  | nil => intro i _; simp
  | cons card rest ih =>
    intro i hdrop
    have hget : cards[i]? = some card := by
      have := List.getElem?_drop (L := cards) (i := i) (j := 0)
      rw [hdrop] at this
      simpa using this.symm
    have hpass : passesAt cards filter i = card.passes filter := by
      simp [passesAt, hget]
    have hrest : cards.drop (i + 1) = rest := by
      rw [← List.tail_drop, hdrop]
      rfl
    cases hstop : card.passes filter with
    | true =>
      simp [List.range'_succ, List.filter_cons, hpass, hstop, BuiltCardIterator.deref, hget,
        ← ih (i + 1) hrest]
    | false =>
      simp [List.range'_succ, List.filter_cons, hpass, hstop, ← ih (i + 1) hrest]

theorem BuiltCardIterator.traverse_eq (cards : List Card) (filter : Option CardType) :
    BuiltCardIterator.traverse cards filter
      = some ((List.range cards.length).filter (passesAt cards filter)) := by
  have := BuiltCardIterator.builtFrom_suffix cards filter cards 0 (cards.length + 1)
    (by simp) (by simp) (by omega)
  rw [List.range_eq_range']
  exact this

/-- C27. For every list of built cards and every card type `t`, iterating from the iterator
created at index 0 with filter `t` to the iterator created at index `size` terminates and
visits exactly the positions of the cards of type `t`, in increasing order and each once, so
the cards it yields are the built cards of type `t` in build order; with no filter it visits
every position in order and yields every built card. -/
theorem BuiltCardIterator.traverse_filtered (cards : List Card) :
    (∀ t : CardType, ∃ visited,
      BuiltCardIterator.traverse cards (some t) = some visited ∧
      visited = (List.range cards.length).filter
        (fun i => (cards[i]?).any (fun card => decide (card.type = t))) ∧
      visited.filterMap (BuiltCardIterator.deref cards)
        = cards.filter (fun card => decide (card.type = t)) ∧
      visited.Nodup ∧
      ∀ i, i ∈ visited ↔ ∃ card, cards[i]? = some card ∧ card.type = t) ∧
    (BuiltCardIterator.traverse cards none = some (List.range cards.length) ∧
      (List.range cards.length).filterMap (BuiltCardIterator.deref cards) = cards) := by
  constructor
  · intro t
    have hfun : passesAt cards (some t)
        = fun i => (cards[i]?).any (fun card => decide (card.type = t)) := by
      funext i
      unfold passesAt
      cases cards[i]? with
      | none => rfl
      | some card => rfl
    refine ⟨_, BuiltCardIterator.traverse_eq cards (some t), by rw [hfun], ?_,
      (List.nodup_range _).filter _, ?_⟩
    · have := BuiltCardIterator.visited_cards_suffix cards (some t) cards 0 (by simp)
      rw [List.range_eq_range']
      exact this
    · intro i
      rw [List.mem_filter, List.mem_range]
      unfold passesAt
      constructor
      · rintro ⟨_, hpass⟩
        cases hc : cards[i]? with
        | none => simp [hc] at hpass
        | some card =>
          rw [hc] at hpass
          exact ⟨card, rfl, by simpa [Card.passes] using hpass⟩
      · rintro ⟨card, hc, hty⟩
        exact ⟨(List.getElem?_eq_some_iff.mp hc).1, by simp [hc, Card.passes, hty]⟩
  · have hall : (List.range cards.length).filter (passesAt cards none)
        = List.range cards.length := by
      rw [List.filter_eq_self]
      intro i hi
      have hlt := List.mem_range.mp hi
      simp [passesAt, List.getElem?_eq_getElem hlt, Card.passes]
    refine ⟨by rw [BuiltCardIterator.traverse_eq, hall], ?_⟩
    have := BuiltCardIterator.visited_cards_suffix cards none cards 0 (by simp)
    rw [← List.range_eq_range', hall] at this
    rw [this]
    simp [Card.passes]

/-! ## Theorems: parseId fails closed -/

theorem stoi_eq_leadingInteger (str : List Char) :
    stoi str = (leadingInteger str).bind
      (fun v => if v < -2147483648 ∨ 2147483647 < v then none else some v) := by
  unfold stoi leadingInteger
  simp only []
  split_ifs <;> simp_all

theorem stoi_range (str : List Char) (v : Int) (h : stoi str = some v) :
    -2147483648 ≤ v ∧ v ≤ 2147483647 := by
  rw [stoi_eq_leadingInteger] at h
  cases hl : leadingInteger str with
  | none => rw [hl] at h; simp at h
  | some w =>
    rw [hl] at h
    simp only [Option.some_bind] at h
    split at h
    · simp at h
    · rename_i hr
      simp only [Option.some.injEq] at h
      subst h
      omega

theorem parseId_eq_numericPart (input : String) (pfx : Char) :
    parseId input pfx = (stoi (numericPart input pfx)).getD (-1) := by
  unfold parseId numericPart
  cases hd : input.data with
  | nil => simp [stoi, readDigits]
  | cons c rest =>
    by_cases hm : c.toUpper = pfx
    · cases rest with
      | nil => simp [hm, stoi, readDigits]
      | cons d more => simp [hm]
    · simp [hm]

/-- C26. `parseId` always returns a value of type `int` (the exceptions of `std::stoi` are
caught), and that value is `-1` for the empty string, for an input that is only the prefix
character, and for every input whose numeric part `std::stoi` cannot convert, which is when
the part starts with no integer or with one outside the range of `int`. -/
theorem parseId_fails_closed (input : String) (pfx : Char) :
    (-2147483648 ≤ parseId input pfx ∧ parseId input pfx ≤ 2147483647) ∧
    parseId "" pfx = -1 ∧
    parseId (String.singleton pfx) pfx = -1 ∧
    (input.data.length = 1 → input.data.head?.map Char.toUpper = some pfx →
      parseId input pfx = -1) ∧
    (stoi (numericPart input pfx) = none → parseId input pfx = -1) ∧
    (stoi (numericPart input pfx) = none ↔
      (leadingInteger (numericPart input pfx) = none ∨
        ∃ v, leadingInteger (numericPart input pfx) = some v ∧
          (v < -2147483648 ∨ 2147483647 < v))) := by
  refine ⟨?_, ?_, ?_, ?_, ?_, ?_⟩
  · rw [parseId_eq_numericPart]
    cases h : stoi (numericPart input pfx) with
    | none => simp
    | some v => simpa using stoi_range _ v h
  · simp [parseId]
  · rw [parseId_eq_numericPart]
    unfold numericPart
    by_cases hm : pfx.toUpper = pfx
    · simp [String.singleton, hm, stoi, readDigits]
    · have hnd : pfx.isDigit = false := by
        cases hd : pfx.isDigit with
        | false => rfl
        | true => exact absurd (toUpper_of_digit pfx hd) hm
      have hb : 97 ≤ pfx.toNat ∧ pfx.toNat ≤ 122 := by
        by_contra hcon
        apply hm
        unfold Char.toUpper
        rw [if_neg hcon]
      have hns : isSpace pfx = false := by
        unfold isSpace
        simp only [Bool.or_eq_false_iff, decide_eq_false_iff_not, Bool.and_eq_false_imp,
          decide_eq_true_eq]
        omega
      have hminus : pfx ≠ '-' := fun h => by rw [h] at hb; simp at hb
      have hplus : pfx ≠ '+' := fun h => by rw [h] at hb; simp at hb
      simp [String.singleton, hm, stoi, hns, hnd, hminus, hplus]
  · intro hlen hm
    unfold parseId
    have hne : input.data.isEmpty = false := by
      cases hd : input.data with
      | nil => rw [hd] at hlen; simp at hlen
      | cons c rest => rfl
    simp [hne, hm, hlen]
  · intro h
    rw [parseId_eq_numericPart, h]
    rfl
  · rw [stoi_eq_leadingInteger]
    cases hl : leadingInteger (numericPart input pfx) with
    | none => simp
    | some v =>
      simp only [Option.some_bind, Option.some.injEq, false_or, exists_eq_left', reduceCtorEq]
      split <;> simp_all

theorem parseId_fails_closed_witness :
    parseId "W" 'W' = -1 ∧ parseId "Wx7" 'W' = -1 ∧ parseId "99999999999" 'W' = -1 ∧
      parseId "w-2147483649" 'W' = -1 :=
  ⟨(parseId_fails_closed "W" 'W').2.2.2.1 (by decide) (by decide),
    (parseId_fails_closed "Wx7" 'W').2.2.2.2.1 (by decide),
    (parseId_fails_closed "99999999999" 'W').2.2.2.2.1 (by decide),
    (parseId_fails_closed "w-2147483649" 'W').2.2.2.2.1 (by decide)⟩

/-! ## Theorems: the agents leave the controller alone -/

theorem onlyValidated_refl (touch : Action → GameController → GameController)
    (c : GameController) : onlyValidated touch c c :=
  ⟨[], rfl⟩

theorem onlyValidated_step (touch : Action → GameController → GameController)
    (c after : GameController) (a : Action) (h : onlyValidated touch (touch a c) after) :
    onlyValidated touch c after := by
  obtain ⟨calls, hcalls⟩ := h
  exact ⟨a :: calls, hcalls⟩

theorem onlyValidated_trans (touch : Action → GameController → GameController)
    (c1 c2 c3 : GameController) (h12 : onlyValidated touch c1 c2)
    (h23 : onlyValidated touch c2 c3) : onlyValidated touch c1 c3 := by
  obtain ⟨l1, rfl⟩ := h12
  obtain ⟨l2, rfl⟩ := h23
  exact ⟨l1 ++ l2, by rw [List.foldl_append]⟩

theorem firstValidRun_only (k : Collaborators)
    (touch : Action → GameController → GameController) :
    ∀ (tries : List Action) (c : GameController),
      onlyValidated touch c (firstValidRun k touch tries c).2 := by
  intro tries
  induction tries with
  | nil => exact fun c => onlyValidated_refl touch c
  | cons a rest ih =>
    intro c
    unfold firstValidRun
    split
    · exact onlyValidated_step touch c _ a (onlyValidated_refl touch _)
    · exact onlyValidated_step touch c _ a (ih _)

theorem collectValidRun_only (k : Collaborators)
    (touch : Action → GameController → GameController) :
    ∀ (slots : List (CardSlot × Card)) (c : GameController),
      onlyValidated touch c (collectValidRun k touch slots c).2 := by
  intro slots
  induction slots with
  | nil => exact fun c => onlyValidated_refl touch c
  | cons slot rest ih =>
    intro c
    unfold collectValidRun
    exact onlyValidated_step touch c _ (buildAction slot.2.id) (ih _)

theorem tryDestructionRun_only (k : Collaborators)
    (touch : Action → GameController → GameController) (game : GameController)
    (candidates : List Card) :
    onlyValidated touch game (tryDestructionRun k touch game candidates).2 := by
  have hloop := firstValidRun_only k touch (candidates.map (fun c => destructAction c.id)) game
  unfold tryDestructionRun
  split
  · rename_i a after heq
    rw [heq] at hloop
    exact hloop
  · rename_i after heq
    rw [heq] at hloop
    split
    · exact onlyValidated_trans touch _ _ _ hloop
        (onlyValidated_step touch after _ (destructAction "") (onlyValidated_refl touch _))
    · exact onlyValidated_trans touch _ _ _ hloop
        (onlyValidated_step touch after _ (destructAction "") (onlyValidated_refl touch _))

theorem tryResurrectionRun_only (k : Collaborators)
    (touch : Action → GameController → GameController) (game : GameController)
    (candidates : List Card) :
    onlyValidated touch game (tryResurrectionRun k touch game candidates).2 := by
  have hloop := firstValidRun_only k touch (candidates.map (fun c => resurrectAction c.id)) game
  unfold tryResurrectionRun
  split
  · rename_i a after heq
    rw [heq] at hloop
    exact hloop
  · rename_i after heq
    rw [heq] at hloop
    exact hloop

theorem RandomAIAgent.agePlayRun_only (k : Collaborators)
    (touch : Action → GameController → GameController) (game : GameController)
    (rng : RandomDraws) :
    onlyValidated touch game (RandomAIAgent.agePlayRun k touch game rng).2 := by
  unfold RandomAIAgent.agePlayRun
  simp only []
  split
  · exact onlyValidated_refl touch game
  · have hwonder : onlyValidated touch game
        (if rng.roll ≤ 20 ∧ game.model.getCurrentPlayer.unbuiltWonders.isEmpty = false then
          tryWondersRun k touch game game.model.getCurrentPlayer.unbuiltWonders
            (shuffleWith rng.order game.model.board.cardStructure.validSlots)
        else (none, game)).2 := by
      split
      · exact firstValidRun_only k touch _ game
      · exact onlyValidated_refl touch game
    split
    · rename_i a after heq
      rw [heq] at hwonder
      exact hwonder
    · rename_i after heq
      rw [heq] at hwonder
      have hbuild := firstValidRun_only k touch
        ((shuffleWith rng.order game.model.board.cardStructure.validSlots).map
          (fun slot => buildAction slot.2.id)) after
      split
      · rename_i b final hb
        rw [hb] at hbuild
        exact onlyValidated_trans touch _ _ _ hwonder hbuild
      · rename_i final hb
        rw [hb] at hbuild
        exact onlyValidated_trans touch _ _ _ hwonder hbuild

theorem GreedyAIAgent.greedyPlayRun_only (k : Collaborators)
    (touch : Action → GameController → GameController) (scoring : Scoring)
    (game : GameController) (rng : RandomDraws) :
    onlyValidated touch game (GreedyAIAgent.agePlayRun k touch scoring game rng).2 := by
  have hcollect := collectValidRun_only k touch game.model.board.cardStructure.validSlots game
  unfold GreedyAIAgent.agePlayRun
  simp only []
  split
  · exact onlyValidated_refl touch game
  · split
    · exact hcollect
    · split
      · exact hcollect
      · have hwonder := firstValidRun_only k touch
          (game.model.getCurrentPlayer.unbuiltWonders.flatMap (fun w =>
            game.model.board.cardStructure.validSlots.map
              (fun slot => wonderAction slot.2.id w.id)))
          (collectValidRun k touch game.model.board.cardStructure.validSlots game).2
        split
        · rename_i a after heq
          unfold tryWondersRun at heq
          rw [heq] at hwonder
          exact onlyValidated_trans touch _ _ _ hcollect hwonder
        · rename_i after heq
          unfold tryWondersRun at heq
          rw [heq] at hwonder
          exact onlyValidated_trans touch _ _ _ hcollect hwonder

theorem RandomAIAgent.decideActionRun_only (k : Collaborators)
    (touch : Action → GameController → GameController) (game : GameController)
    (rng : RandomDraws) :
    onlyValidated touch game (RandomAIAgent.decideActionRun k touch game rng).2 := by
  unfold RandomAIAgent.decideActionRun
  simp only []
  split_ifs <;>
    first
    | exact onlyValidated_refl touch game
    | exact tryDestructionRun_only k touch game _
    | exact tryResurrectionRun_only k touch game _
    | exact RandomAIAgent.agePlayRun_only k touch game rng
    | (split <;> exact onlyValidated_refl touch game)

theorem GreedyAIAgent.greedyRun_only (k : Collaborators)
    (touch : Action → GameController → GameController) (scoring : Scoring)
    (game : GameController) (rng : RandomDraws) :
    onlyValidated touch game (GreedyAIAgent.decideActionRun k touch scoring game rng).2 := by
  unfold GreedyAIAgent.decideActionRun
  simp only []
  split_ifs <;>
    first
    | exact onlyValidated_refl touch game
    | exact tryDestructionRun_only k touch game _
    | exact tryResurrectionRun_only k touch game _
    | exact GreedyAIAgent.greedyPlayRun_only k touch scoring game rng
    | (split <;> exact onlyValidated_refl touch game)

theorem firstValidRun_free (k : Collaborators)
    (touch : Action → GameController → GameController) (hfree : ∀ a c, touch a c = c) :
    ∀ (tries : List Action) (c : GameController),
      firstValidRun k touch tries c
        = (tries.find? (fun a => (c.validateAction k a).isValid), c) := by
  intro tries
  induction tries with
  | nil => exact fun c => rfl
  | cons a rest ih =>
    intro c
    unfold firstValidRun
    simp only [GameController.validateActionRun, hfree, ih, List.find?_cons]
    cases (c.validateAction k a).isValid <;> rfl

theorem collectValidRun_free (k : Collaborators)
    (touch : Action → GameController → GameController) (hfree : ∀ a c, touch a c = c) :
    ∀ (slots : List (CardSlot × Card)) (c : GameController),
      collectValidRun k touch slots c
        = (slots.filter (fun slot => (c.validateAction k (buildAction slot.2.id)).isValid),
            c) := by
  intro slots
  induction slots with
  | nil => exact fun c => rfl
  | cons slot rest ih =>
    intro c
    unfold collectValidRun
    simp only [GameController.validateActionRun, hfree, ih, List.filter_cons]

theorem find_map_action (valid : Action → Bool) (mk : Card → Action) (candidates : List Card) :
    (candidates.map mk).find? valid = (candidates.find? (fun c => valid (mk c))).map mk := by
  induction candidates with
  | nil => rfl
  | cons c rest ih =>
    simp only [List.map_cons, List.find?_cons, ih]
    cases valid (mk c) <;> rfl

theorem tryDestructionRun_free (k : Collaborators)
    (touch : Action → GameController → GameController) (hfree : ∀ a c, touch a c = c)
    (game : GameController) (candidates : List Card) :
    tryDestructionRun k touch game candidates = (tryDestruction k game candidates, game) := by
  unfold tryDestructionRun tryDestruction
  rw [firstValidRun_free k touch hfree, find_map_action]
  cases candidates.find? (fun c => (game.validateAction k (destructAction c.id)).isValid) with
  | some c => rfl
  | none =>
    simp only [Option.map_none', GameController.validateActionRun, hfree]
    cases (game.validateAction k (destructAction "")).isValid <;> rfl

theorem tryResurrectionRun_free (k : Collaborators)
    (touch : Action → GameController → GameController) (hfree : ∀ a c, touch a c = c)
    (game : GameController) (candidates : List Card) :
    tryResurrectionRun k touch game candidates = (tryResurrection k game candidates, game) := by
  unfold tryResurrectionRun tryResurrection
  rw [firstValidRun_free k touch hfree, find_map_action]
  cases candidates.find? (fun c => (game.validateAction k (resurrectAction c.id)).isValid) with
  | some c => rfl
  | none => rfl

theorem tryWondersRun_free (k : Collaborators)
    (touch : Action → GameController → GameController) (hfree : ∀ a c, touch a c = c)
    (game : GameController) (wonders : List Wonder) (slots : List (CardSlot × Card)) :
    tryWondersRun k touch game wonders slots = (tryWonders k game wonders slots, game) := by
  unfold tryWondersRun tryWonders
  exact firstValidRun_free k touch hfree _ game

theorem RandomAIAgent.agePlayRun_free (k : Collaborators)
    (touch : Action → GameController → GameController) (hfree : ∀ a c, touch a c = c)
    (game : GameController) (rng : RandomDraws) :
    RandomAIAgent.agePlayRun k touch game rng = (RandomAIAgent.agePlay k game rng, game) := by
  unfold RandomAIAgent.agePlayRun RandomAIAgent.agePlay
  simp only [tryWondersRun_free k touch hfree, firstValidRun_free k touch hfree]
  split
  · rfl
  · split_ifs
    · cases tryWonders k game game.model.getCurrentPlayer.unbuiltWonders
        (shuffleWith rng.order game.model.board.cardStructure.validSlots) with
      | some a => rfl
      | none =>
        simp only []
        cases ((shuffleWith rng.order game.model.board.cardStructure.validSlots).map
          (fun slot => buildAction slot.2.id)).find?
            (fun a => (game.validateAction k a).isValid) <;> rfl
    · simp only []
      cases ((shuffleWith rng.order game.model.board.cardStructure.validSlots).map
        (fun slot => buildAction slot.2.id)).find?
          (fun a => (game.validateAction k a).isValid) <;> rfl

theorem GreedyAIAgent.greedyPlayRun_free (k : Collaborators)
    (touch : Action → GameController → GameController) (hfree : ∀ a c, touch a c = c)
    (scoring : Scoring) (game : GameController) (rng : RandomDraws) :
    GreedyAIAgent.agePlayRun k touch scoring game rng
      = (GreedyAIAgent.agePlay k scoring game rng, game) := by
  unfold GreedyAIAgent.agePlayRun GreedyAIAgent.agePlay
  simp only [tryWondersRun_free k touch hfree, collectValidRun_free k touch hfree]
  split
  · rfl
  · split
    · rfl
    · split
      · rfl
      · cases tryWonders k game game.model.getCurrentPlayer.unbuiltWonders
          game.model.board.cardStructure.validSlots <;> rfl

theorem RandomAIAgent.decideActionRun_free (k : Collaborators)
    (touch : Action → GameController → GameController) (hfree : ∀ a c, touch a c = c)
    (game : GameController) (rng : RandomDraws) :
    RandomAIAgent.decideActionRun k touch game rng
      = (RandomAIAgent.decideAction k game rng, game) := by
  unfold RandomAIAgent.decideActionRun RandomAIAgent.decideAction
  simp only [tryDestructionRun_free k touch hfree, tryResurrectionRun_free k touch hfree,
    RandomAIAgent.agePlayRun_free k touch hfree]
  split_ifs <;> first | rfl | (split <;> rfl)

theorem GreedyAIAgent.greedyRun_free (k : Collaborators)
    (touch : Action → GameController → GameController) (hfree : ∀ a c, touch a c = c)
    (scoring : Scoring) (game : GameController) (rng : RandomDraws) :
    GreedyAIAgent.decideActionRun k touch scoring game rng
      = (GreedyAIAgent.decideAction k scoring game rng, game) := by
  unfold GreedyAIAgent.decideActionRun GreedyAIAgent.decideAction
  simp only [tryDestructionRun_free k touch hfree, tryResurrectionRun_free k touch hfree,
    GreedyAIAgent.greedyPlayRun_free k touch hfree]
  split_ifs <;> first | rfl | (split <;> rfl)

/-- C25. `RandomAIAgent::decideAction` and `GreedyAIAgent::decideAction` never execute an
action: the controller they leave behind is the one they were handed after a sequence of
`validateAction` calls and nothing else. Hence, when `validateAction` leaves the controller
as it is, the controller after `decideAction` (its game model and its state-machine state)
is the controller before it, in every game state, and the action returned is the one
computed from that controller. -/
theorem agents_decide_without_acting (k : Collaborators)
    (touch : Action → GameController → GameController) (scoring : Scoring)
    (game : GameController) (rng : RandomDraws) :
    (onlyValidated touch game (RandomAIAgent.decideActionRun k touch game rng).2 ∧
      onlyValidated touch game (GreedyAIAgent.decideActionRun k touch scoring game rng).2) ∧
    ((∀ a c, touch a c = c) →
      ((RandomAIAgent.decideActionRun k touch game rng).2 = game ∧
        (RandomAIAgent.decideActionRun k touch game rng).2.model = game.model ∧
        (RandomAIAgent.decideActionRun k touch game rng).2.currentState = game.currentState ∧
        (RandomAIAgent.decideActionRun k touch game rng).1
          = RandomAIAgent.decideAction k game rng) ∧
      ((GreedyAIAgent.decideActionRun k touch scoring game rng).2 = game ∧
        (GreedyAIAgent.decideActionRun k touch scoring game rng).2.model = game.model ∧
        (GreedyAIAgent.decideActionRun k touch scoring game rng).2.currentState
          = game.currentState ∧
        (GreedyAIAgent.decideActionRun k touch scoring game rng).1
          = GreedyAIAgent.decideAction k scoring game rng)) := by
  refine ⟨⟨RandomAIAgent.decideActionRun_only k touch game rng,
    GreedyAIAgent.greedyRun_only k touch scoring game rng⟩, fun hfree => ?_⟩
  rw [RandomAIAgent.decideActionRun_free k touch hfree,
    GreedyAIAgent.greedyRun_free k touch hfree]
  exact ⟨⟨rfl, rfl, rfl, rfl⟩, rfl, rfl, rfl, rfl⟩

theorem agents_decide_without_acting_witness :
    (RandomAIAgent.decideActionRun sampleCollaborators (fun _ c => c) buildController
      {}).2.currentState = GameState.AGE_PLAY_PHASE ∧
    (GreedyAIAgent.decideActionRun sampleCollaborators (fun _ c => c) sampleScoring
      greedyController {}).1 = buildAction "temple" :=
  have h1 := (agents_decide_without_acting sampleCollaborators (fun _ c => c) sampleScoring
    buildController {}).2 (fun _ _ => rfl)
  have h2 := (agents_decide_without_acting sampleCollaborators (fun _ c => c) sampleScoring
    greedyController {}).2 (fun _ _ => rfl)
  ⟨h1.1.2.2.1.trans rfl, h2.2.2.2.2.trans (by decide)⟩

/-! ## Theorems: what the agents choose -/

theorem tryWonders_some (k : Collaborators) (game : GameController) (wonders : List Wonder)
    (slots : List (CardSlot × Card)) (a : Action)
    (h : tryWonders k game wonders slots = some a) :
    ∃ w ∈ wonders, ∃ slot ∈ slots, a = wonderAction slot.2.id w.id ∧
      (game.validateAction k a).isValid = true := by
  unfold tryWonders at h
  have hvalid : (game.validateAction k a).isValid = true := by simpa using List.find?_some h
  have hmem := List.mem_of_find?_eq_some h
  simp only [List.mem_flatMap, List.mem_map] at hmem
  obtain ⟨w, hw, slot, hslot, rfl⟩ := hmem
  exact ⟨w, hw, slot, hslot, rfl, hvalid⟩

theorem tryWonders_none (k : Collaborators) (game : GameController) (wonders : List Wonder)
    (slots : List (CardSlot × Card)) (h : tryWonders k game wonders slots = none) :
    ∀ w ∈ wonders, ∀ slot ∈ slots,
      (game.validateAction k (wonderAction slot.2.id w.id)).isValid = false := by
  unfold tryWonders at h
  intro w hw slot hslot
  have := List.find?_eq_none.mp h (wonderAction slot.2.id w.id)
    (by
      simp only [List.mem_flatMap, List.mem_map]
      exact ⟨w, hw, slot, hslot, rfl⟩)
  simpa using this

theorem discardFirst_of_head (slots : List (CardSlot × Card)) (first : CardSlot × Card)
    (h : slots.head? = some first) :
    discardFirst slots
      = { invalidAction with
          type := ActionType.DISCARD_FOR_COINS, targetCardId := first.2.id } := by
  unfold discardFirst
  rw [h]

theorem head_of_not_isEmpty {α : Type} (l : List α) (h : l.isEmpty = false) :
    ∃ first, l.head? = some first ∧ first ∈ l := by
  cases l with
  | nil => simp at h
  | cons a rest => exact ⟨a, rfl, List.mem_cons_self _ _⟩

theorem CardPyramid.offersTarget_of_mem (p : CardPyramid) (a : Action)
    (entry : CardSlot × Card) (hmem : entry ∈ p.validSlots)
    (htarget : a.targetCardId = entry.2.id) : p.offersTarget a := by
  obtain ⟨slot, card⟩ := entry
  obtain ⟨h1, h2, h3, h4, h5⟩ := (p.mem_validSlots slot card).mp hmem
  exact ⟨⟨slot, card, h1, ⟨h2, h3, h4, h5⟩, htarget⟩,
    fun hcache => ⟨slot, card, h1, ⟨h2, h3, h4, h5⟩,
      htarget.trans (hcache slot h1 card h4).symm⟩⟩

theorem RandomAIAgent.agePlay_target (k : Collaborators) (game : GameController)
    (rng : RandomDraws) :
    RandomAIAgent.agePlay k game rng = invalidAction ∨
    ∃ entry ∈ game.model.board.cardStructure.validSlots,
      (RandomAIAgent.agePlay k game rng).targetCardId = entry.2.id := by
  have hsub : ∀ entry ∈ shuffleWith rng.order game.model.board.cardStructure.validSlots,
      entry ∈ game.model.board.cardStructure.validSlots :=
    fun entry h => (shuffleWith_perm rng.order _).subset h
  unfold RandomAIAgent.agePlay
  simp only []
  split
  · exact Or.inl rfl
  · rename_i hne
    right
    split
    · rename_i a hfound
      split at hfound
      · obtain ⟨w, _, slot, hslot, rfl, _⟩ := tryWonders_some k game _ _ a hfound
        exact ⟨slot, hsub slot hslot, rfl⟩
      · exact absurd hfound (by simp)
    · split
      · rename_i a hfound
        have hmem := List.mem_of_find?_eq_some hfound
        simp only [List.mem_map] at hmem
        obtain ⟨slot, hslot, rfl⟩ := hmem
        exact ⟨slot, hsub slot hslot, rfl⟩
      · have hne2 : (shuffleWith rng.order
            game.model.board.cardStructure.validSlots).isEmpty = false := by
          cases hs : shuffleWith rng.order game.model.board.cardStructure.validSlots with
          | nil =>
            have hperm := shuffleWith_perm rng.order game.model.board.cardStructure.validSlots
            rw [hs] at hperm
            rw [hperm.symm.eq_nil] at hne
            simp at hne
          | cons a rest => rfl
        obtain ⟨first, hhead, hin⟩ := head_of_not_isEmpty _ hne2
        rw [discardFirst_of_head _ first hhead]
        exact ⟨first, hsub first hin, rfl⟩

theorem GreedyAIAgent.agePlay_cases (k : Collaborators) (scoring : Scoring)
    (game : GameController) (rng : RandomDraws)
    (hne : game.model.board.cardStructure.validSlots.isEmpty = false) :
    (∃ entry ∈ game.model.board.cardStructure.validSlots,
      (game.validateAction k (buildAction entry.2.id)).isValid = true ∧
      GreedyAIAgent.agePlay k scoring game rng = buildAction entry.2.id) ∨
    ((∀ entry ∈ game.model.board.cardStructure.validSlots,
        (game.validateAction k (buildAction entry.2.id)).isValid = false) ∧
      ((∃ w ∈ game.model.getCurrentPlayer.unbuiltWonders,
          ∃ entry ∈ game.model.board.cardStructure.validSlots,
            (game.validateAction k (wonderAction entry.2.id w.id)).isValid = true ∧
            GreedyAIAgent.agePlay k scoring game rng = wonderAction entry.2.id w.id) ∨
        ((∀ w ∈ game.model.getCurrentPlayer.unbuiltWonders,
            ∀ entry ∈ game.model.board.cardStructure.validSlots,
              (game.validateAction k (wonderAction entry.2.id w.id)).isValid = false) ∧
          GreedyAIAgent.agePlay k scoring game rng
            = discardFirst game.model.board.cardStructure.validSlots))) := by
  unfold GreedyAIAgent.agePlay
  simp only [hne, Bool.false_eq_true, if_false]
  split
  · rename_i best hbest
    left
    obtain ⟨hin, _⟩ := sortDescending_head _ _ _ best hbest
    simp only [List.mem_map, List.mem_filter, decide_eq_true_eq] at hin
    obtain ⟨entry, ⟨⟨hmem, hvalid⟩, _⟩, rfl⟩ := hin
    exact ⟨entry, hmem, hvalid, rfl⟩
  · rename_i hblue
    split
    · rename_i best hbest
      left
      obtain ⟨hin, _⟩ := sortDescending_head _ _ _ best hbest
      simp only [List.mem_map, List.mem_filter, decide_eq_true_eq] at hin
      obtain ⟨entry, ⟨⟨hmem, hvalid⟩, _⟩, rfl⟩ := hin
      exact ⟨entry, hmem, hvalid, rfl⟩
    · rename_i hother
      right
      have hnone : ∀ entry ∈ game.model.board.cardStructure.validSlots,
          (game.validateAction k (buildAction entry.2.id)).isValid = false := by
        intro entry hmem
        cases hv : (game.validateAction k (buildAction entry.2.id)).isValid with
        | false => rfl
        | true =>
          exfalso
          by_cases hty : entry.2.type = CardType.CIVILIAN
          · have hin : (entry, scoring.cardPoints entry.2 game.model.getCurrentPlayer
                game.model.getOpponent) ∈
                ((game.model.board.cardStructure.validSlots.filter
                  (fun slot => (game.validateAction k (buildAction slot.2.id)).isValid)).filter
                    (fun slot => slot.2.type = CardType.CIVILIAN)).map
                      (fun slot => (slot, scoring.cardPoints slot.2
                        game.model.getCurrentPlayer game.model.getOpponent)) := by
              simp only [List.mem_map, List.mem_filter, decide_eq_true_eq]
              exact ⟨entry, ⟨⟨hmem, hv⟩, hty⟩, rfl⟩
            obtain ⟨best, hbest⟩ := sortDescending_head_isSome
              (fun e : (CardSlot × Card) × Int => e.2) rng.ties _ _ hin
            rw [hbest] at hblue
            exact absurd hblue (by simp)
          · have hin : (entry, scoring.cardPoints entry.2 game.model.getCurrentPlayer
                game.model.getOpponent) ∈
                ((game.model.board.cardStructure.validSlots.filter
                  (fun slot => (game.validateAction k (buildAction slot.2.id)).isValid)).filter
                    (fun slot => slot.2.type ≠ CardType.CIVILIAN)).map
                      (fun slot => (slot, scoring.cardPoints slot.2
                        game.model.getCurrentPlayer game.model.getOpponent)) := by
              simp only [List.mem_map, List.mem_filter, decide_eq_true_eq]
              exact ⟨entry, ⟨⟨hmem, hv⟩, hty⟩, rfl⟩
            obtain ⟨best, hbest⟩ := sortDescending_head_isSome
              (fun e : (CardSlot × Card) × Int => e.2) rng.ties _ _ hin
            rw [hbest] at hother
            exact absurd hother (by simp)
      refine ⟨hnone, ?_⟩
      split
      · rename_i a hfound
        left
        obtain ⟨w, hw, entry, hmem, rfl, hvalid⟩ := tryWonders_some k game _ _ a hfound
        exact ⟨w, hw, entry, hmem, hvalid, rfl⟩
      · rename_i hfound
        right
        exact ⟨tryWonders_none k game _ _ hfound, rfl⟩

theorem RandomAIAgent.randomAction_agePlay (k : Collaborators) (game : GameController)
    (rng : RandomDraws) (hstate : game.currentState = GameState.AGE_PLAY_PHASE) :
    RandomAIAgent.decideAction k game rng = RandomAIAgent.agePlay k game rng := by
  unfold RandomAIAgent.decideAction
  simp [hstate]

theorem GreedyAIAgent.greedyPlay_target (k : Collaborators) (scoring : Scoring)
    (game : GameController) (rng : RandomDraws) :
    GreedyAIAgent.agePlay k scoring game rng = invalidAction ∨
    ∃ entry ∈ game.model.board.cardStructure.validSlots,
      (GreedyAIAgent.agePlay k scoring game rng).targetCardId = entry.2.id := by
  cases hne : game.model.board.cardStructure.validSlots.isEmpty with
  | true =>
    left
    unfold GreedyAIAgent.agePlay
    simp only [hne, if_true]
  | false =>
    right
    rcases GreedyAIAgent.agePlay_cases k scoring game rng hne with
      ⟨entry, hmem, _, hret⟩ | ⟨_, ⟨w, _, entry, hmem, _, hret⟩ | ⟨_, hret⟩⟩
    · exact ⟨entry, hmem, by rw [hret]; rfl⟩
    · exact ⟨entry, hmem, by rw [hret]; rfl⟩
    · obtain ⟨first, hhead, hin⟩ := head_of_not_isEmpty _ hne
      exact ⟨first, hin, by rw [hret, discardFirst_of_head _ first hhead]⟩

/-- C21. In `AGE_PLAY_PHASE`, every `BUILD_CARD`, `BUILD_WONDER` or `DISCARD_FOR_COINS`
action returned by `RandomAIAgent::decideAction` or `GreedyAIAgent::decideAction` has as
`targetCardId` the id of the card held by a pyramid slot that is not removed, has an empty
`coveredBy` list and is face-up; that id is the id of the slot itself whenever the slots
cache the ids of their cards. -/
theorem agents_target_selectable (k : Collaborators) (scoring : Scoring)
    (game : GameController) (rng : RandomDraws)
    (hstate : game.currentState = GameState.AGE_PLAY_PHASE) :
    (((RandomAIAgent.decideAction k game rng).type = ActionType.BUILD_CARD ∨
        (RandomAIAgent.decideAction k game rng).type = ActionType.BUILD_WONDER ∨
        (RandomAIAgent.decideAction k game rng).type = ActionType.DISCARD_FOR_COINS) →
      game.model.board.cardStructure.offersTarget (RandomAIAgent.decideAction k game rng)) ∧
    (((GreedyAIAgent.decideAction k scoring game rng).type = ActionType.BUILD_CARD ∨
        (GreedyAIAgent.decideAction k scoring game rng).type = ActionType.BUILD_WONDER ∨
        (GreedyAIAgent.decideAction k scoring game rng).type
          = ActionType.DISCARD_FOR_COINS) →
      game.model.board.cardStructure.offersTarget
        (GreedyAIAgent.decideAction k scoring game rng)) := by
  rw [RandomAIAgent.randomAction_agePlay k game rng hstate,
    GreedyAIAgent.decideAction_agePlay k scoring game rng hstate]
  constructor
  · intro htype
    rcases RandomAIAgent.agePlay_target k game rng with hinv | ⟨entry, hmem, htarget⟩
    · rw [hinv] at htype
      exact absurd htype (by decide)
    · exact game.model.board.cardStructure.offersTarget_of_mem _ entry hmem htarget
  · intro htype
    rcases GreedyAIAgent.greedyPlay_target k scoring game rng with hinv | ⟨entry, hmem, htarget⟩
    · rw [hinv] at htype
      exact absurd htype (by decide)
    · exact game.model.board.cardStructure.offersTarget_of_mem _ entry hmem htarget

theorem agents_target_selectable_witness :
    buildController.model.board.cardStructure.offersTarget
      (RandomAIAgent.decideAction sampleCollaborators buildController {}) ∧
    greedyController.model.board.cardStructure.offersTarget
      (GreedyAIAgent.decideAction sampleCollaborators sampleScoring greedyController {}) :=
  ⟨(agents_target_selectable sampleCollaborators sampleScoring buildController {} rfl).1
      (Or.inl (by decide)),
    (agents_target_selectable sampleCollaborators sampleScoring greedyController {} rfl).2
      (Or.inl (by decide))⟩

theorem tryDestruction_found (k : Collaborators) (game : GameController)
    (candidates : List Card)
    (h : ∃ c ∈ candidates, (game.validateAction k (destructAction c.id)).isValid = true) :
    ∃ c ∈ candidates, (game.validateAction k (destructAction c.id)).isValid = true ∧
      tryDestruction k game candidates = destructAction c.id := by
  unfold tryDestruction
  cases hfind : candidates.find?
      (fun c => (game.validateAction k (destructAction c.id)).isValid) with
  | some c =>
    exact ⟨c, List.mem_of_find?_eq_some hfind, by simpa using List.find?_some hfind, rfl⟩
  | none =>
    obtain ⟨c, hc, hv⟩ := h
    have := List.find?_eq_none.mp hfind c hc
    simp [hv] at this

theorem tryDestruction_none (k : Collaborators) (game : GameController)
    (candidates : List Card)
    (h : ∀ c ∈ candidates, (game.validateAction k (destructAction c.id)).isValid = false) :
    tryDestruction k game candidates
      = if (game.validateAction k (destructAction "")).isValid then destructAction ""
        else invalidAction := by
  unfold tryDestruction
  cases hfind : candidates.find?
      (fun c => (game.validateAction k (destructAction c.id)).isValid) with
  | some c =>
    have hv : (game.validateAction k (destructAction c.id)).isValid = true := by
      simpa using List.find?_some hfind
    rw [h c (List.mem_of_find?_eq_some hfind)] at hv
    exact absurd hv (by simp)
  | none => rfl

theorem tryDestruction_lastResort (k : Collaborators) (game : GameController)
    (candidates : List Card) (hperm : candidates.Perm game.model.getOpponent.builtCards)
    (hids : ∀ c ∈ game.model.getOpponent.builtCards, c.id ≠ "") :
    game.skipsAsLastResort k (tryDestruction k game candidates) := by
  have hfound : (∃ c ∈ game.model.getOpponent.builtCards,
      (game.validateAction k (destructAction c.id)).isValid = true) →
      ∃ c ∈ game.model.getOpponent.builtCards,
        (game.validateAction k (destructAction c.id)).isValid = true ∧
        tryDestruction k game candidates = destructAction c.id := by
    rintro ⟨c, hc, hv⟩
    obtain ⟨d, hd, hdv, hret⟩ := tryDestruction_found k game candidates
      ⟨c, hperm.symm.subset hc, hv⟩
    exact ⟨d, hperm.subset hd, hdv, hret⟩
  refine ⟨⟨fun hskip => ?_, fun hnone => ?_⟩, hfound⟩
  · have hnone : ∀ c ∈ game.model.getOpponent.builtCards,
        (game.validateAction k (destructAction c.id)).isValid = false := by
      intro c hc
      cases hv : (game.validateAction k (destructAction c.id)).isValid with
      | false => rfl
      | true =>
        exfalso
        obtain ⟨d, hd, _, hret⟩ := hfound ⟨c, hc, hv⟩
        rw [hret] at hskip
        exact hids d hd (congrArg Action.targetCardId hskip)
    refine ⟨hnone, ?_⟩
    rw [tryDestruction_none k game candidates
      (fun c hc => hnone c (hperm.subset hc))] at hskip
    cases hv : (game.validateAction k (destructAction "")).isValid with
    | true => rfl
    | false =>
      rw [hv] at hskip
      exact absurd hskip (by decide)
  · rw [tryDestruction_none k game candidates (fun c hc => hnone.1 c (hperm.subset hc)),
      hnone.2]
    rfl

/-- C22. In `WAITING_FOR_DESTRUCTION`, when the cards built by the opponent have non-empty
ids, `RandomAIAgent::decideAction` and `GreedyAIAgent::decideAction` return the empty-target
`SELECT_DESTRUCTION` action exactly when no card built by the opponent passes
`SELECT_DESTRUCTION` validation and the empty-target action itself passes; and whenever some
card of the opponent passes validation, the action returned targets such a card. -/
theorem destruction_skip_last_resort (k : Collaborators) (scoring : Scoring)
    (game : GameController) (rng : RandomDraws)
    (hstate : game.currentState = GameState.WAITING_FOR_DESTRUCTION)
    (hids : ∀ c ∈ game.model.getOpponent.builtCards, c.id ≠ "") :
    game.skipsAsLastResort k (RandomAIAgent.decideAction k game rng) ∧
    game.skipsAsLastResort k (GreedyAIAgent.decideAction k scoring game rng) := by
  have hrandom : RandomAIAgent.decideAction k game rng
      = tryDestruction k game (shuffleWith rng.order game.model.getOpponent.builtCards) := by
    unfold RandomAIAgent.decideAction
    simp [hstate]
  have hgreedy : GreedyAIAgent.decideAction k scoring game rng
      = tryDestruction k game (sortDescending
          (fun c => scoring.cardPoints c game.model.getOpponent game.model.getCurrentPlayer)
          rng.ties game.model.getOpponent.builtCards) := by
    unfold GreedyAIAgent.decideAction
    simp [hstate]
  rw [hrandom, hgreedy]
  exact ⟨tryDestruction_lastResort k game _ (shuffleWith_perm _ _) hids,
    tryDestruction_lastResort k game _ (sortDescending_perm _ _ _) hids⟩

theorem destruction_skip_last_resort_witness :
    (destructionController CardType.MILITARY).skipsAsLastResort destructionCollaborators
      (RandomAIAgent.decideAction destructionCollaborators
        (destructionController CardType.MILITARY) {}) ∧
    RandomAIAgent.decideAction destructionCollaborators
        (destructionController CardType.MILITARY) {} = destructAction "barracks" ∧
    GreedyAIAgent.decideAction destructionCollaborators sampleScoring
        (destructionController CardType.GUILD) {} = destructAction "" :=
  have hids : ∀ colour, ∀ c ∈ (destructionController colour).model.getOpponent.builtCards,
      c.id ≠ "" := by
    intro colour c hc
    have hcards : (destructionController colour).model.getOpponent.builtCards
        = [baths, barracks, temple] := rfl
    rw [hcards] at hc
    simp only [List.mem_cons, List.mem_singleton, List.not_mem_nil, or_false] at hc
    rcases hc with rfl | rfl | rfl <;> decide
  have hmil := (destruction_skip_last_resort destructionCollaborators sampleScoring
    (destructionController CardType.MILITARY) {} rfl (hids _)).1
  have hguild := (destruction_skip_last_resort destructionCollaborators sampleScoring
    (destructionController CardType.GUILD) {} rfl (hids _)).2
  ⟨hmil, by decide, hguild.1.mpr ⟨by
    intro c hc
    have hcards : (destructionController CardType.GUILD).model.getOpponent.builtCards
        = [baths, barracks, temple] := rfl
    rw [hcards] at hc
    simp only [List.mem_cons, List.mem_singleton, List.not_mem_nil, or_false] at hc
    rcases hc with rfl | rfl | rfl <;> decide, by decide⟩⟩

theorem validSlots_head_aux (slots : List CardSlot) :
    ∀ (slot : CardSlot) (card : Card),
      ((slots.filter CardSlot.available).filterMap (fun s =>
        match s.cardPtr with
        | some held => if s.isFaceUp then some (s, held) else none
        | none => none)).head? = some (slot, card) →
      ∃ i, slots[i]? = some slot ∧ slot.offers card ∧
        ∀ (j : Nat) (earlier : CardSlot), j < i → slots[j]? = some earlier →
          ∀ held, ¬ earlier.offers held := by
  induction slots with
  | nil => intro slot card h; simp at h
  | cons s rest ih =>
    intro slot card h
    by_cases hoffer : ∃ held, s.offers held
    · obtain ⟨held, hrem, hcov, hptr, hface⟩ := hoffer
      have hav : s.available = true := by simp [CardSlot.available, hrem, hcov]
      simp only [List.filter_cons, hav, if_true, List.filterMap_cons, hptr, hface,
        List.head?_cons, Option.some.injEq, Prod.mk.injEq] at h
      obtain ⟨rfl, rfl⟩ := h
      exact ⟨0, by simp, ⟨hrem, hcov, hptr, hface⟩, fun j earlier hj => by omega⟩
    · have hskip : ((s :: rest).filter CardSlot.available).filterMap (fun s =>
          match s.cardPtr with
          | some held => if s.isFaceUp then some (s, held) else none
          | none => none)
          = (rest.filter CardSlot.available).filterMap (fun s =>
          match s.cardPtr with
          | some held => if s.isFaceUp then some (s, held) else none
          | none => none) := by
        cases hav : s.available with
        | false => simp [List.filter_cons, hav]
        | true =>
          simp only [List.filter_cons, hav, if_true, List.filterMap_cons]
          cases hptr : s.cardPtr with
          | none => rfl
          | some held =>
            cases hface : s.isFaceUp with
            | false => simp
            | true =>
              exfalso
              simp only [CardSlot.available, Bool.and_eq_true, Bool.not_eq_true',
                List.isEmpty_iff] at hav
              exact hoffer ⟨held, hav.1, hav.2, hptr, hface⟩
      rw [hskip] at h
      obtain ⟨i, hget, hoff, hfirst⟩ := ih slot card h
      refine ⟨i + 1, by simpa using hget, hoff, fun j earlier hj hje held hheld => ?_⟩
      cases j with
      | zero =>
        simp only [List.getElem?_cons_zero, Option.some.injEq] at hje
        subst hje
        exact hoffer ⟨held, hheld⟩
      | succ j =>
        simp only [List.getElem?_cons_succ] at hje
        exact hfirst j earlier (by omega) hje held hheld

theorem CardPyramid.validSlots_head (p : CardPyramid) (slot : CardSlot) (card : Card)
    (h : p.validSlots.head? = some (slot, card)) :
    ∃ i, p.slots[i]? = some slot ∧ slot.offers card ∧
      ∀ (j : Nat) (earlier : CardSlot), j < i → p.slots[j]? = some earlier →
        ∀ held, ¬ earlier.offers held := by
  unfold CardPyramid.validSlots at h
  rw [p.visitedSlots_eq] at h
  exact validSlots_head_aux p.slots slot card h

theorem CardPyramid.validSlots_isEmpty (p : CardPyramid)
    (h : ∃ slot ∈ p.slots, ∃ card, slot.offers card) : p.validSlots.isEmpty = false := by
  obtain ⟨slot, hmem, card, h1, h2, h3, h4⟩ := h
  have hin := (p.mem_validSlots slot card).mpr ⟨hmem, h1, h2, h3, h4⟩
  cases hv : p.validSlots with
  | nil => rw [hv] at hin; simp at hin
  | cons a rest => rfl

/-- C23. In `AGE_PLAY_PHASE` with at least one selectable face-up card,
`GreedyAIAgent::decideAction` returns a `DISCARD_FOR_COINS` action if and only if no
selectable face-up card passes `BUILD_CARD` validation and no pair of an unbuilt wonder of the
current player and a selectable face-up card passes `BUILD_WONDER` validation; the card it
then discards is the card of the first selectable face-up slot in storage order, which is
the order of traversal. -/
theorem GreedyAIAgent.discards_as_fallback (k : Collaborators) (scoring : Scoring)
    (game : GameController) (rng : RandomDraws)
    (hstate : game.currentState = GameState.AGE_PLAY_PHASE)
    (hsome : ∃ slot ∈ game.model.board.cardStructure.slots, ∃ card, slot.offers card) :
    ((GreedyAIAgent.decideAction k scoring game rng).type = ActionType.DISCARD_FOR_COINS ↔
      ((∀ slot ∈ game.model.board.cardStructure.slots, ∀ card, slot.offers card →
          (game.validateAction k (buildAction card.id)).isValid = false) ∧
        (∀ w ∈ game.model.getCurrentPlayer.unbuiltWonders,
          ∀ slot ∈ game.model.board.cardStructure.slots, ∀ card, slot.offers card →
            (game.validateAction k (wonderAction card.id w.id)).isValid = false))) ∧
    ((GreedyAIAgent.decideAction k scoring game rng).type = ActionType.DISCARD_FOR_COINS →
      ∃ (i : Nat) (slot : CardSlot) (card : Card),
        game.model.board.cardStructure.slots[i]? = some slot ∧
        slot.offers card ∧
        (∀ (j : Nat) (earlier : CardSlot), j < i →
          game.model.board.cardStructure.slots[j]? = some earlier →
          ∀ held, ¬ earlier.offers held) ∧
        GreedyAIAgent.decideAction k scoring game rng
          = { invalidAction with
              type := ActionType.DISCARD_FOR_COINS, targetCardId := card.id }) := by
  have hne := game.model.board.cardStructure.validSlots_isEmpty hsome
  have hmemIff := game.model.board.cardStructure.mem_validSlots
  obtain ⟨first, hhead, -⟩ := head_of_not_isEmpty _ hne
  have hdiscard := discardFirst_of_head _ first hhead
  rw [GreedyAIAgent.decideAction_agePlay k scoring game rng hstate]
  rcases GreedyAIAgent.agePlay_cases k scoring game rng hne with
    ⟨entry, hmem, hvalid, hret⟩ | ⟨hnobuild, ⟨w, hw, entry, hmem, hvalid, hret⟩ |
      ⟨hnowonder, hret⟩⟩
  · obtain ⟨eslot, ecard⟩ := entry
    obtain ⟨e1, e2, e3, e4, e5⟩ := (hmemIff eslot ecard).mp hmem
    rw [hret]
    refine ⟨⟨fun h => ActionType.noConfusion h, fun h => ?_⟩,
      fun h => ActionType.noConfusion h⟩
    have := h.1 eslot e1 ecard ⟨e2, e3, e4, e5⟩
    rw [hvalid] at this
    exact absurd this (by simp)
  · obtain ⟨eslot, ecard⟩ := entry
    obtain ⟨e1, e2, e3, e4, e5⟩ := (hmemIff eslot ecard).mp hmem
    rw [hret]
    refine ⟨⟨fun h => ActionType.noConfusion h, fun h => ?_⟩,
      fun h => ActionType.noConfusion h⟩
    have := h.2 w hw eslot e1 ecard ⟨e2, e3, e4, e5⟩
    rw [hvalid] at this
    exact absurd this (by simp)
  · rw [hret, hdiscard]
    refine ⟨⟨fun _ => ⟨?_, ?_⟩, fun _ => rfl⟩, fun _ => ?_⟩
    · intro slot hslot card hoff
      exact hnobuild (slot, card)
        ((hmemIff slot card).mpr ⟨hslot, hoff.1, hoff.2.1, hoff.2.2.1, hoff.2.2.2⟩)
    · intro w hw slot hslot card hoff
      exact hnowonder w hw (slot, card)
        ((hmemIff slot card).mpr ⟨hslot, hoff.1, hoff.2.1, hoff.2.2.1, hoff.2.2.2⟩)
    · obtain ⟨fslot, fcard⟩ := first
      obtain ⟨i, hget, hoff, hfirst⟩ :=
        game.model.board.cardStructure.validSlots_head fslot fcard hhead
      exact ⟨i, fslot, fcard, hget, hoff, hfirst, rfl⟩

theorem GreedyAIAgent.discards_as_fallback_witness :
    (GreedyAIAgent.decideAction refusingCollaborators sampleScoring buildController {}).type
      = ActionType.DISCARD_FOR_COINS ∧
    GreedyAIAgent.decideAction refusingCollaborators sampleScoring buildController {}
      = { invalidAction with
          type := ActionType.DISCARD_FOR_COINS, targetCardId := "barracks" } ∧
    (GreedyAIAgent.decideAction sampleCollaborators sampleScoring buildController {}).type
      ≠ ActionType.DISCARD_FOR_COINS :=
  have hsome : ∃ slot ∈ buildController.model.board.cardStructure.slots,
      ∃ card, slot.offers card :=
    ⟨{ id := "barracks", cardPtr := some barracks, isFaceUp := true },
      by simp [buildController], barracks, rfl, rfl, rfl, rfl⟩
  have hrefuse := GreedyAIAgent.discards_as_fallback refusingCollaborators sampleScoring
    buildController {} rfl hsome
  have haccept := GreedyAIAgent.discards_as_fallback sampleCollaborators sampleScoring
    buildController {} rfl hsome
  ⟨hrefuse.1.mpr ⟨fun _ _ _ _ => rfl, fun _ _ _ _ _ _ => rfl⟩, by decide, fun h => by
    have := (haccept.1.mp h).1 { id := "barracks", cardPtr := some barracks, isFaceUp := true }
      (by simp [buildController]) barracks ⟨rfl, rfl, rfl, rfl⟩
    exact absurd this (by decide)⟩

theorem bestWonderLoop_spec (points : Wonder → Int) :
    ∀ (pool : List Wonder) (best : Option Wonder × Int),
      (bestWonderLoop points pool best = best ∧ ∀ w ∈ pool, points w ≤ best.2) ∨
      ∃ (i : Nat) (w : Wonder), pool[i]? = some w ∧
        bestWonderLoop points pool best = (some w, points w) ∧ best.2 < points w ∧
        (∀ other ∈ pool, points other ≤ points w) ∧
        ∀ (j : Nat) (earlier : Wonder), j < i → pool[j]? = some earlier →
          points earlier < points w := by
  intro pool
  induction pool with
  | nil => exact fun best => Or.inl ⟨rfl, fun w hw => by simp at hw⟩
  | cons first rest ih =>
    intro best
    unfold bestWonderLoop
    by_cases hgt : points first > best.2
    · rw [if_pos hgt]
      right
      rcases ih (some first, points first) with
        ⟨hret, hle⟩ | ⟨i, w, hget, hret, hlt, hle, hfirst⟩
      · refine ⟨0, first, by simp, hret, hgt, fun other ho => ?_, fun j earlier hj => by omega⟩
        rcases List.mem_cons.mp ho with rfl | hin
        · exact le_refl _
        · exact hle other hin
      · refine ⟨i + 1, w, by simpa using hget, hret, lt_trans hgt hlt, fun other ho => ?_,
          fun j earlier hj hje => ?_⟩
        · rcases List.mem_cons.mp ho with rfl | hin
          · exact le_of_lt hlt
          · exact hle other hin
        · cases j with
          | zero =>
            simp only [List.getElem?_cons_zero, Option.some.injEq] at hje
            subst hje
            exact hlt
          | succ j =>
            simp only [List.getElem?_cons_succ] at hje
            exact hfirst j earlier (by omega) hje
    · rw [if_neg hgt]
      have hfle : points first ≤ best.2 := not_lt.mp hgt
      rcases ih best with ⟨hret, hle⟩ | ⟨i, w, hget, hret, hlt, hle, hfirst⟩
      · left
        refine ⟨hret, fun other ho => ?_⟩
        rcases List.mem_cons.mp ho with rfl | hin
        · exact hfle
        · exact hle other hin
      · right
        refine ⟨i + 1, w, by simpa using hget, hret, hlt, fun other ho => ?_,
          fun j earlier hj hje => ?_⟩
        · rcases List.mem_cons.mp ho with rfl | hin
          · exact le_of_lt (lt_of_le_of_lt hfle hlt)
          · exact hle other hin
        · cases j with
          | zero =>
            simp only [List.getElem?_cons_zero, Option.some.injEq] at hje
            subst hje
            exact lt_of_le_of_lt hfle hlt
          | succ j =>
            simp only [List.getElem?_cons_succ] at hje
            exact hfirst j earlier (by omega) hje

/-- C24, amended. In either wonder-draft state, when some wonder of the draft pool has
victory points that are not negative, `GreedyAIAgent::decideAction` returns a `DRAFT_WONDER`
action whose `targetWonderId` is the id of a pool wonder whose victory points are maximal
over the pool, and every wonder before it in pool order has strictly fewer points: it is the
earliest wonder of maximal points. When every wonder of the pool has negative victory points
(none exceeds the initial `bestVP = -1`), it drafts nothing and returns its initial action of
type `-1`. -/
theorem GreedyAIAgent.drafts_best_wonder (k : Collaborators) (scoring : Scoring)
    (game : GameController) (rng : RandomDraws)
    (hstate : game.currentState = GameState.WONDER_DRAFT_PHASE_1 ∨
      game.currentState = GameState.WONDER_DRAFT_PHASE_2) :
    ((∃ w ∈ game.model.draftPool,
        0 ≤ scoring.wonderPoints w game.model.getCurrentPlayer game.model.getOpponent) →
      ∃ (i : Nat) (w : Wonder), game.model.draftPool[i]? = some w ∧
        GreedyAIAgent.decideAction k scoring game rng
          = { invalidAction with type := ActionType.DRAFT_WONDER, targetWonderId := w.id } ∧
        (∀ other ∈ game.model.draftPool,
          scoring.wonderPoints other game.model.getCurrentPlayer game.model.getOpponent
            ≤ scoring.wonderPoints w game.model.getCurrentPlayer game.model.getOpponent) ∧
        ∀ (j : Nat) (earlier : Wonder), j < i → game.model.draftPool[j]? = some earlier →
          scoring.wonderPoints earlier game.model.getCurrentPlayer game.model.getOpponent
            < scoring.wonderPoints w game.model.getCurrentPlayer game.model.getOpponent) ∧
    ((∀ w ∈ game.model.draftPool,
        scoring.wonderPoints w game.model.getCurrentPlayer game.model.getOpponent < 0) →
      GreedyAIAgent.decideAction k scoring game rng = invalidAction) := by
  have hloop := bestWonderLoop_spec
    (fun w => scoring.wonderPoints w game.model.getCurrentPlayer game.model.getOpponent)
    game.model.draftPool (none, -1)
  constructor
  · rintro ⟨w0, hw0, hnonneg⟩
    have hne : game.model.draftPool.isEmpty = false := by
      cases hp : game.model.draftPool with
      | nil => rw [hp] at hw0; simp at hw0
      | cons a rest => rfl
    rcases hloop with ⟨_, hle⟩ | ⟨i, w, hget, hret, _, hmax, hfirst⟩
    · have := hle w0 hw0
      simp only at this
      omega
    · refine ⟨i, w, hget, ?_, hmax, hfirst⟩
      unfold GreedyAIAgent.decideAction
      simp only [hstate, if_true, hne, Bool.not_false, hret]
  · intro hneg
    rcases hloop with ⟨hret, _⟩ | ⟨i, w, hget, _, hlt, _, _⟩
    · unfold GreedyAIAgent.decideAction
      simp only [hstate, if_true, hret]
      split <;> rfl
    · have := hneg w (List.getElem?_mem hget)
      simp only at hlt
      omega

theorem GreedyAIAgent.drafts_best_wonder_witness :
    GreedyAIAgent.decideAction sampleCollaborators draftScoring draftController {}
      = { invalidAction with type := ActionType.DRAFT_WONDER, targetWonderId := "sphinx" } :=
  match (GreedyAIAgent.drafts_best_wonder sampleCollaborators draftScoring draftController {}
    (Or.inl rfl)).1 ⟨lighthouse, by simp [draftController], by decide⟩ with
  | ⟨_, _, _, hret, _, _⟩ => hret.trans (by
      rw [← hret]
      decide)

/-- C24 as stated fails: on a pool of one wonder whose victory points are negative the agent
returns the action of type `-1`, not a `DRAFT_WONDER` action. -/
theorem GreedyAIAgent.drafts_nothing_below_zero :
    negativeController.model.draftPool.isEmpty = false ∧
    GreedyAIAgent.decideAction sampleCollaborators negativeScoring negativeController {}
      = invalidAction ∧
    (GreedyAIAgent.decideAction sampleCollaborators negativeScoring negativeController {}).type
      ≠ ActionType.DRAFT_WONDER := by
  decide

/-! ## Theorems: the random agent and the legal action space -/

end SevenWondersDuel
